import Mathlib

/-!
# Kinbaku storage engine: shallow embedding

A shallow embedding of the kinbaku on-disk directed-graph engine
(`kinbaku/graph.py`, `kinbaku/utils.py`, `kinbaku/structure.py`).

Modelling conventions, fixed throughout this file:

* The memory-mapped file is modelled at record granularity: a total map
  `Int → Slot` from slot indices to decoded records.  A slot holds either a
  node record or an edge record (every record starts with the `is_node` byte,
  which is the tag of the `Slot` sum).  The codec (`pack`/`unpack`) is
  invertible on well-formed records, so reads and writes of whole records are
  modelled as map lookups and updates.  The one place where the byte layout
  itself matters - `find_tombstones` unpacks a `"?l"` prefix of a record - is
  modelled explicitly below (see `tombstoneProbe`), assuming the default
  CPython native struct formats on 64-bit Linux (`int_format="l"` is an
  8-byte long, natively aligned).
* Integers are unbounded `Int`: the default formats are 64-bit signed longs
  and the engine never exercises wrap-around.
* Strings are Lean `String`s; the fixed-width zero-padded character codec
  round-trips every key that fits in `max_key_len` and contains no NUL, so
  keys are stored as the strings themselves.
* The hash function is a constructor parameter of the engine
  (`hash_func`), so it is a parameter `hashFn` of the model.
* The four LRU caches are read-through caches in front of the mapping;
  they are modelled as always missing (every read goes to the file map) and
  `add_node` starts its walk at position 0 (the cache-miss behaviour).
  No claim in this development concerns the caches themselves.
* Python `while` loops and recursive generators become fuel-indexed
  recursion; exhausted fuel surfaces as `Err.fuel` (the Python code would
  simply keep running).
* Python exceptions become an `Err` sum; a raising method returns the
  error together with the state as mutated so far.
* Each write of record or header bytes into the mapping is additionally
  recorded as an event in a write trace (`Ev`), used to reason about the
  order of mapped-file writes within one public call.
-/

namespace Kinbaku

/-- Node record (`structure.py` dataclass `Node`): `is_node`, `exists`,
`hash`, `left`, `right`, `index`, `position`, `parent`, `edge_start`,
`key`. -/
structure NodeRec where
  is_node : Bool
  nexists : Bool
  hash : Int
  left : Int
  right : Int
  index : Int
  position : Int
  parent : Int
  edge_start : Int
  key : String
deriving DecidableEq, Repr

/-- Edge record (`structure.py` dataclass `Edge`). -/
structure EdgeRec where
  is_node : Bool
  nexists : Bool
  is_edge_start : Bool
  position : Int
  source_position : Int
  target_position : Int
  hash : Int
  out_edge_left : Int
  out_edge_right : Int
  out_edge_parent : Int
  in_edge_left : Int
  in_edge_right : Int
  in_edge_parent : Int
  type : Int
deriving DecidableEq, Repr

/-- File header (`structure.py` dataclass `Header`). -/
structure Header where
  n_nodes : Int
  n_edges : Int
  node_id : Int
  next_table_position : Int
  table_size : Int
  class_length : Int
deriving DecidableEq, Repr

/-- Lexicographic order on code-point lists: Python's `<` on strings. -/
def codeLt : List Char → List Char → Bool
  | [], [] => false
  | [], _ :: _ => true
  | _ :: _, [] => false
  | a :: as, b :: bs =>
    if a.toNat < b.toNat then true
    else if b.toNat < a.toNat then false
    else codeLt as bs

/-- Python's `<` on strings: lexicographic on code points. -/
def strLtPy (a b : String) : Bool := codeLt a.data b.data

/-- `compare_nodes` from `utils.py`: compares node B (`bHash`, `bKey`)
against node A (`aHash`, `aKey`); hash first, then key. -/
def compareNodes (aHash : Int) (aKey : String) (bHash : Int) (bKey : String) : Int :=
  if bHash < aHash then -1
  else if bHash > aHash then 1
  else
    if strLtPy bKey aKey then -1
    else if strLtPy aKey bKey then 1
    else 0

/-- `compare_edges` from `utils.py`, translated branch for branch. -/
def compareEdges (A B : EdgeRec) : Int :=
  if A.hash = B.hash ∧ A.source_position = B.source_position ∧
      A.target_position = B.target_position ∧ A.type = B.type then 0
  else if B.hash < A.hash then -1
  else if B.hash > A.hash then 1
  else
    if A.source_position = B.source_position then
      if B.target_position < A.target_position then -1
      else if B.target_position > A.target_position then 1
      else if B.type < A.type then -1
      else if B.type > A.type then 1
      else 0
    else if B.target_position < A.target_position then
      if B.source_position < A.source_position then -1
      else if B.source_position > A.source_position then 1
      else if B.type < A.type then -1
      else 1
    else if B.type < A.type then -1
    else 1

/-- Three-way comparison of integers. -/
def cmpInt (x y : Int) : Int :=
  if x < y then -1 else if x > y then 1 else 0

/-- Modelled from the spec's words (for comparison against `compareEdges`):
the lexicographic comparison of B's tuple
`(hash, source_position, target_position, type)` against A's. -/
def lexEdges (A B : EdgeRec) : Int :=
  if B.hash ≠ A.hash then cmpInt B.hash A.hash
  else if B.source_position ≠ A.source_position then
    cmpInt B.source_position A.source_position
  else if B.target_position ≠ A.target_position then
    cmpInt B.target_position A.target_position
  else cmpInt B.type A.type

/-- A concrete edge record with only the comparison-relevant fields set. -/
def mkCmpEdge (h s t ty : Int) : EdgeRec :=
  { is_node := false, nexists := true, is_edge_start := false,
    position := 0, source_position := s, target_position := t,
    hash := h, out_edge_left := 0, out_edge_right := 0, out_edge_parent := 0,
    in_edge_left := 0, in_edge_right := 0, in_edge_parent := 0, type := ty }

/-- A slot of the mapped file, decoded; the tag is the leading `is_node`
byte that every record starts with. -/
inductive Slot where
  | nodeS (n : NodeRec)
  | edgeS (e : EdgeRec)
deriving DecidableEq, Repr

/-- Engine configuration fixed at `Graph.__init__`: the hash function, the
maximum key length, the table increment, and `R`, the
`NODE_TO_EDGE_RATIO` (`ceil(NODE_SIZE / EDGE_SIZE)`; `1` under the default
formats, where a node record of 86 bytes fits into one 96-byte edge
slot). -/
structure Cfg where
  hashFn : String → Int
  maxKeyLen : Nat
  tableIncrement : Int
  R : Int

/-- The mutable engine state: the mapped file at record granularity, the
in-memory header, and the two in-memory free lists. -/
structure GraphState where
  file : Int → Slot
  header : Header
  node_tombstone : List Int
  edge_tombstone : List Int

/-- One write of bytes into the mapped file: a node record, an edge
record, or the header block. -/
inductive Ev where
  | wnode (pos : Int)
  | wedge (pos : Int)
  | wheader
deriving DecidableEq, Repr

/-- Engine state together with the trace of mapped-file writes made so
far in the current public call. -/
structure St where
  gs : GraphState
  tr : List Ev

/-- Python exceptions raised by the engine (`exception.py`), plus `fuel`
for an exhausted fuel bound (where the Python loop would keep running). -/
inductive Err where
  | nodeNotFound
  | edgeNotFound
  | keyTooLong
  | kinbakuError
  | valueError
  | fuel
deriving DecidableEq, Repr

instance {α β : Type} [DecidableEq α] [DecidableEq β] :
    DecidableEq (Except α β) := fun x y =>
  match x, y with
  | .ok a, .ok b =>
    if h : a = b then isTrue (by rw [h])
    else isFalse (fun hh => h (Except.ok.inj hh))
  | .error a, .error b =>
    if h : a = b then isTrue (by rw [h])
    else isFalse (fun hh => h (Except.error.inj hh))
  | .ok _, .error _ => isFalse (fun hh => Except.noConfusion hh)
  | .error _, .ok _ => isFalse (fun hh => Except.noConfusion hh)

/-- The zeroed edge template `self.EDGE` (`_parse_fields` packs zeros for
every field, so `exists` is false). -/
def zeroEdge : EdgeRec :=
  { is_node := false, nexists := false, is_edge_start := false,
    position := 0, source_position := 0, target_position := 0, hash := 0,
    out_edge_left := 0, out_edge_right := 0, out_edge_parent := 0,
    in_edge_left := 0, in_edge_right := 0, in_edge_parent := 0, type := 0 }

/-- The node template `self.NODE`: zeros with the leading `is_node` byte
set to 1 (`_init_node_size` sets `VALUES[0] = 1`). -/
def zeroNode : NodeRec :=
  { is_node := true, nexists := false, hash := 0, left := 0, right := 0,
    index := 0, position := 0, parent := 0, edge_start := 0, key := "" }

/-- `_get_node_at`: decode the node record at a slot.  Reading a slot that
holds an edge record would decode unrelated bytes; that misread never
happens on the verified paths and is modelled as the zero node. -/
def getNodeAt (gs : GraphState) (pos : Int) : NodeRec :=
  match gs.file pos with
  | .nodeS n => n
  | .edgeS _ => zeroNode

/-- `_get_edge_at`, with the symmetric misread convention. -/
def getEdgeAt (gs : GraphState) (pos : Int) : EdgeRec :=
  match gs.file pos with
  | .edgeS e => e
  | .nodeS _ => zeroEdge

/-- `_get_node_tree_info_at`: the `(hash, left, right)` prefix of a node
record (`NODE_TREE_FORMAT` is a prefix of `NODE_FORMAT`). -/
def getNodeTreeInfoAt (gs : GraphState) (pos : Int) : Int × Int × Int :=
  let n := getNodeAt gs pos
  (n.hash, n.left, n.right)

/-- `_set_node_at`: write a node record at a slot (cache refresh elided). -/
def setNodeAt (st : St) (n : NodeRec) (pos : Int) : St :=
  { gs := { st.gs with file := fun p => if p = pos then .nodeS n else st.gs.file p },
    tr := st.tr ++ [.wnode pos] }

/-- `_set_edge_at`: write an edge record at a slot. -/
def setEdgeAt (st : St) (e : EdgeRec) (pos : Int) : St :=
  { gs := { st.gs with file := fun p => if p = pos then .edgeS e else st.gs.file p },
    tr := st.tr ++ [.wedge pos] }

/-- `_expand`: write the header back to the mapping; when the bump pointer
is within `0.1 * table_increment` of the end of the table, first append
`table_increment` zeroed slots and bump `table_size`.  The float
comparison `next <= table_size - 0.1 * increment` is modelled exactly,
scaled by 10.  (The appended zero slots are already the value of the
model's total file map beyond the written region.) -/
def expand (cfg : Cfg) (st : St) : St :=
  if 10 * st.gs.header.next_table_position ≤
      10 * st.gs.header.table_size - cfg.tableIncrement then
    { st with tr := st.tr ++ [.wheader] }
  else
    { gs := { st.gs with header :=
        { st.gs.header with table_size := st.gs.header.table_size + cfg.tableIncrement } },
      tr := st.tr ++ [.wheader] }

/-- `_increment_node`. -/
def incrementNode (cfg : Cfg) (st : St) (recycled : Bool) : St :=
  let h := st.gs.header
  let h := { h with
    n_nodes := h.n_nodes + 1
    node_id := h.node_id + 1
    next_table_position :=
      if recycled then h.next_table_position
      else h.next_table_position + cfg.R }
  expand cfg { st with gs := { st.gs with header := h } }

/-- `_increment_edge`. -/
def incrementEdge (cfg : Cfg) (st : St) (recycled : Bool) : St :=
  let h := st.gs.header
  let h := { h with
    n_edges := h.n_edges + 1
    next_table_position :=
      if recycled then h.next_table_position
      else h.next_table_position + 1 }
  expand cfg { st with gs := { st.gs with header := h } }

/-- `_decrement_edge`. -/
def decrementEdge (cfg : Cfg) (st : St) : St :=
  expand cfg { st with gs := { st.gs with header :=
    { st.gs.header with n_edges := st.gs.header.n_edges - 1 } } }

/-- `_decrement_node`. -/
def decrementNode (cfg : Cfg) (st : St) : St :=
  expand cfg { st with gs := { st.gs with header :=
    { st.gs.header with n_nodes := st.gs.header.n_nodes - 1 } } }

/-- `_get_next_node_position`: pop the node free list, else the bump
pointer; returns `(position, recycled, remaining free list)`. -/
def getNextNodePosition (gs : GraphState) : Int × Bool × List Int :=
  match gs.node_tombstone with
  | [] => (gs.header.next_table_position, false, [])
  | p :: rest => (p, true, rest)

/-- `_get_next_edge_position`. -/
def getNextEdgePosition (gs : GraphState) : Int × Bool × List Int :=
  match gs.edge_tombstone with
  | [] => (gs.header.next_table_position, false, [])
  | p :: rest => (p, true, rest)

/-- `_erase_edge_at`: zero the slot, push it on the edge free list,
decrement the edge counter. -/
def eraseEdgeAt (cfg : Cfg) (st : St) (pos : Int) : St :=
  let st := setEdgeAt st zeroEdge pos
  let st := { st with gs :=
    { st.gs with edge_tombstone := st.gs.edge_tombstone ++ [pos] } }
  decrementEdge cfg st

/-- `_erase_node`: zero the node's slot and its edge-start dummy's slot,
push both on the free lists, decrement both counters. -/
def eraseNode (cfg : Cfg) (st : St) (node : NodeRec) : St :=
  let st := setNodeAt st zeroNode node.position
  let st := { st with gs :=
    { st.gs with node_tombstone := st.gs.node_tombstone ++ [node.position] } }
  let st := decrementNode cfg st
  let st := setEdgeAt st zeroEdge node.edge_start
  let st := { st with gs :=
    { st.gs with edge_tombstone := st.gs.edge_tombstone ++ [node.edge_start] } }
  decrementEdge cfg st

/-- The initial header values packed by `_init_header_size` for a new
file: counters zero, `node_id = 1`, bump pointer past the sentinel's `R`
slots, `table_size = table_increment + R`. -/
def initHeader (cfg : Cfg) : Header :=
  { n_nodes := 0, n_edges := 0, node_id := 1,
    next_table_position := cfg.R, table_size := cfg.tableIncrement + cfg.R,
    class_length := 0 }

/-- The immovable sentinel `node_class(hash=2147483648)` written at slot 0
by `_load_file` (dataclass defaults for the other fields). -/
def rootNode : NodeRec :=
  { is_node := true, nexists := true, hash := 2147483648, left := 0, right := 0,
    index := 0, position := 0, parent := 0, edge_start := 0, key := "" }

/-- A freshly created graph: zeroed edge slots everywhere after the
sentinel at slot 0, initial header, empty free lists. -/
def freshState (cfg : Cfg) : GraphState :=
  { file := fun pos => if pos = 0 then .nodeS rootNode else .edgeS zeroEdge,
    header := initHeader cfg,
    node_tombstone := [], edge_tombstone := [] }

/-- The public `n_nodes` property: the header counter, verbatim. -/
def nNodes (gs : GraphState) : Int := gs.header.n_nodes

/-- The public `n_edges` property: `header.n_edges - header.n_nodes`. -/
def nEdges (gs : GraphState) : Int := gs.header.n_edges - gs.header.n_nodes

/-- `_find_node_pos`: walk the node-BST from `pos` comparing the probe
node against each visited record (tree-info prefix first, full record on
hash equality), descending left on `-1` and right on `1`; stop at
equality or at a missing child.  Returns the last visited record and the
final state; `none` when the fuel bound is exhausted. -/
def findNodePos (gs : GraphState) : Nat → Int → NodeRec → Option (NodeRec × Int)
  | 0, _, _ => none
  | fuel + 1, pos, probe =>
    let info := getNodeTreeInfoAt gs pos
    let state :=
      if probe.hash < info.1 then -1
      else if probe.hash > info.1 then 1
      else
        let cur := getNodeAt gs pos
        compareNodes cur.hash cur.key probe.hash probe.key
    if state = -1 then
      if info.2.1 ≠ 0 then findNodePos gs fuel info.2.1 probe
      else some (getNodeAt gs pos, -1)
    else if state = 1 then
      if info.2.2 ≠ 0 then findNodePos gs fuel info.2.2 probe
      else some (getNodeAt gs pos, 1)
    else some (getNodeAt gs pos, state)

/-- `_find_edge_out_pos`: walk an out-tree with `compare_edges`. -/
def findEdgeOutPos (gs : GraphState) : Nat → Int → EdgeRec → Option (EdgeRec × Int)
  | 0, _, _ => none
  | fuel + 1, pos, probe =>
    let cur := getEdgeAt gs pos
    let state := compareEdges cur probe
    if state = -1 then
      if cur.out_edge_left ≠ 0 then findEdgeOutPos gs fuel cur.out_edge_left probe
      else some (cur, -1)
    else if state = 1 then
      if cur.out_edge_right ≠ 0 then findEdgeOutPos gs fuel cur.out_edge_right probe
      else some (cur, 1)
    else some (cur, state)

/-- `_find_edge_in_pos`: the symmetric walk over the `in_edge_*` links. -/
def findEdgeInPos (gs : GraphState) : Nat → Int → EdgeRec → Option (EdgeRec × Int)
  | 0, _, _ => none
  | fuel + 1, pos, probe =>
    let cur := getEdgeAt gs pos
    let state := compareEdges cur probe
    if state = -1 then
      if cur.in_edge_left ≠ 0 then findEdgeInPos gs fuel cur.in_edge_left probe
      else some (cur, -1)
    else if state = 1 then
      if cur.in_edge_right ≠ 0 then findEdgeInPos gs fuel cur.in_edge_right probe
      else some (cur, 1)
    else some (cur, state)

/-- Selectors for the two field groups of an edge record (`out=True`
selects the `out_edge_*` fields, as in the `getattr` calls of the
source). -/
def eLeft (out : Bool) (e : EdgeRec) : Int :=
  if out then e.out_edge_left else e.in_edge_left

def eRight (out : Bool) (e : EdgeRec) : Int :=
  if out then e.out_edge_right else e.in_edge_right

def eParent (out : Bool) (e : EdgeRec) : Int :=
  if out then e.out_edge_parent else e.in_edge_parent

def setELeft (out : Bool) (e : EdgeRec) (v : Int) : EdgeRec :=
  if out then { e with out_edge_left := v } else { e with in_edge_left := v }

def setERight (out : Bool) (e : EdgeRec) (v : Int) : EdgeRec :=
  if out then { e with out_edge_right := v } else { e with in_edge_right := v }

def setEParent (out : Bool) (e : EdgeRec) (v : Int) : EdgeRec :=
  if out then { e with out_edge_parent := v } else { e with in_edge_parent := v }

/-- The loop of `_find_inorder_successor_edge`: follow left links from
`successor`, tracking its parent (`antecedent`); returns
`(successor, antecedent)`. -/
def findInorderSuccessorEdgeAux (gs : GraphState) (out : Bool) :
    Nat → EdgeRec → EdgeRec → Option (EdgeRec × EdgeRec)
  | 0, _, _ => none
  | fuel + 1, antecedent, successor =>
    if eLeft out successor ≠ 0 then
      findInorderSuccessorEdgeAux gs out fuel successor
        (getEdgeAt gs (eLeft out successor))
    else some (successor, antecedent)

/-- `_find_inorder_successor_edge`: start from the right child of `edge`
with `edge` itself as antecedent. -/
def findInorderSuccessorEdge (gs : GraphState) (fuel : Nat) (edge : EdgeRec)
    (out : Bool) : Option (EdgeRec × EdgeRec) :=
  findInorderSuccessorEdgeAux gs out fuel edge (getEdgeAt gs (eRight out edge))

/-- The loop of `_find_inorder_successor_node`. -/
def findInorderSuccessorNodeAux (gs : GraphState) :
    Nat → NodeRec → NodeRec → Option (NodeRec × NodeRec)
  | 0, _, _ => none
  | fuel + 1, antecedent, successor =>
    if successor.left ≠ 0 then
      findInorderSuccessorNodeAux gs fuel successor (getNodeAt gs successor.left)
    else some (successor, antecedent)

/-- `_find_inorder_successor_node`. -/
def findInorderSuccessorNode (gs : GraphState) (fuel : Nat) (node : NodeRec) :
    Option (NodeRec × NodeRec) :=
  findInorderSuccessorNodeAux gs fuel node (getNodeAt gs node.right)

/-- `_node_dfs`: pre-order traversal of the node-BST, skipping records
with `index == 0` (the sentinel).  The recursive generator of the source
has no fuel bound; a `none` result models a run still recursing past the
bound (on the finite trees the engine builds it never is, given enough
fuel). -/
def nodeDfs (gs : GraphState) : Nat → NodeRec → Option (List NodeRec)
  | 0, _ => none
  | fuel + 1, n =>
    match (if n.left ≠ 0 then nodeDfs gs fuel (getNodeAt gs n.left) else some []),
        (if n.right ≠ 0 then nodeDfs gs fuel (getNodeAt gs n.right) else some []) with
    | some l, some r => some ((if n.index ≠ 0 then [n] else []) ++ l ++ r)
    | _, _ => none

/-- `_edge_out_dfs`: traversal of an out-tree.  The source recurses into
the left subtree, then the right subtree, and only then yields the edge
itself (when it is not the edge-start dummy) - a post-order walk.  As
with `nodeDfs`, `none` models a traversal still recursing past the fuel
bound. -/
def edgeOutDfs (gs : GraphState) : Nat → EdgeRec → Option (List EdgeRec)
  | 0, _ => none
  | fuel + 1, e =>
    match (if e.out_edge_left ≠ 0 then
        edgeOutDfs gs fuel (getEdgeAt gs e.out_edge_left) else some []),
        (if e.out_edge_right ≠ 0 then
        edgeOutDfs gs fuel (getEdgeAt gs e.out_edge_right) else some []) with
    | some l, some r => some (l ++ r ++ (if e.is_edge_start then [] else [e]))
    | _, _ => none

/-- `_edge_in_dfs`. -/
def edgeInDfs (gs : GraphState) : Nat → EdgeRec → Option (List EdgeRec)
  | 0, _ => none
  | fuel + 1, e =>
    match (if e.in_edge_left ≠ 0 then
        edgeInDfs gs fuel (getEdgeAt gs e.in_edge_left) else some []),
        (if e.in_edge_right ≠ 0 then
        edgeInDfs gs fuel (getEdgeAt gs e.in_edge_right) else some []) with
    | some l, some r => some (l ++ r ++ (if e.is_edge_start then [] else [e]))
    | _, _ => none

/-- The `nodes` property: keys of the pre-order DFS from slot 0. -/
def nodesList (gs : GraphState) (fuel : Nat) : Option (List String) :=
  (nodeDfs gs fuel (getNodeAt gs 0)).map (fun l => l.map (fun n => n.key))

/-- The loop of `_iter_edges`: linear scan of the slot array up to (and
including) the bump pointer, stepping by `R` over node slots and by 1
over edge slots, yielding live non-dummy edges. -/
def iterEdgesAux (cfg : Cfg) (gs : GraphState) : Nat → Int → List EdgeRec
  | 0, _ => []
  | fuel + 1, pos =>
    if pos ≤ gs.header.next_table_position then
      match gs.file pos with
      | .nodeS _ => iterEdgesAux cfg gs fuel (pos + cfg.R)
      | .edgeS e =>
        if ¬ e.nexists then iterEdgesAux cfg gs fuel (pos + 1)
        else if e.is_edge_start then iterEdgesAux cfg gs fuel (pos + 1)
        else e :: iterEdgesAux cfg gs fuel (pos + 1)
    else []

/-- `_get_keys_from_edge`: endpoint keys of an edge. -/
def getKeysFromEdge (gs : GraphState) (e : EdgeRec) : String × String :=
  ((getNodeAt gs e.source_position).key, (getNodeAt gs e.target_position).key)

/-- The `edges` property: `(source key, target key)` of every edge the
linear scan yields. -/
def edgesList (cfg : Cfg) (gs : GraphState) (fuel : Nat) : List (String × String) :=
  (iterEdgesAux cfg gs fuel 0).map (getKeysFromEdge gs)

/-- The pair `find_tombstones` unpacks with format `"?l"` at a slot: the
leading `is_node` byte, and the 8-byte integer at record offset 8 (the
native `"l"` format is an 8-byte long aligned to 8 bytes, so the two flag
bytes - plus, for a node, the 4-byte hash - are padded up to offset 8).
For a node record that integer is the `left` field; for an edge record it
is the `position` field.  The source binds it to a variable named
`index`, but under the default 64-bit native formats it is not the node's
`index` field, which sits at offset 24. -/
def tombstoneProbe : Slot → Bool × Int
  | .nodeS n => (true, n.left)
  | .edgeS e => (false, e.position)

/-- The loop of `find_tombstones`: sweep the slots up to (and including)
the bump pointer and collect every position whose `"?l"` probe has a zero
integer, into the node or edge list according to `is_node`. -/
def findTombstonesAux (cfg : Cfg) (gs : GraphState) : Nat → Int → List Int × List Int
  | 0, _ => ([], [])
  | fuel + 1, pos =>
    if pos ≤ gs.header.next_table_position then
      let probe := tombstoneProbe (gs.file pos)
      if probe.1 then
        let rest := findTombstonesAux cfg gs fuel (pos + cfg.R)
        (if probe.2 = 0 then pos :: rest.1 else rest.1, rest.2)
      else
        let rest := findTombstonesAux cfg gs fuel (pos + 1)
        (rest.1, if probe.2 = 0 then pos :: rest.2 else rest.2)
    else ([], [])

/-- `find_tombstones`: append the sweep's results to the in-memory free
lists. -/
def findTombstones (cfg : Cfg) (gs : GraphState) (fuel : Nat) : GraphState :=
  let res := findTombstonesAux cfg gs fuel 0
  { gs with
    node_tombstone := gs.node_tombstone ++ res.1
    edge_tombstone := gs.edge_tombstone ++ res.2 }

/-- The probe record `node(key)` builds: `node_class(hash=..., key=...)`,
dataclass defaults elsewhere. -/
def mkProbeNode (h : Int) (k : String) : NodeRec :=
  { is_node := true, nexists := true, hash := h, left := 0, right := 0,
    index := 0, position := 0, parent := 0, edge_start := 0, key := k }

/-- The public `node(key)` lookup (cache misses assumed): length check,
then the BST walk from slot 0; equality returns the record, anything else
raises `NodeNotFound`. -/
def nodeLookup (cfg : Cfg) (gs : GraphState) (fuel : Nat) (key : String) :
    Except Err NodeRec :=
  if key.length > cfg.maxKeyLen then .error .keyTooLong
  else
    match findNodePos gs fuel 0 (mkProbeNode (cfg.hashFn key) key) with
    | none => .error .fuel
    | some (prev, state) =>
      if state = 0 then .ok prev else .error .nodeNotFound

/-- `_get_edge_hash`: hash of `str(src.hash) + "_" + str(type) + "_" +
str(tgt.hash)`. -/
def getEdgeHash (cfg : Cfg) (source target : NodeRec) (edgeType : Int) : Int :=
  cfg.hashFn (toString source.hash ++ "_" ++ toString edgeType ++ "_" ++
    toString target.hash)

/-- The probe edge `edge()` and `add_edge()` build: positions of the
resolved endpoints, the edge hash, the type; dataclass defaults
elsewhere (notably `exists=True`). -/
def mkProbeEdge (cfg : Cfg) (source target : NodeRec) (edgeType : Int) : EdgeRec :=
  { zeroEdge with
    nexists := true
    source_position := source.position
    target_position := target.position
    hash := getEdgeHash cfg source target edgeType
    type := edgeType }

/-- The public `edge(source, target, type)` lookup: resolve both endpoint
nodes (their errors propagate), walk the source's out-tree; equality
returns the record, anything else raises `EdgeNotFound`. -/
def edgeLookup (cfg : Cfg) (gs : GraphState) (fuel : Nat)
    (srcKey tgtKey : String) (edgeType : Int) : Except Err EdgeRec :=
  match nodeLookup cfg gs fuel srcKey with
  | .error e => .error e
  | .ok source =>
    match nodeLookup cfg gs fuel tgtKey with
    | .error e => .error e
    | .ok target =>
      match findEdgeOutPos gs fuel source.edge_start
          (mkProbeEdge cfg source target edgeType) with
      | none => .error .fuel
      | some (e, state) =>
        if state = 0 then .ok e else .error .edgeNotFound

/-- `has_node`: `node(key)` with only `NodeNotFound` caught; every other
exception (in particular `KeyTooLong`) propagates. -/
def hasNode (cfg : Cfg) (gs : GraphState) (fuel : Nat) (key : String) :
    Except Err Bool :=
  match nodeLookup cfg gs fuel key with
  | .ok _ => .ok true
  | .error .nodeNotFound => .ok false
  | .error e => .error e

/-- `has_edge`: `edge(...)` with only `EdgeNotFound` caught. -/
def hasEdge (cfg : Cfg) (gs : GraphState) (fuel : Nat)
    (srcKey tgtKey : String) (edgeType : Int) : Except Err Bool :=
  match edgeLookup cfg gs fuel srcKey tgtKey edgeType with
  | .ok _ => .ok true
  | .error .edgeNotFound => .ok false
  | .error e => .error e

/-- `neighbors(u)`: resolve `u`, then walk its out-tree with
`_edge_out_dfs`, yielding the key of each yielded edge's target. -/
def neighborsList (cfg : Cfg) (gs : GraphState) (fuel : Nat) (u : String) :
    Except Err (List String) :=
  match nodeLookup cfg gs fuel u with
  | .error e => .error e
  | .ok leaf =>
    match edgeOutDfs gs fuel (getEdgeAt gs leaf.edge_start) with
    | none => .error .fuel
    | some l => .ok (l.map (fun e => (getNodeAt gs e.target_position).key))

/-- `predecessors(v)`. -/
def predecessorsList (cfg : Cfg) (gs : GraphState) (fuel : Nat) (v : String) :
    Except Err (List String) :=
  match nodeLookup cfg gs fuel v with
  | .error e => .error e
  | .ok leaf =>
    match edgeInDfs gs fuel (getEdgeAt gs leaf.edge_start) with
    | none => .error .fuel
    | some l => .ok (l.map (fun e => (getNodeAt gs e.source_position).key))

/-- Python dataclass `==` on `Node`: only the fields not marked
`compare=False`, i.e. `(is_node, exists, hash, key)`. -/
def nodeEqPy (a b : NodeRec) : Bool :=
  a.is_node == b.is_node && a.nexists == b.nexists &&
  a.hash == b.hash && a.key == b.key

/-- Python dataclass `==` on `Edge`: the fields not marked
`compare=False`, i.e. `(is_node, exists, is_edge_start, hash, type)`. -/
def edgeEqPy (a b : EdgeRec) : Bool :=
  a.is_node == b.is_node && a.nexists == b.nexists &&
  a.is_edge_start == b.is_edge_start && a.hash == b.hash && a.type == b.type

/-- The record `add_node` builds before walking the tree:
`node_class(hash=..., index=header.node_id, key=...)`. -/
def addNodeProbe (cfg : Cfg) (gs : GraphState) (key : String) : NodeRec :=
  { is_node := true, nexists := true, hash := cfg.hashFn key, left := 0,
    right := 0, index := gs.header.node_id, position := 0, parent := 0,
    edge_start := 0, key := key }

/-- `add_node(key)` with `attr=None` (the only form the claims exercise;
`attr` parsing is a no-op then), starting the walk at slot 0 (cache
miss).  On an equality ending: return the existing record when the
dataclass comparison succeeds, else overwrite it in place keeping the
structural fields.  Otherwise: allocate a node slot and a dummy-edge
slot, bump the counters, write the new node, its dummy, and the parent's
updated child link. -/
def addNode (cfg : Cfg) (st : St) (fuel : Nat) (key : String) :
    Except Err NodeRec × St :=
  if key.length > cfg.maxKeyLen then (.error .keyTooLong, st)
  else
    let newNode := addNodeProbe cfg st.gs key
    match findNodePos st.gs fuel 0 newNode with
    | none => (.error .fuel, st)
    | some (prev, state) =>
      if state = 0 then
        if nodeEqPy newNode prev then (.ok prev, st)
        else
          let upd := { newNode with
            left := prev.left
            right := prev.right
            index := prev.index
            position := prev.position
            parent := prev.parent
            edge_start := prev.edge_start }
          (.ok upd, setNodeAt st upd upd.position)
      else
        let alloc := getNextNodePosition st.gs
        let npos := alloc.1
        let st := { st with gs := { st.gs with node_tombstone := alloc.2.2 } }
        let st := incrementNode cfg st alloc.2.1
        let ealloc := getNextEdgePosition st.gs
        let epos := ealloc.1
        let st := { st with gs := { st.gs with edge_tombstone := ealloc.2.2 } }
        let st := incrementEdge cfg st ealloc.2.1
        let newNode := { newNode with
          position := npos
          edge_start := epos
          parent := prev.position }
        let st := setNodeAt st newNode npos
        let dummy := { zeroEdge with
          nexists := true
          is_edge_start := true
          source_position := npos
          hash := newNode.hash
          position := epos }
        let st := setEdgeAt st dummy epos
        let prev2 := if state = -1 then { prev with left := npos }
                     else { prev with right := npos }
        let st := setNodeAt st prev2 prev.position
        (.ok newNode, st)

/-- The `try self.node(key) except NodeNotFound: self.add_node(key)`
endpoint resolution used by `add_edge`; every other error of `node()`
propagates. -/
def resolveOrAddNode (cfg : Cfg) (st : St) (fuel : Nat) (key : String) :
    Except Err NodeRec × St :=
  match nodeLookup cfg st.gs fuel key with
  | .ok n => (.ok n, st)
  | .error .nodeNotFound => addNode cfg st fuel key
  | .error e => (.error e, st)

/-- `add_edge(source_key, target_key, attr=None, edge_type)`: resolve or
create both endpoints, walk the source's out-tree; on equality return the
existing edge (overwriting attributes in place, keeping position and all
six tree links, when the dataclass comparison fails); otherwise allocate
a slot, link it under the out-tree leaf, walk the target's in-tree (an
equality there is a fatal integrity error), link it there, write the new
edge, and bump the edge counter last. -/
def addEdge (cfg : Cfg) (st : St) (fuel : Nat) (srcKey tgtKey : String)
    (edgeType : Int) : Except Err EdgeRec × St :=
  match resolveOrAddNode cfg st fuel srcKey with
  | (.error e, st) => (.error e, st)
  | (.ok source, st) =>
    match resolveOrAddNode cfg st fuel tgtKey with
    | (.error e, st) => (.error e, st)
    | (.ok target, st) =>
      let newEdge := mkProbeEdge cfg source target edgeType
      match findEdgeOutPos st.gs fuel source.edge_start newEdge with
      | none => (.error .fuel, st)
      | some (prevOut, state) =>
        if state = 0 then
          if edgeEqPy prevOut newEdge then (.ok prevOut, st)
          else
            let upd := { newEdge with
              position := prevOut.position
              source_position := prevOut.source_position
              target_position := prevOut.target_position
              out_edge_left := prevOut.out_edge_left
              out_edge_right := prevOut.out_edge_right
              out_edge_parent := prevOut.out_edge_parent
              in_edge_left := prevOut.in_edge_left
              in_edge_right := prevOut.in_edge_right
              in_edge_parent := prevOut.in_edge_parent }
            (.ok upd, setEdgeAt st upd prevOut.position)
        else
          let alloc := getNextEdgePosition st.gs
          let npos := alloc.1
          let recycled := alloc.2.1
          let st := { st with gs := { st.gs with edge_tombstone := alloc.2.2 } }
          let newEdge := { newEdge with position := npos }
          let prevOut2 := if state = -1 then { prevOut with out_edge_left := npos }
                          else { prevOut with out_edge_right := npos }
          let st := setEdgeAt st prevOut2 prevOut.position
          match findEdgeInPos st.gs fuel target.edge_start newEdge with
          | none => (.error .fuel, st)
          | some (prevIn, inState) =>
            if inState = 0 then (.error .kinbakuError, st)
            else
              let prevIn2 := if inState = -1 then { prevIn with in_edge_left := npos }
                             else { prevIn with in_edge_right := npos }
              let st := setEdgeAt st prevIn2 prevIn.position
              let newEdge := { newEdge with
                out_edge_parent := prevOut.position
                in_edge_parent := prevIn.position }
              let st := setEdgeAt st newEdge npos
              let st := incrementEdge cfg st recycled
              (.ok newEdge, st)

/-- `_unplug_edge`: clear the parent's child link on the side given by
`state` and write the parent back. -/
def unplugEdge (st : St) (parent : EdgeRec) (state : Int) (out : Bool) : St :=
  let parent := if state = -1 then setELeft out parent 0
                else setERight out parent 0
  setEdgeAt st parent parent.position

/-- `_rewire_edge`: splice `child` in place on the side given by `state`,
updating the child's parent link; write parent then child. -/
def rewireEdge (st : St) (parent child : EdgeRec) (state : Int) (out : Bool) : St :=
  let parent := if state = -1 then setELeft out parent child.position
                else setERight out parent child.position
  let child := setEParent out child parent.position
  let st := setEdgeAt st parent parent.position
  setEdgeAt st child child.position

/-- `_unplug_node`. -/
def unplugNode (st : St) (parent : NodeRec) (state : Int) : St :=
  let parent := if state = -1 then { parent with left := 0 }
                else { parent with right := 0 }
  setNodeAt st parent parent.position

/-- `_rewire_node`. -/
def rewireNode (st : St) (parent child : NodeRec) (state : Int) : St :=
  let parent := if state = -1 then { parent with left := child.position }
                else { parent with right := child.position }
  let child := { child with parent := parent.position }
  let st := setNodeAt st parent parent.position
  setNodeAt st child child.position

/-- `_remove_edge_from_tree(edge, out)`: the three-case BST deletion on
one of the two trees the edge participates in.  The deletion side at the
parent is recomputed with `compare_edges`.  Errors (the negative-parent
`ValueError`, fuel) are raised before any write, so they return the input
state. -/
def removeEdgeFromTree (st : St) (fuel : Nat) (edge : EdgeRec) (out : Bool) :
    Except Err Unit × St :=
  let edgeLeft := eLeft out edge
  let edgeRight := eRight out edge
  let parent := getEdgeAt st.gs (eParent out edge)
  let state := compareEdges parent edge
  if edgeLeft = 0 ∧ edgeRight = 0 then
    if parent.position < 0 then (.error .valueError, st)
    else (.ok (), unplugEdge st parent state out)
  else if edgeLeft = 0 then
    (.ok (), rewireEdge st parent (getEdgeAt st.gs edgeRight) state out)
  else if edgeRight = 0 then
    (.ok (), rewireEdge st parent (getEdgeAt st.gs edgeLeft) state out)
  else
    match findInorderSuccessorEdge st.gs fuel edge out with
    | none => (.error .fuel, st)
    | some sa =>
      let successor := setEParent out sa.1 parent.position
      let antecedent := setELeft out sa.2 0
      let parent := if state = -1 then setELeft out parent successor.position
                    else setERight out parent successor.position
      if antecedent.position = edge.position then
        let successor := setELeft out successor edgeLeft
        let edgeLeftItem := setEParent out (getEdgeAt st.gs edgeLeft) successor.position
        let st := setEdgeAt st edgeLeftItem edgeLeft
        let st := setEdgeAt st successor successor.position
        let st := setEdgeAt st parent parent.position
        (.ok (), st)
      else
        let successor := setELeft out successor edgeLeft
        let edgeLeftItem := setEParent out (getEdgeAt st.gs edgeLeft) successor.position
        let st := setEdgeAt st edgeLeftItem edgeLeft
        let stepTwo :=
          if edgeRight = antecedent.position then
            (st, setEParent out antecedent successor.position)
          else
            let edgeRightItem := setEParent out (getEdgeAt st.gs edgeRight) successor.position
            (setEdgeAt st edgeRightItem edgeRight, antecedent)
        let st := stepTwo.1
        let antecedent := stepTwo.2
        let successorRightPos := eRight out successor
        let antecedent := setELeft out antecedent successorRightPos
        let st := setEdgeAt st antecedent antecedent.position
        let st :=
          if successorRightPos ≠ 0 then
            let successorRight := setEParent out (getEdgeAt st.gs successorRightPos)
              antecedent.position
            setEdgeAt st successorRight successorRightPos
          else st
        let successor := setERight out successor edgeRight
        let st := setEdgeAt st successor successor.position
        let st := setEdgeAt st parent parent.position
        (.ok (), st)

/-- `_remove_edge`: delete the edge from the out-tree, then from the
in-tree, then erase its slot. -/
def removeEdgeRec (cfg : Cfg) (st : St) (fuel : Nat) (edge : EdgeRec) :
    Except Err Unit × St :=
  match removeEdgeFromTree st fuel edge true with
  | (.error e, st) => (.error e, st)
  | (.ok _, st) =>
    match removeEdgeFromTree st fuel edge false with
    | (.error e, st) => (.error e, st)
    | (.ok _, st) => (.ok (), eraseEdgeAt cfg st edge.position)

/-- The public `remove_edge(source_key, target_key, edge_type)`:
`self.edge(...)` (whose errors propagate with no state change), then
`_remove_edge`. -/
def removeEdge (cfg : Cfg) (st : St) (fuel : Nat) (srcKey tgtKey : String)
    (edgeType : Int) : Except Err Unit × St :=
  match edgeLookup cfg st.gs fuel srcKey tgtKey edgeType with
  | .error e => (.error e, st)
  | .ok edge => removeEdgeRec cfg st fuel edge

/-- `_remove_node_from_tree`: the three-case BST deletion on the global
node tree.  The deletion side is read off the parent's child links; a
mismatch raises `KinbakuError("state == 0")`. -/
def removeNodeFromTree (st : St) (fuel : Nat) (node : NodeRec) :
    Except Err Unit × St :=
  let parent := getNodeAt st.gs node.parent
  if parent.left = node.position ∨ parent.right = node.position then
    let state : Int := if parent.left = node.position then -1 else 1
    let nodeLeft := node.left
    let nodeRight := node.right
    if nodeLeft = 0 ∧ nodeRight = 0 then
      (.ok (), unplugNode st parent state)
    else if nodeLeft = 0 then
      (.ok (), rewireNode st parent (getNodeAt st.gs nodeRight) state)
    else if nodeRight = 0 then
      (.ok (), rewireNode st parent (getNodeAt st.gs nodeLeft) state)
    else
      match findInorderSuccessorNode st.gs fuel node with
      | none => (.error .fuel, st)
      | some sa =>
        let successor := { sa.1 with parent := parent.position }
        let antecedent := { sa.2 with left := 0 }
        let parent := if state = -1 then { parent with left := successor.position }
                      else { parent with right := successor.position }
        if antecedent.position = node.position then
          let successor := { successor with left := nodeLeft }
          let nodeLeftItem := { getNodeAt st.gs nodeLeft with parent := successor.position }
          let st := setNodeAt st nodeLeftItem nodeLeft
          let st := setNodeAt st successor successor.position
          let st := setNodeAt st parent parent.position
          (.ok (), st)
        else
          let successor := { successor with left := nodeLeft }
          let nodeLeftItem := { getNodeAt st.gs nodeLeft with parent := successor.position }
          let st := setNodeAt st nodeLeftItem nodeLeft
          let stepTwo :=
            if nodeRight = antecedent.position then
              (st, { antecedent with parent := successor.position })
            else
              let nodeRightItem := { getNodeAt st.gs nodeRight with parent := successor.position }
              (setNodeAt st nodeRightItem nodeRight, antecedent)
          let st := stepTwo.1
          let antecedent := stepTwo.2
          let successorRightPos := successor.right
          let antecedent := { antecedent with left := successorRightPos }
          let st := setNodeAt st antecedent antecedent.position
          let st :=
            if successorRightPos ≠ 0 then
              let successorRight := { getNodeAt st.gs successorRightPos with
                                      parent := antecedent.position }
              setNodeAt st successorRight successorRightPos
            else st
          let successor := { successor with right := nodeRight }
          let st := setNodeAt st successor successor.position
          let st := setNodeAt st parent parent.position
          (.ok (), st)
  else (.error .kinbakuError, st)

/-- The edge-removal loop of `remove_node`: for each collected candidate,
re-read its slot and skip it when its `exists` flag is already false,
else `_remove_edge` it. -/
def removeNodeEdges (cfg : Cfg) (fuel : Nat) :
    List EdgeRec → St → Except Err Unit × St
  | [], st => (.ok (), st)
  | e :: rest, st =>
    let cur := getEdgeAt st.gs e.position
    if ¬ cur.nexists then removeNodeEdges cfg fuel rest st
    else
      match removeEdgeRec cfg st fuel cur with
      | (.error err, st) => (.error err, st)
      | (.ok _, st) => removeNodeEdges cfg fuel rest st

/-- `remove_node(key)`: resolve the node, collect the out-DFS and in-DFS
of its edge-start dummy (the same self-loop edge appears in both lists),
remove each still-existing candidate, remove the node from the node-BST,
erase the node and its dummy. -/
def removeNode (cfg : Cfg) (st : St) (fuel : Nat) (key : String) :
    Except Err Unit × St :=
  match nodeLookup cfg st.gs fuel key with
  | .error e => (.error e, st)
  | .ok source =>
    let edgeStart := getEdgeAt st.gs source.edge_start
    match edgeOutDfs st.gs fuel edgeStart, edgeInDfs st.gs fuel edgeStart with
    | some l1, some l2 =>
      match removeNodeEdges cfg fuel (l1 ++ l2) st with
      | (.error e, st) => (.error e, st)
      | (.ok _, st) =>
        match removeNodeFromTree st fuel source with
        | (.error e, st) => (.error e, st)
        | (.ok _, st) => (.ok (), eraseNode cfg st source)
    | _, _ => (.error .fuel, st)

/-- A concrete hash function used to instantiate the engine in witnesses
(`hash_func` is a constructor parameter of `Graph`; any integer-valued
string hash is admissible).  Node keys and the edge-hash strings built by
`_get_edge_hash` are mapped to chosen values, everything else to 0. -/
def hash0 (s : String) : Int :=
  if s = "A" then 100
  else if s = "B" then 50
  else if s = "C" then 150
  else if s = "x" then 10
  else if s = "a" then 20
  else if s = "b" then 30
  else if s = "c" then 40
  else if s = "10_0_10" then 5
  else if s = "10_0_20" then 50
  else if s = "10_0_30" then 25
  else if s = "10_0_40" then 75
  else if s = "100_0_50" then 77
  else 0

/-- A concrete engine configuration: default `max_key_len = 15`, a small
table increment, and the default-format slot ratio `R = 1`. -/
def cfg0 : Cfg :=
  { hashFn := hash0, maxKeyLen := 15, tableIncrement := 10, R := 1 }

/-- The state after `add_node("A")` on a fresh graph. -/
def stateA : St := (addNode cfg0 ⟨freshState cfg0, []⟩ 20 "A").2

/-- The state after `add_edge("A", "B")` on a fresh graph. -/
def stateAB : St := (addEdge cfg0 ⟨freshState cfg0, []⟩ 20 "A" "B" 0).2

/-- The state after `add_edge("x", "x")` (a self-loop) on a fresh graph:
node `x` at slot 1, its edge-start dummy at slot 2, the self-loop edge at
slot 3. -/
def stateX : St := (addEdge cfg0 ⟨freshState cfg0, []⟩ 20 "x" "x" 0).2

/-- The state after `add_edge("x", k)` for `k = "a", "b", "c"` on a fresh
graph.  The chosen edge hashes (50, 25, 75 against the dummy's 10) shape
the out-tree of `x` as: dummy - right - edge(a) with left child edge(b)
and right child edge(c). -/
def stateC4 : St :=
  (addEdge cfg0 ((addEdge cfg0 ((addEdge cfg0 ⟨freshState cfg0, []⟩
    20 "x" "a" 0).2) 20 "x" "b" 0).2) 20 "x" "c" 0).2

/-- Whether a mapped-file write event writes a record (node or edge), as
opposed to the header block. -/
def isRecordWrite : Ev → Bool
  | .wnode _ => true
  | .wedge _ => true
  | .wheader => false

/-- The claim's intra-call ordering property of a write trace: every
record write occurs before the header write-back, i.e. once a header
write appears in the trace, no record write follows it. -/
def recordWritesBeforeHeader : List Ev → Bool
  | [] => true
  | .wheader :: rest => rest.all (fun e => ! isRecordWrite e)
  | _ :: rest => recordWritesBeforeHeader rest

/-- A binary tree of edge records, abstracted out of the pointer
structure for stating traversal-order properties. -/
inductive ETree where
  | leaf
  | node (l : ETree) (e : EdgeRec) (r : ETree)

/-- Materialise the out-tree pointed to by an edge record's `out_edge_*`
links as an abstract tree, up to the fuel bound. -/
def extractOutTree (gs : GraphState) : Nat → EdgeRec → ETree
  | 0, _ => .leaf
  | fuel + 1, e =>
    .node
      (if e.out_edge_left ≠ 0 then
        extractOutTree gs fuel (getEdgeAt gs e.out_edge_left) else .leaf)
      e
      (if e.out_edge_right ≠ 0 then
        extractOutTree gs fuel (getEdgeAt gs e.out_edge_right) else .leaf)

/-- Post-order listing of an abstract out-tree (left subtree, right
subtree, then the edge itself), skipping edge-start dummies. -/
def postOrderEdges : ETree → List EdgeRec
  | .leaf => []
  | .node l e r =>
    postOrderEdges l ++ postOrderEdges r ++ (if e.is_edge_start then [] else [e])

/-- Modelled from the spec's words (for comparison against the code's
traversal): the in-order listing of an abstract out-tree (left subtree,
the edge itself, right subtree), skipping edge-start dummies. -/
def inOrderEdges : ETree → List EdgeRec
  | .leaf => []
  | .node l e r =>
    inOrderEdges l ++ (if e.is_edge_start then [] else [e]) ++ inOrderEdges r

/-- One public mutating operation of the engine, for stating properties
of arbitrary operation sequences. -/
inductive Op where
  | addN (key : String)
  | addE (source target : String) (edgeType : Int)
  | remE (source target : String) (edgeType : Int)
  | remN (key : String)

/-- Whether a result is benign: success, or one of the errors the engine
raises before any mapped-file write (`NodeNotFound`, `EdgeNotFound`,
`KeyTooLong`).  The engine's declared integrity errors
(`KinbakuError("serious integrity error")`, `ValueError`,
`KinbakuError("state == 0")`) and the fuel artefact of the model are not
benign. -/
def benignR {α : Type} : Except Err α → Bool
  | .ok _ => true
  | .error .nodeNotFound => true
  | .error .edgeNotFound => true
  | .error .keyTooLong => true
  | .error _ => false

/-- Run one public mutating operation. -/
def stepOp (cfg : Cfg) (fuel : Nat) (st : St) : Op → Except Err Unit × St
  | .addN k =>
    let r := addNode cfg st fuel k
    (r.1.map (fun _ => ()), r.2)
  | .addE u v t =>
    let r := addEdge cfg st fuel u v t
    (r.1.map (fun _ => ()), r.2)
  | .remE u v t => removeEdge cfg st fuel u v t
  | .remN k => removeNode cfg st fuel k

/-- Run a sequence of operations, recording whether every step's result
was benign. -/
def runOps (cfg : Cfg) (fuel : Nat) : List Op → St → St × Bool
  | [], st => (st, true)
  | op :: rest, st =>
    let step := stepOp cfg fuel st op
    let r := runOps cfg fuel rest step.2
    (r.1, benignR step.1 && r.2)

/-- The claim's consistency property of the global node-BST: every live
node record with a non-zero `parent` is the `left` or `right` child of
the record at its `parent` slot. -/
def nodeParentConsistent (gs : GraphState) : Prop :=
  ∀ q n, gs.file q = .nodeS n → n.nexists = true → n.parent ≠ 0 →
    ∃ m, gs.file n.parent = .nodeS m ∧ m.nexists = true ∧
      (m.left = n.position ∨ m.right = n.position)

/-- `NDesc gs a b`: slot `b` lies in the subtree of live node records
rooted at slot `a`, following `left`/`right` links. -/
inductive NDesc (gs : GraphState) : Int → Int → Prop where
  | refl (a : Int) : NDesc gs a a
  | stepL (a : Int) (n : NodeRec) (c : Int) :
      gs.file a = .nodeS n → n.nexists = true → n.left ≠ 0 →
      NDesc gs n.left c → NDesc gs a c
  | stepR (a : Int) (n : NodeRec) (c : Int) :
      gs.file a = .nodeS n → n.nexists = true → n.right ≠ 0 →
      NDesc gs n.right c → NDesc gs a c

/-- `EDesc gs out a b`: slot `b` lies in the subtree of live edge records
rooted at slot `a`, following the `out` (or `in`) child links. -/
inductive EDesc (gs : GraphState) (out : Bool) : Int → Int → Prop where
  | refl (a : Int) : EDesc gs out a a
  | stepL (a : Int) (e : EdgeRec) (c : Int) :
      gs.file a = .edgeS e → e.nexists = true → eLeft out e ≠ 0 →
      EDesc gs out (eLeft out e) c → EDesc gs out a c
  | stepR (a : Int) (e : EdgeRec) (c : Int) :
      gs.file a = .edgeS e → e.nexists = true → eRight out e ≠ 0 →
      EDesc gs out (eRight out e) c → EDesc gs out a c

/-- `AncAcc gs out probe x`: every live edge record whose subtree (on the
`out` link group) contains slot `x` compares against `probe` exactly as
the side the subtree hangs on.  This is the invariant a tree walk for
`probe` maintains about the slot it is currently visiting. -/
def AncAcc (gs : GraphState) (out : Bool) (probe : EdgeRec) (x : Int) : Prop :=
  ∀ a g, gs.file a = .edgeS g → g.nexists = true →
    (eLeft out g ≠ 0 → EDesc gs out (eLeft out g) x →
      compareEdges g probe = -1) ∧
    (eRight out g ≠ 0 → EDesc gs out (eRight out g) x →
      compareEdges g probe = 1)

/-- The well-formedness invariant of an engine state, maintained by every
benign operation: the sentinel sits at slot 0; live node records form a
binary tree with mutually consistent child/parent links, pairwise
distinct children and a rank function that makes the child relation
well-founded; live edge records form, for each of the two link groups,
binary trees rooted at edge-start dummies with the same local
consistency; every subtree member compares on the side it hangs on
(`compare_edges` against each ancestor), every non-dummy edge shares its
`source_position` with its out-parent and derives its `target_position`
from its in-parent; every non-root live node owns a live edge-start
dummy; live records and free-list slots sit below the bump pointer, and
the free lists hold distinct dead slots of the right kind. -/
structure Wf (gs : GraphState) : Prop where
  root : ∃ r, gs.file 0 = .nodeS r ∧ r.nexists = true ∧ r.position = 0 ∧
    r.parent = 0 ∧ r.hash = 2147483648
  nposOK : ∀ q n, gs.file q = .nodeS n → n.nexists = true → n.position = q
  nup : ∀ q n, gs.file q = .nodeS n → n.nexists = true → q ≠ 0 →
    ∃ m, gs.file n.parent = .nodeS m ∧ m.nexists = true ∧
      (m.left = q ∨ m.right = q)
  ndownL : ∀ q n, gs.file q = .nodeS n → n.nexists = true → n.left ≠ 0 →
    ∃ c, gs.file n.left = .nodeS c ∧ c.nexists = true ∧ c.parent = q
  ndownR : ∀ q n, gs.file q = .nodeS n → n.nexists = true → n.right ≠ 0 →
    ∃ c, gs.file n.right = .nodeS c ∧ c.nexists = true ∧ c.parent = q
  nsides : ∀ q n, gs.file q = .nodeS n → n.nexists = true → n.left ≠ 0 →
    n.left ≠ n.right
  nrank : ∃ rk : Int → Nat, ∀ q n, gs.file q = .nodeS n → n.nexists = true →
    (n.left ≠ 0 → rk q < rk n.left) ∧ (n.right ≠ 0 → rk q < rk n.right)
  eposOK : ∀ q e, gs.file q = .edgeS e → e.nexists = true → e.position = q
  eup : ∀ (out : Bool) q e, gs.file q = .edgeS e → e.nexists = true →
    e.is_edge_start = false →
    ∃ p, gs.file (eParent out e) = .edgeS p ∧ p.nexists = true ∧
      (eLeft out p = q ∨ eRight out p = q)
  edownL : ∀ (out : Bool) q e, gs.file q = .edgeS e → e.nexists = true →
    eLeft out e ≠ 0 →
    ∃ c, gs.file (eLeft out e) = .edgeS c ∧ c.nexists = true ∧
      c.is_edge_start = false ∧ eParent out c = q
  edownR : ∀ (out : Bool) q e, gs.file q = .edgeS e → e.nexists = true →
    eRight out e ≠ 0 →
    ∃ c, gs.file (eRight out e) = .edgeS c ∧ c.nexists = true ∧
      c.is_edge_start = false ∧ eParent out c = q
  esides : ∀ (out : Bool) q e, gs.file q = .edgeS e → e.nexists = true →
    eLeft out e ≠ 0 → eLeft out e ≠ eRight out e
  erank : ∀ (out : Bool), ∃ rk : Int → Nat, ∀ q e, gs.file q = .edgeS e →
    e.nexists = true →
    (eLeft out e ≠ 0 → rk q < rk (eLeft out e)) ∧
    (eRight out e ≠ 0 → rk q < rk (eRight out e))
  ancL : ∀ (out : Bool) a e, gs.file a = .edgeS e → e.nexists = true →
    eLeft out e ≠ 0 →
    ∀ w f, EDesc gs out (eLeft out e) w → gs.file w = .edgeS f →
      f.nexists = true → compareEdges e f = -1
  ancR : ∀ (out : Bool) a e, gs.file a = .edgeS e → e.nexists = true →
    eRight out e ≠ 0 →
    ∀ w f, EDesc gs out (eRight out e) w → gs.file w = .edgeS f →
      f.nexists = true → compareEdges e f = 1
  esrc : ∀ q e, gs.file q = .edgeS e → e.nexists = true →
    e.is_edge_start = false →
    ∃ p, gs.file e.out_edge_parent = .edgeS p ∧
      e.source_position = p.source_position
  etgt : ∀ q e, gs.file q = .edgeS e → e.nexists = true →
    e.is_edge_start = false →
    ∃ p, gs.file e.in_edge_parent = .edgeS p ∧
      e.target_position =
        (if p.is_edge_start then p.source_position else p.target_position)
  nodeDummy : ∀ q n, gs.file q = .nodeS n → n.nexists = true → q ≠ 0 →
    ∃ d, gs.file n.edge_start = .edgeS d ∧ d.nexists = true ∧
      d.is_edge_start = true ∧ d.source_position = q
  liveNB : ∀ q n, gs.file q = .nodeS n → n.nexists = true →
    0 ≤ q ∧ q < gs.header.next_table_position
  liveEB : ∀ q e, gs.file q = .edgeS e → e.nexists = true →
    0 ≤ q ∧ q < gs.header.next_table_position
  tombN : ∀ p ∈ gs.node_tombstone,
    (∃ n, gs.file p = .nodeS n ∧ n.nexists = false) ∧
    0 ≤ p ∧ p < gs.header.next_table_position
  tombE : ∀ p ∈ gs.edge_tombstone,
    (∃ e, gs.file p = .edgeS e ∧ e.nexists = false) ∧
    0 ≤ p ∧ p < gs.header.next_table_position
  tombNnd : gs.node_tombstone.Nodup
  tombEnd : gs.edge_tombstone.Nodup

/-- C1, counterexample.  The claim states that `compare_edges(A, B)` always
equals the lexicographic comparison of B's tuple
`(hash, source_position, target_position, type)` against A's.  It does not:
for A with tuple `(0, 5, 0, 0)` and B with tuple `(0, 3, 0, 0)` (equal
hashes, different sources, B's target not below A's), `compare_edges`
falls through to its final type comparison and returns `1`, while the
lexicographic comparison of B's tuple against A's is `-1` (since
`3 < 5` in the source component). -/
theorem c1_compare_edges_not_lex_counterexample :
    compareEdges (mkCmpEdge 0 5 0 0) (mkCmpEdge 0 3 0 0) = 1 ∧
    lexEdges (mkCmpEdge 0 5 0 0) (mkCmpEdge 0 3 0 0) = -1 ∧
    ¬ compareEdges (mkCmpEdge 0 5 0 0) (mkCmpEdge 0 3 0 0) =
        lexEdges (mkCmpEdge 0 5 0 0) (mkCmpEdge 0 3 0 0) :=
  ⟨by decide, by decide, by decide⟩

set_option maxHeartbeats 2000000 in
/-- C1, amended.  `compare_edges(A, B)` agrees with the lexicographic
comparison of B's tuple `(hash, source_position, target_position, type)`
against A's whenever the two hashes differ, or the two source positions are
equal, or B's target position is strictly below A's; and in all cases it
returns `0` exactly when the two tuples coincide.  (In the remaining case -
equal hashes, different sources, B's target not below A's - the code
compares the `type` fields instead of the sources.) -/
theorem c1_compare_edges_lex_amended (A B : EdgeRec)
    (h : A.hash ≠ B.hash ∨ A.source_position = B.source_position ∨
        B.target_position < A.target_position) :
    compareEdges A B = lexEdges A B ∧
    (compareEdges A B = 0 ↔
      A.hash = B.hash ∧ A.source_position = B.source_position ∧
      A.target_position = B.target_position ∧ A.type = B.type) := by
  constructor
  · unfold compareEdges lexEdges cmpInt
    split_ifs <;> omega
  · constructor
    · intro hc
      unfold compareEdges at hc
      split_ifs at hc <;> omega
    · intro ht
      unfold compareEdges
      rw [if_pos ht]

/-- Witness for C1 (amended) at concrete records. -/
theorem c1_compare_edges_lex_amended_witness :
    ((mkCmpEdge 7 2 3 4).hash ≠ (mkCmpEdge 1 2 9 9).hash ∨
      (mkCmpEdge 7 2 3 4).source_position = (mkCmpEdge 1 2 9 9).source_position ∨
      (mkCmpEdge 1 2 9 9).target_position < (mkCmpEdge 7 2 3 4).target_position) ∧
    (compareEdges (mkCmpEdge 7 2 3 4) (mkCmpEdge 1 2 9 9) =
        lexEdges (mkCmpEdge 7 2 3 4) (mkCmpEdge 1 2 9 9) ∧
      (compareEdges (mkCmpEdge 7 2 3 4) (mkCmpEdge 1 2 9 9) = 0 ↔
        (mkCmpEdge 7 2 3 4).hash = (mkCmpEdge 1 2 9 9).hash ∧
        (mkCmpEdge 7 2 3 4).source_position = (mkCmpEdge 1 2 9 9).source_position ∧
        (mkCmpEdge 7 2 3 4).target_position = (mkCmpEdge 1 2 9 9).target_position ∧
        (mkCmpEdge 7 2 3 4).type = (mkCmpEdge 1 2 9 9).type)) :=
  ⟨by decide, c1_compare_edges_lex_amended _ _ (by decide)⟩

/-- Helper: the linear edge scan of a fresh graph yields nothing from any
starting position (slot 0 is the sentinel node; every other slot is the
zeroed edge template, whose `exists` flag is false). -/
theorem iterEdgesAux_freshState (cfg : Cfg) :
    ∀ (fuel : Nat) (pos : Int), iterEdgesAux cfg (freshState cfg) fuel pos = [] := by
  intro fuel
  induction fuel with
  | zero => intro pos; rfl
  | succ f ih =>
    intro pos
    unfold iterEdgesAux
    by_cases hle : pos ≤ (freshState cfg).header.next_table_position
    · rw [if_pos hle]
      by_cases hp : pos = 0
      · subst hp
        exact ih (0 + cfg.R)
      · have hfile : (freshState cfg).file pos = .edgeS zeroEdge := by
          simp [freshState, hp]
        rw [hfile]
        exact ih (pos + 1)
    · rw [if_neg hle]

/-- C6, counterexample.  The claim states that on a freshly created empty
graph the header's `n_nodes` field equals 1, the sentinel being counted.
In fact `_init_header_size` packs `n_nodes = 0` and the sentinel is
written with `_set_node_at`, which does not touch the header, so the
fresh header has `n_nodes = 0`. -/
theorem c6_fresh_header_counterexample :
    (freshState cfg0).header.n_nodes = 0 ∧
    ¬ (freshState cfg0).header.n_nodes = 1 :=
  ⟨rfl, by decide⟩

/-- C6, amended.  On a freshly created empty graph the header's `n_nodes`
field equals 0 (the sentinel root is not counted), the public `n_nodes`
property equals 0, the `nodes` iterator yields nothing, and the `edges`
iterator yields nothing. -/
theorem c6_fresh_graph_amended (cfg : Cfg) (fuel : Nat) :
    (freshState cfg).header.n_nodes = 0 ∧
    nNodes (freshState cfg) = 0 ∧
    nodesList (freshState cfg) (fuel + 1) = some [] ∧
    edgesList cfg (freshState cfg) fuel = [] := by
  refine ⟨rfl, rfl, ?_, ?_⟩
  · simp [nodesList, nodeDfs, getNodeAt, freshState, rootNode]
  · simp [edgesList, iterEdgesAux_freshState]

/-- C7: `find_tombstones` appends the slot of a live node to the node
free list.  On the state after `add_node("A")` on a fresh graph, the node
record of `"A"` at slot 1 is live (`exists = true`) but has no left child,
and the `"?l"` probe of `find_tombstones` reads the `left` field (offset 8
of the record under the default 64-bit native formats) where the code
intends a tombstone indicator - so slot 1 is appended to `node_tombstone`
even though the claim (and the spec) say only `exists = false` slots are
collected.  The edge sweep also appends the never-used bump-pointer slot 3.
Recycling slot 1 would overwrite the live node, so the claim reflects the
intent and the code is in error. -/
theorem c7_find_tombstones_live_node :
    (getNodeAt stateA.gs 1).nexists = true ∧
    (getNodeAt stateA.gs 1).key = "A" ∧
    (getNodeAt stateA.gs 1).left = 0 ∧
    (findTombstones cfg0 stateA.gs 30).node_tombstone = [1] ∧
    (findTombstones cfg0 stateA.gs 30).edge_tombstone = [3] := by
  refine ⟨by decide, by decide, by decide, by decide, by decide⟩

/-- C9: a key longer than `max_key_len` makes `node()` raise `KeyTooLong`
before any lookup, and `has_node` catches only `NodeNotFound`, so the
`KeyTooLong` propagates: `has_node` does not return `False`. -/
theorem c9_has_node_key_too_long (cfg : Cfg) (gs : GraphState) (fuel : Nat)
    (key : String) (h : key.length > cfg.maxKeyLen) :
    nodeLookup cfg gs fuel key = .error .keyTooLong ∧
    hasNode cfg gs fuel key = .error .keyTooLong ∧
    ¬ hasNode cfg gs fuel key = .ok false := by
  have h1 : nodeLookup cfg gs fuel key = .error .keyTooLong := by
    unfold nodeLookup; rw [if_pos h]
  refine ⟨h1, ?_, ?_⟩
  · unfold hasNode; rw [h1]
  · unfold hasNode; rw [h1]; simp

/-- Witness for C9 at a concrete 17-character key. -/
theorem c9_has_node_key_too_long_witness :
    "0123456789abcdefg".length > cfg0.maxKeyLen ∧
    nodeLookup cfg0 (freshState cfg0) 20 "0123456789abcdefg" = .error .keyTooLong ∧
    hasNode cfg0 (freshState cfg0) 20 "0123456789abcdefg" = .error .keyTooLong ∧
    ¬ hasNode cfg0 (freshState cfg0) 20 "0123456789abcdefg" = .ok false := by
  have t := c9_has_node_key_too_long cfg0 (freshState cfg0) 20
    "0123456789abcdefg" (by decide)
  exact ⟨by decide, t.1, t.2.1, t.2.2⟩

/-- C5: `remove_edge` on a pair/type that is not a live edge - the
lookup `self.edge(...)` raises `EdgeNotFound` (or `NodeNotFound` for an
absent endpoint) - propagates that error and returns with the entire
state unchanged: same file bytes, same header, same free lists, and an
empty write trace (no mapped-file write happened). -/
theorem c5_remove_edge_absent_unchanged (cfg : Cfg) (st : St) (fuel : Nat)
    (u v : String) (t : Int) (err : Err)
    (h : edgeLookup cfg st.gs fuel u v t = .error err)
    (_herr : err = .nodeNotFound ∨ err = .edgeNotFound) :
    removeEdge cfg st fuel u v t = (.error err, st) := by
  unfold removeEdge; rw [h]

/-- Witness for C5: removing the absent edge `("A", "C")` (endpoint `"C"`
missing) from the concrete two-node graph leaves it untouched. -/
theorem c5_remove_edge_absent_unchanged_witness :
    edgeLookup cfg0 stateAB.gs 20 "A" "C" 0 = .error .nodeNotFound ∧
    removeEdge cfg0 stateAB 20 "A" "C" 0 = (.error .nodeNotFound, stateAB) :=
  ⟨by decide, c5_remove_edge_absent_unchanged cfg0 stateAB 20 "A" "C" 0
    .nodeNotFound (by decide) (Or.inl rfl)⟩

/-- Helper: `_expand` appends exactly one header write to the trace. -/
theorem expand_tr (cfg : Cfg) (st : St) :
    (expand cfg st).tr = st.tr ++ [.wheader] := by
  unfold expand; split_ifs <;> rfl

/-- Helper: `_increment_node` appends exactly one header write. -/
theorem incrementNode_tr (cfg : Cfg) (st : St) (r : Bool) :
    (incrementNode cfg st r).tr = st.tr ++ [.wheader] := by
  unfold incrementNode; rw [expand_tr]

/-- Helper: `_increment_edge` appends exactly one header write. -/
theorem incrementEdge_tr (cfg : Cfg) (st : St) (r : Bool) :
    (incrementEdge cfg st r).tr = st.tr ++ [.wheader] := by
  unfold incrementEdge; rw [expand_tr]

/-- Helper: `_decrement_edge` appends exactly one header write. -/
theorem decrementEdge_tr (cfg : Cfg) (st : St) :
    (decrementEdge cfg st).tr = st.tr ++ [.wheader] := by
  unfold decrementEdge; rw [expand_tr]

/-- Helper: `_erase_edge_at` appends one edge-record write and one header
write. -/
theorem eraseEdgeAt_tr (cfg : Cfg) (st : St) (pos : Int) :
    (eraseEdgeAt cfg st pos).tr = st.tr ++ [.wedge pos, .wheader] := by
  unfold eraseEdgeAt; rw [decrementEdge_tr]; simp [setEdgeAt]

/-- Helper: `_remove_edge_from_tree` appends only record writes to the
trace, on every path (success or error). -/
theorem removeEdgeFromTree_tr (st : St) (fuel : Nat) (e : EdgeRec) (out : Bool) :
    ∃ l, ((removeEdgeFromTree st fuel e out).2).tr = st.tr ++ l ∧
      l.all isRecordWrite = true := by
  unfold removeEdgeFromTree unplugEdge rewireEdge
  dsimp only
  split_ifs <;>
    first
      | (exact ⟨[], (List.append_nil _).symm, rfl⟩)
      | (simp only [setEdgeAt, List.append_assoc]; exact ⟨_, rfl, rfl⟩)
      | (rcases hs : findInorderSuccessorEdge st.gs fuel e out with _ | ⟨s, a⟩ <;>
          simp only [hs] <;>
          first
            | (exact ⟨[], (List.append_nil _).symm, rfl⟩)
            | (split_ifs <;>
                first
                  | (exact ⟨[], (List.append_nil _).symm, rfl⟩)
                  | (simp only [setEdgeAt, List.append_assoc]; exact ⟨_, rfl, rfl⟩)))

/-- Helper: a trace of record writes only satisfies the ordering
property. -/
theorem rwbh_of_all_records :
    ∀ l : List Ev, l.all isRecordWrite = true →
      recordWritesBeforeHeader l = true := by
  intro l
  induction l with
  | nil => intro _; rfl
  | cons e rest ih =>
    intro h
    rw [List.all_cons, Bool.and_eq_true] at h
    cases e with
    | wnode p => exact ih h.2
    | wedge p => exact ih h.2
    | wheader => cases h.1

/-- Helper: record writes followed by one header write satisfy the
ordering property. -/
theorem rwbh_records_then_header :
    ∀ l : List Ev, l.all isRecordWrite = true →
      recordWritesBeforeHeader (l ++ [.wheader]) = true := by
  intro l
  induction l with
  | nil => intro _; rfl
  | cons e rest ih =>
    intro h
    rw [List.all_cons, Bool.and_eq_true] at h
    cases e with
    | wnode p => exact ih h.2
    | wedge p => exact ih h.2
    | wheader => cases h.1

/-- C8, counterexample.  The claim states that within every mutating call
all record writes occur before the header counters are written back.  In
`add_node` the opposite happens: `_increment_node` and `_increment_edge`
(each of which writes the header via `_expand`) run before the new node
record, its dummy edge and the parent's updated record are written.  On a
fresh graph, `add_node("A")` writes: header, header, node slot 1, edge
slot 2, node slot 0 - so a reader that sees the new counters may not yet
see the new records. -/
theorem c8_add_node_header_first_counterexample :
    (addNode cfg0 ⟨freshState cfg0, []⟩ 20 "A").2.tr =
      [.wheader, .wheader, .wnode 1, .wedge 2, .wnode 0] ∧
    recordWritesBeforeHeader
      ((addNode cfg0 ⟨freshState cfg0, []⟩ 20 "A").2.tr) = false :=
  ⟨by decide, by decide⟩

/-- C8, amended.  Within one call of `add_edge` on existing endpoints and
of `remove_edge`, all record writes to the mapped file occur before the
header counters are written back (on every path, success or error); but
`add_node`, when it inserts a new key, writes the header counters first -
its trace is two header writes followed by the three record writes. -/
theorem c8_write_order_amended (cfg : Cfg) (fuel : Nat)
    (st1 : St) (u v : String) (t : Int) (su sv : NodeRec)
    (h1 : st1.tr = [])
    (h2 : nodeLookup cfg st1.gs fuel u = .ok su)
    (h3 : nodeLookup cfg st1.gs fuel v = .ok sv)
    (st2 : St) (u2 v2 : String) (t2 : Int)
    (h4 : st2.tr = [])
    (st3 : St) (k : String) (prev : NodeRec) (sn : Int)
    (h5 : st3.tr = [])
    (h6 : k.length ≤ cfg.maxKeyLen)
    (h7 : findNodePos st3.gs fuel 0 (addNodeProbe cfg st3.gs k) = some (prev, sn))
    (h8 : sn ≠ 0) :
    recordWritesBeforeHeader ((addEdge cfg st1 fuel u v t).2).tr = true ∧
    recordWritesBeforeHeader ((removeEdge cfg st2 fuel u2 v2 t2).2).tr = true ∧
    ∃ p1 p2, ((addNode cfg st3 fuel k).2).tr =
      [.wheader, .wheader, .wnode p1, .wedge p2, .wnode prev.position] ∧
      recordWritesBeforeHeader ((addNode cfg st3 fuel k).2).tr = false := by
  refine ⟨?_, ?_, ?_⟩
  · unfold addEdge resolveOrAddNode
    rw [h2]; (try dsimp only); rw [h3]; (try dsimp only)
    split <;> (try dsimp only) <;>
      first
        | (rw [h1]; rfl)
        | (split_ifs <;>
            first
              | (rw [h1]; rfl)
              | (simp only [setEdgeAt]; rw [h1]; rfl)
              | (split <;> (try dsimp only) <;>
                  first
                    | (simp only [setEdgeAt]; rw [h1]; rfl)
                    | (split_ifs <;>
                        first
                          | (simp only [setEdgeAt]; rw [h1]; rfl)
                          | (simp only [incrementEdge_tr, setEdgeAt,
                              List.append_assoc]; rw [h1]; rfl))))
  · unfold removeEdge
    rcases hel : edgeLookup cfg st2.gs fuel u2 v2 t2 with err | edge <;>
      simp only [hel]
    · rw [h4]; rfl
    · unfold removeEdgeRec
      obtain ⟨l1, hl1, ha1⟩ := removeEdgeFromTree_tr st2 fuel edge true
      rcases hr1 : removeEdgeFromTree st2 fuel edge true with ⟨r1, stA'⟩
      rw [hr1] at hl1
      dsimp only at hl1
      cases r1 with
      | error e =>
        simp only [hr1]
        rw [hl1, h4]
        exact rwbh_of_all_records l1 ha1
      | ok _ =>
        simp only [hr1]
        obtain ⟨l2, hl2, ha2⟩ := removeEdgeFromTree_tr stA' fuel edge false
        rcases hr2 : removeEdgeFromTree stA' fuel edge false with ⟨r2, stB'⟩
        rw [hr2] at hl2
        dsimp only at hl2
        cases r2 with
        | error e =>
          simp only [hr2]
          rw [hl2, hl1, h4]
          simp only [List.nil_append]
          refine rwbh_of_all_records _ ?_
          simp only [List.all_append, Bool.and_eq_true]
          exact ⟨ha1, ha2⟩
        | ok _ =>
          simp only [hr2]
          rw [eraseEdgeAt_tr, hl2, hl1, h4]
          simp only [List.nil_append, List.append_assoc]
          have : l1 ++ (l2 ++ [Ev.wedge edge.position, Ev.wheader]) =
              (l1 ++ (l2 ++ [Ev.wedge edge.position])) ++ [Ev.wheader] := by
            simp [List.append_assoc]
          rw [this]
          refine rwbh_records_then_header _ ?_
          simp only [List.all_append, Bool.and_eq_true]
          exact ⟨ha1, ha2, rfl⟩
  · unfold addNode
    rw [if_neg (by omega)]
    dsimp only
    rw [h7]
    dsimp only
    rw [if_neg h8]
    simp only [setNodeAt, setEdgeAt, incrementEdge_tr, incrementNode_tr,
      List.append_assoc]
    rw [h5]
    exact ⟨_, _, rfl, rfl⟩

/-- Witness for C8 (amended) on the concrete two-node graph `A -> B` (for
the `add_edge`/`remove_edge` components) and a fresh graph (for the
`add_node` component). -/
theorem c8_write_order_amended_witness :
    ((⟨stateAB.gs, []⟩ : St).tr = [] ∧
      nodeLookup cfg0 stateAB.gs 20 "A" = .ok
        { is_node := true, nexists := true, hash := 100, left := 3, right := 0,
          index := 1, position := 1, parent := 0, edge_start := 2, key := "A" } ∧
      nodeLookup cfg0 stateAB.gs 20 "B" = .ok
        { is_node := true, nexists := true, hash := 50, left := 0, right := 0,
          index := 2, position := 3, parent := 1, edge_start := 4, key := "B" } ∧
      ("A".length ≤ cfg0.maxKeyLen) ∧
      findNodePos (freshState cfg0) 20 0
        (addNodeProbe cfg0 (freshState cfg0) "A") = some (rootNode, -1) ∧
      (-1 : Int) ≠ 0) ∧
    (recordWritesBeforeHeader
        ((addEdge cfg0 ⟨stateAB.gs, []⟩ 20 "A" "B" 0).2).tr = true ∧
      recordWritesBeforeHeader
        ((removeEdge cfg0 ⟨stateAB.gs, []⟩ 20 "A" "B" 0).2).tr = true ∧
      ∃ p1 p2, ((addNode cfg0 ⟨freshState cfg0, []⟩ 20 "A").2).tr =
        [.wheader, .wheader, .wnode p1, .wedge p2, .wnode rootNode.position] ∧
        recordWritesBeforeHeader
          ((addNode cfg0 ⟨freshState cfg0, []⟩ 20 "A").2).tr = false) := by
  refine ⟨⟨rfl, by decide, by decide, by decide, by decide, by decide⟩, ?_⟩
  exact c8_write_order_amended cfg0 20 ⟨stateAB.gs, []⟩ "A" "B" 0
    { is_node := true, nexists := true, hash := 100, left := 3, right := 0,
      index := 1, position := 1, parent := 0, edge_start := 2, key := "A" }
    { is_node := true, nexists := true, hash := 50, left := 0, right := 0,
      index := 2, position := 3, parent := 1, edge_start := 4, key := "B" }
    rfl (by decide) (by decide) ⟨stateAB.gs, []⟩ "A" "B" 0 rfl
    ⟨freshState cfg0, []⟩ "A" rootNode (-1) rfl (by decide) (by decide)
    (by decide)

/-- C2: `add_node` and `add_edge` are idempotent on their structural key.
When the node-BST walk for `add_node(k)` ends in equality at a record `p`
(the second call on the same key), `n_nodes` is unchanged and the record
at `p`'s slot keeps the structural fields `index`, `parent`, `left`,
`right`, `edge_start`, `position` (either the existing record is returned
untouched, or it is overwritten with only the non-structural fields
replaced).  When the out-tree walk for `add_edge(u, v, t)` ends in
equality at a record `e`, `n_edges` is unchanged and the record at `e`'s
slot keeps `position` and all six tree-link fields. -/
theorem c2_add_idempotent (cfg : Cfg) (fuel : Nat)
    (st1 : St) (k : String) (p : NodeRec)
    (hk : k.length ≤ cfg.maxKeyLen)
    (hfn : findNodePos st1.gs fuel 0 (addNodeProbe cfg st1.gs k) = some (p, 0))
    (hp : st1.gs.file p.position = .nodeS p)
    (st2 : St) (u v : String) (t : Int) (su sv : NodeRec) (e : EdgeRec)
    (hu : nodeLookup cfg st2.gs fuel u = .ok su)
    (hv : nodeLookup cfg st2.gs fuel v = .ok sv)
    (hfe : findEdgeOutPos st2.gs fuel su.edge_start (mkProbeEdge cfg su sv t) =
      some (e, 0))
    (he : st2.gs.file e.position = .edgeS e) :
    (((addNode cfg st1 fuel k).2).gs.header.n_nodes = st1.gs.header.n_nodes ∧
      ∃ p', ((addNode cfg st1 fuel k).2).gs.file p.position = .nodeS p' ∧
        p'.index = p.index ∧ p'.parent = p.parent ∧ p'.left = p.left ∧
        p'.right = p.right ∧ p'.edge_start = p.edge_start ∧
        p'.position = p.position) ∧
    (((addEdge cfg st2 fuel u v t).2).gs.header.n_edges = st2.gs.header.n_edges ∧
      ∃ e', ((addEdge cfg st2 fuel u v t).2).gs.file e.position = .edgeS e' ∧
        e'.position = e.position ∧
        e'.out_edge_left = e.out_edge_left ∧ e'.out_edge_right = e.out_edge_right ∧
        e'.out_edge_parent = e.out_edge_parent ∧ e'.in_edge_left = e.in_edge_left ∧
        e'.in_edge_right = e.in_edge_right ∧
        e'.in_edge_parent = e.in_edge_parent) := by
  constructor
  · unfold addNode
    rw [if_neg (by omega)]
    (try dsimp only)
    rw [hfn]
    (try dsimp only)
    rw [if_pos (rfl : (0 : Int) = 0)]
    by_cases hEq : nodeEqPy (addNodeProbe cfg st1.gs k) p = true
    · rw [if_pos hEq]
      exact ⟨rfl, p, hp, rfl, rfl, rfl, rfl, rfl, rfl⟩
    · rw [if_neg hEq]
      exact ⟨rfl,
        { addNodeProbe cfg st1.gs k with
          left := p.left, right := p.right, index := p.index,
          position := p.position, parent := p.parent,
          edge_start := p.edge_start },
        by simp [setNodeAt], rfl, rfl, rfl, rfl, rfl, rfl⟩
  · unfold addEdge resolveOrAddNode
    rw [hu]
    (try dsimp only)
    rw [hv]
    (try dsimp only)
    rw [hfe]
    (try dsimp only)
    rw [if_pos (rfl : (0 : Int) = 0)]
    by_cases hEq : edgeEqPy e (mkProbeEdge cfg su sv t) = true
    · rw [if_pos hEq]
      exact ⟨rfl, e, he, rfl, rfl, rfl, rfl, rfl, rfl, rfl⟩
    · rw [if_neg hEq]
      exact ⟨rfl,
        { mkProbeEdge cfg su sv t with
          position := e.position, source_position := e.source_position,
          target_position := e.target_position,
          out_edge_left := e.out_edge_left, out_edge_right := e.out_edge_right,
          out_edge_parent := e.out_edge_parent, in_edge_left := e.in_edge_left,
          in_edge_right := e.in_edge_right, in_edge_parent := e.in_edge_parent },
        by simp [setEdgeAt], rfl, rfl, rfl, rfl, rfl, rfl, rfl⟩

/-- Witness for C2 on the concrete states after `add_node("A")` and after
`add_edge("A", "B")`, with the equality endings of the second calls
discharged by evaluation. -/
theorem c2_add_idempotent_witness :
    ("A".length ≤ cfg0.maxKeyLen ∧
      findNodePos stateA.gs 20 0 (addNodeProbe cfg0 stateA.gs "A") = some
        ({ is_node := true, nexists := true, hash := 100, left := 0, right := 0,
           index := 1, position := 1, parent := 0, edge_start := 2,
           key := "A" }, 0) ∧
      nodeLookup cfg0 stateAB.gs 20 "A" = .ok
        { is_node := true, nexists := true, hash := 100, left := 3, right := 0,
          index := 1, position := 1, parent := 0, edge_start := 2, key := "A" } ∧
      nodeLookup cfg0 stateAB.gs 20 "B" = .ok
        { is_node := true, nexists := true, hash := 50, left := 0, right := 0,
          index := 2, position := 3, parent := 1, edge_start := 4, key := "B" }) ∧
    (((addNode cfg0 ⟨stateA.gs, []⟩ 20 "A").2).gs.header.n_nodes =
        stateA.gs.header.n_nodes ∧
      ((addEdge cfg0 ⟨stateAB.gs, []⟩ 20 "A" "B" 0).2).gs.header.n_edges =
        stateAB.gs.header.n_edges) := by
  have t2 := c2_add_idempotent cfg0 20 ⟨stateA.gs, []⟩ "A"
    { is_node := true, nexists := true, hash := 100, left := 0, right := 0,
      index := 1, position := 1, parent := 0, edge_start := 2, key := "A" }
    (by decide) (by decide) (by decide)
    ⟨stateAB.gs, []⟩ "A" "B" 0
    { is_node := true, nexists := true, hash := 100, left := 3, right := 0,
      index := 1, position := 1, parent := 0, edge_start := 2, key := "A" }
    { is_node := true, nexists := true, hash := 50, left := 0, right := 0,
      index := 2, position := 3, parent := 1, edge_start := 4, key := "B" }
    { is_node := false, nexists := true, is_edge_start := false, position := 5,
      source_position := 1, target_position := 3, hash := 77,
      out_edge_left := 0, out_edge_right := 0, out_edge_parent := 2,
      in_edge_left := 0, in_edge_right := 0, in_edge_parent := 4, type := 0 }
    (by decide) (by decide) (by decide) (by decide)
  exact ⟨⟨by decide, by decide, by decide, by decide⟩, t2.1.1, t2.2.1⟩

/-- Helper: whenever `_edge_out_dfs` completes within the fuel bound, it
produces exactly the post-order listing of the abstract out-tree
materialised with the same fuel. -/
theorem edgeOutDfs_eq_postOrder (gs : GraphState) :
    ∀ (fuel : Nat) (e : EdgeRec) (l : List EdgeRec),
      edgeOutDfs gs fuel e = some l →
      l = postOrderEdges (extractOutTree gs fuel e) := by
  intro fuel
  induction fuel with
  | zero => intro e l h; cases h
  | succ f ih =>
    intro e l h
    rw [edgeOutDfs] at h
    rcases hL : (if e.out_edge_left ≠ 0 then
        edgeOutDfs gs f (getEdgeAt gs e.out_edge_left) else some []) with _ | lL
    · rw [hL] at h; cases h
    rcases hR : (if e.out_edge_right ≠ 0 then
        edgeOutDfs gs f (getEdgeAt gs e.out_edge_right) else some []) with _ | lR
    · rw [hL, hR] at h; cases h
    rw [hL, hR] at h
    have hl := Option.some.inj h
    have gL : lL = postOrderEdges (if e.out_edge_left ≠ 0 then
        extractOutTree gs f (getEdgeAt gs e.out_edge_left) else .leaf) := by
      by_cases h1 : e.out_edge_left ≠ 0
      · rw [if_pos h1] at hL
        rw [if_pos h1]
        exact ih _ _ hL
      · rw [if_neg h1] at hL
        rw [if_neg h1]
        exact (Option.some.inj hL).symm
    have gR : lR = postOrderEdges (if e.out_edge_right ≠ 0 then
        extractOutTree gs f (getEdgeAt gs e.out_edge_right) else .leaf) := by
      by_cases h2 : e.out_edge_right ≠ 0
      · rw [if_pos h2] at hR
        rw [if_pos h2]
        exact ih _ _ hR
      · rw [if_neg h2] at hR
        rw [if_neg h2]
        exact (Option.some.inj hR).symm
    rw [extractOutTree]
    rw [show ∀ t1 t2, postOrderEdges (.node t1 e t2) =
      postOrderEdges t1 ++ postOrderEdges t2 ++
        (if e.is_edge_start then [] else [e]) from fun t1 t2 => rfl]
    rw [← hl, gL, gR]

/-- C4, counterexample.  The claim states that `neighbors(u)` yields each
target key in the in-order position of its edge in the out-tree.  On the
concrete graph with edges `x -> a, b, c` whose out-tree is
`dummy - right - e(a)` with `e(b)` and `e(c)` the left and right children
of `e(a)`, `neighbors("x")` yields `["b", "c", "a"]` (the post-order),
not the in-order `["b", "a", "c"]`. -/
theorem c4_neighbors_not_inorder_counterexample :
    neighborsList cfg0 stateC4.gs 30 "x" = .ok ["b", "c", "a"] ∧
    (inOrderEdges (extractOutTree stateC4.gs 30 (getEdgeAt stateC4.gs 2))).map
      (fun e => (getNodeAt stateC4.gs e.target_position).key) = ["b", "a", "c"] ∧
    ¬ neighborsList cfg0 stateC4.gs 30 "x" = .ok
      ((inOrderEdges (extractOutTree stateC4.gs 30 (getEdgeAt stateC4.gs 2))).map
        (fun e => (getNodeAt stateC4.gs e.target_position).key)) :=
  ⟨by decide, by decide, by decide⟩

/-- C4, amended.  For every existing node `u`, `neighbors(u)` performs a
DFS of the out-tree rooted at `u.edge_start`'s dummy and yields, in the
post-order position of each non-dummy edge `e` (left subtree, right
subtree, then `e`), the key of the node at `e.target_position`: the yield
order is the post-order traversal order of the out-tree, not the
in-order one. -/
theorem c4_neighbors_postorder_amended (cfg : Cfg) (gs : GraphState)
    (fuel : Nat) (u : String) (leaf : NodeRec) (l : List EdgeRec)
    (h : nodeLookup cfg gs fuel u = .ok leaf)
    (hd : edgeOutDfs gs fuel (getEdgeAt gs leaf.edge_start) = some l) :
    neighborsList cfg gs fuel u = .ok
      ((postOrderEdges (extractOutTree gs fuel (getEdgeAt gs leaf.edge_start))).map
        (fun e => (getNodeAt gs e.target_position).key)) := by
  unfold neighborsList
  rw [h]
  (try dsimp only)
  rw [hd]
  rw [edgeOutDfs_eq_postOrder gs fuel _ l hd]

/-- Witness for C4 (amended) on the concrete graph with edges
`x -> a, b, c`. -/
theorem c4_neighbors_postorder_amended_witness :
    nodeLookup cfg0 stateC4.gs 30 "x" = .ok
      { is_node := true, nexists := true, hash := 10, left := 0, right := 3,
        index := 1, position := 1, parent := 0, edge_start := 2, key := "x" } ∧
    neighborsList cfg0 stateC4.gs 30 "x" = .ok
      ((postOrderEdges (extractOutTree stateC4.gs 30
          (getEdgeAt stateC4.gs
            ({ is_node := true, nexists := true, hash := 10, left := 0,
               right := 3, index := 1, position := 1, parent := 0,
               edge_start := 2, key := "x" } : NodeRec).edge_start))).map
        (fun e => (getNodeAt stateC4.gs e.target_position).key)) :=
  ⟨by decide, c4_neighbors_postorder_amended cfg0 stateC4.gs 30 "x" _
    ((edgeOutDfs stateC4.gs 30 (getEdgeAt stateC4.gs 2)).getD [])
    (by decide) (by decide)⟩

/-- Helper: `_expand` never changes the file contents. -/
theorem expand_file (cfg : Cfg) (st : St) :
    (expand cfg st).gs.file = st.gs.file := by
  unfold expand; split_ifs <;> rfl

/-- Helper: `_expand` never changes `n_nodes`. -/
theorem expand_n_nodes (cfg : Cfg) (st : St) :
    (expand cfg st).gs.header.n_nodes = st.gs.header.n_nodes := by
  unfold expand; split_ifs <;> rfl

/-- Helper: `_expand` never changes `n_edges`. -/
theorem expand_n_edges (cfg : Cfg) (st : St) :
    (expand cfg st).gs.header.n_edges = st.gs.header.n_edges := by
  unfold expand; split_ifs <;> rfl

/-- Helper: `_expand` never changes the node free list. -/
theorem expand_node_tomb (cfg : Cfg) (st : St) :
    (expand cfg st).gs.node_tombstone = st.gs.node_tombstone := by
  unfold expand; split_ifs <;> rfl

/-- Helper: `_expand` never changes the edge free list. -/
theorem expand_edge_tomb (cfg : Cfg) (st : St) :
    (expand cfg st).gs.edge_tombstone = st.gs.edge_tombstone := by
  unfold expand; split_ifs <;> rfl

/-- Helper: the effect of `_decrement_edge` on each state component. -/
theorem decrementEdge_gs (cfg : Cfg) (st : St) :
    (decrementEdge cfg st).gs.file = st.gs.file ∧
    (decrementEdge cfg st).gs.header.n_nodes = st.gs.header.n_nodes ∧
    (decrementEdge cfg st).gs.header.n_edges = st.gs.header.n_edges - 1 ∧
    (decrementEdge cfg st).gs.node_tombstone = st.gs.node_tombstone ∧
    (decrementEdge cfg st).gs.edge_tombstone = st.gs.edge_tombstone := by
  unfold decrementEdge
  exact ⟨expand_file cfg _, expand_n_nodes cfg _, expand_n_edges cfg _,
    expand_node_tomb cfg _, expand_edge_tomb cfg _⟩

/-- Helper: the effect of `_decrement_node` on each state component. -/
theorem decrementNode_gs (cfg : Cfg) (st : St) :
    (decrementNode cfg st).gs.file = st.gs.file ∧
    (decrementNode cfg st).gs.header.n_nodes = st.gs.header.n_nodes - 1 ∧
    (decrementNode cfg st).gs.header.n_edges = st.gs.header.n_edges ∧
    (decrementNode cfg st).gs.node_tombstone = st.gs.node_tombstone ∧
    (decrementNode cfg st).gs.edge_tombstone = st.gs.edge_tombstone := by
  unfold decrementNode
  exact ⟨expand_file cfg _, expand_n_nodes cfg _, expand_n_edges cfg _,
    expand_node_tomb cfg _, expand_edge_tomb cfg _⟩

/-- Helper: the effect of `_erase_edge_at` on each state component. -/
theorem eraseEdgeAt_gs (cfg : Cfg) (st : St) (pos : Int) :
    (eraseEdgeAt cfg st pos).gs.file =
      (fun p => if p = pos then .edgeS zeroEdge else st.gs.file p) ∧
    (eraseEdgeAt cfg st pos).gs.header.n_nodes = st.gs.header.n_nodes ∧
    (eraseEdgeAt cfg st pos).gs.header.n_edges = st.gs.header.n_edges - 1 ∧
    (eraseEdgeAt cfg st pos).gs.node_tombstone = st.gs.node_tombstone ∧
    (eraseEdgeAt cfg st pos).gs.edge_tombstone = st.gs.edge_tombstone ++ [pos] := by
  unfold eraseEdgeAt
  obtain ⟨g1, g2, g3, g4, g5⟩ := decrementEdge_gs cfg
    { setEdgeAt st zeroEdge pos with gs :=
      { (setEdgeAt st zeroEdge pos).gs with edge_tombstone :=
        (setEdgeAt st zeroEdge pos).gs.edge_tombstone ++ [pos] } }
  exact ⟨g1, g2, g3, g4, by rw [g5]; rfl⟩

/-- Helper: the effect of `_erase_node` on each state component. -/
theorem eraseNode_gs (cfg : Cfg) (st : St) (node : NodeRec) :
    (eraseNode cfg st node).gs.file =
      (fun p => if p = node.edge_start then .edgeS zeroEdge
        else if p = node.position then .nodeS zeroNode else st.gs.file p) ∧
    (eraseNode cfg st node).gs.header.n_nodes = st.gs.header.n_nodes - 1 ∧
    (eraseNode cfg st node).gs.header.n_edges = st.gs.header.n_edges - 1 ∧
    (eraseNode cfg st node).gs.node_tombstone =
      st.gs.node_tombstone ++ [node.position] ∧
    (eraseNode cfg st node).gs.edge_tombstone =
      st.gs.edge_tombstone ++ [node.edge_start] := by
  unfold eraseNode
  obtain ⟨g1, g2, g3, g4, g5⟩ := decrementEdge_gs cfg _
  rw [g1, g2, g3, g4, g5]
  dsimp only [setEdgeAt]
  obtain ⟨f1, f2, f3, f4, f5⟩ := decrementNode_gs cfg
    { setNodeAt st zeroNode node.position with gs :=
      { (setNodeAt st zeroNode node.position).gs with node_tombstone :=
        (setNodeAt st zeroNode node.position).gs.node_tombstone ++
          [node.position] } }
  rw [f1, f2, f3, f4, f5]
  exact ⟨rfl, rfl, rfl, rfl, rfl⟩

/-- Helper: `_remove_edge_from_tree` in the childless case with a
non-negative, left-linked parent: unplug the parent's link and write the
parent back. -/
theorem removeEdgeFromTree_case1 (st : St) (fuel : Nat) (e par : EdgeRec)
    (out : Bool)
    (hl : eLeft out e = 0) (hr : eRight out e = 0)
    (hpar : getEdgeAt st.gs (eParent out e) = par)
    (hpos : ¬ par.position < 0)
    (hstate : compareEdges par e = -1) :
    removeEdgeFromTree st fuel e out =
      (.ok (), setEdgeAt st (setELeft out par 0) (setELeft out par 0).position) := by
  unfold removeEdgeFromTree unplugEdge
  dsimp only
  rw [hpar, hstate, if_pos ⟨hl, hr⟩, if_neg hpos,
    if_pos (rfl : (-1 : Int) = -1)]

/-- Helper: `_remove_node_from_tree` in the childless case with the node
linked as its parent's left child. -/
theorem removeNodeFromTree_case1 (st : St) (fuel : Nat) (node par : NodeRec)
    (hpar : getNodeAt st.gs node.parent = par)
    (hleft : par.left = node.position)
    (hl : node.left = 0) (hr : node.right = 0) :
    removeNodeFromTree st fuel node =
      (.ok (), setNodeAt st { par with left := 0 } par.position) := by
  unfold removeNodeFromTree unplugNode
  dsimp only
  rw [hpar, if_pos (Or.inl hleft), if_pos hleft, if_pos ⟨hl, hr⟩,
    if_pos (rfl : (-1 : Int) = -1)]

/-- Helper: `_set_node_at` leaves the header untouched. -/
theorem setNodeAt_header (st : St) (n : NodeRec) (pos : Int) :
    (setNodeAt st n pos).gs.header = st.gs.header := rfl

/-- Helper: `_set_node_at` leaves the free lists untouched. -/
theorem setNodeAt_node_tomb (st : St) (n : NodeRec) (pos : Int) :
    (setNodeAt st n pos).gs.node_tombstone = st.gs.node_tombstone := rfl

/-- Helper: `_set_node_at` leaves the edge free list untouched. -/
theorem setNodeAt_edge_tomb (st : St) (n : NodeRec) (pos : Int) :
    (setNodeAt st n pos).gs.edge_tombstone = st.gs.edge_tombstone := rfl

/-- Helper: `_set_edge_at` leaves the header untouched. -/
theorem setEdgeAt_header (st : St) (e : EdgeRec) (pos : Int) :
    (setEdgeAt st e pos).gs.header = st.gs.header := rfl

/-- Helper: `_set_edge_at` leaves the node free list untouched. -/
theorem setEdgeAt_node_tomb (st : St) (e : EdgeRec) (pos : Int) :
    (setEdgeAt st e pos).gs.node_tombstone = st.gs.node_tombstone := rfl

/-- Helper: `_set_edge_at` leaves the edge free list untouched. -/
theorem setEdgeAt_edge_tomb (st : St) (e : EdgeRec) (pos : Int) :
    (setEdgeAt st e pos).gs.edge_tombstone = st.gs.edge_tombstone := rfl

/-- C10: `remove_node` on a node whose only incident edge is a self-loop
removes that edge exactly once.  The self-loop edge is collected twice
(once by the out-DFS and once by the in-DFS of the same edge-start
dummy), but each candidate is re-read from the file and skipped when its
`exists` flag is already false, so: `n_edges` drops by exactly 2 (once
for the self-loop, once for the node's dummy), `n_nodes` by 1, the edge
free list gains `[pe, pd]` - the self-loop's slot exactly once - and the
self-loop's slot ends zeroed. -/
theorem c10_remove_node_self_loop (cfg : Cfg) (st : St) (f : Nat) (k : String)
    (nx pr : NodeRec) (d e : EdgeRec) (px pd pe : Int)
    (h1 : nodeLookup cfg st.gs (f + 1 + 1) k = .ok nx)
    (h2 : nx.edge_start = pd) (h3 : nx.position = px)
    (h4 : nx.left = 0) (h5 : nx.right = 0)
    (h6 : st.gs.file pd = .edgeS d)
    (h7 : d.is_edge_start = true) (h8 : d.position = pd)
    (h9 : d.out_edge_left = pe) (h10 : d.out_edge_right = 0)
    (h11 : d.in_edge_left = pe) (h12 : d.in_edge_right = 0)
    (h13 : st.gs.file pe = .edgeS e)
    (h14 : e.is_edge_start = false) (h15 : e.nexists = true)
    (h16 : e.position = pe)
    (h17 : e.out_edge_left = 0) (h18 : e.out_edge_right = 0)
    (h19 : e.in_edge_left = 0) (h20 : e.in_edge_right = 0)
    (h21 : e.out_edge_parent = pd) (h22 : e.in_edge_parent = pd)
    (h23 : compareEdges d e = -1)
    (h24 : st.gs.file nx.parent = .nodeS pr)
    (h25 : pr.left = px)
    (hd1 : pe ≠ 0) (hd2 : pe ≠ pd) (hd3 : ¬ pd < 0)
    (hd4 : nx.parent ≠ pd) (hd5 : nx.parent ≠ pe)
    (hd6 : pe ≠ px) (hd7 : pe ≠ pr.position) :
    ∃ stF, removeNode cfg st (f + 1 + 1) k = (.ok (), stF) ∧
      stF.gs.header.n_edges = st.gs.header.n_edges - 2 ∧
      stF.gs.header.n_nodes = st.gs.header.n_nodes - 1 ∧
      stF.gs.edge_tombstone = st.gs.edge_tombstone ++ [pe, pd] ∧
      stF.gs.node_tombstone = st.gs.node_tombstone ++ [px] ∧
      stF.gs.edge_tombstone.count pe = st.gs.edge_tombstone.count pe + 1 ∧
      getEdgeAt stF.gs pe = zeroEdge ∧
      edgeOutDfs st.gs (f + 1 + 1) (getEdgeAt st.gs nx.edge_start) = some [e] ∧
      edgeInDfs st.gs (f + 1 + 1) (getEdgeAt st.gs nx.edge_start) = some [e] := by
  have hgetpe : getEdgeAt st.gs pe = e := by unfold getEdgeAt; rw [h13]
  have hgetpd : getEdgeAt st.gs pd = d := by unfold getEdgeAt; rw [h6]
  have hes : getEdgeAt st.gs nx.edge_start = d := by rw [h2]; exact hgetpd
  have hout : edgeOutDfs st.gs (f + 1 + 1) d = some [e] := by
    simp [edgeOutDfs, h9, h10, h7, hd1, hgetpe, h17, h18, h14]
  have hin : edgeInDfs st.gs (f + 1 + 1) d = some [e] := by
    simp [edgeInDfs, h11, h12, h7, hd1, hgetpe, h19, h20, h14]
  -- the two tree deletions of the self-loop edge
  have hA : removeEdgeFromTree st (f + 1 + 1) e true =
      (.ok (), setEdgeAt st (setELeft true d 0) (setELeft true d 0).position) := by
    refine removeEdgeFromTree_case1 st _ e d true h17 h18 ?_ ?_ h23
    · show getEdgeAt st.gs e.out_edge_parent = d
      rw [h21]; exact hgetpd
    · show ¬ d.position < 0
      rw [h8]; exact hd3
  have hget1pd : getEdgeAt (setEdgeAt st (setELeft true d 0)
      (setELeft true d 0).position).gs pd = setELeft true d 0 := by
    unfold getEdgeAt setEdgeAt
    dsimp only
    rw [if_pos (show pd = (setELeft true d 0).position from h8.symm)]
  have hB : removeEdgeFromTree (setEdgeAt st (setELeft true d 0)
        (setELeft true d 0).position) (f + 1 + 1) e false =
      (.ok (), setEdgeAt (setEdgeAt st (setELeft true d 0)
        (setELeft true d 0).position)
        (setELeft false (setELeft true d 0) 0)
        (setELeft false (setELeft true d 0) 0).position) := by
    refine removeEdgeFromTree_case1 _ _ e (setELeft true d 0) false h19 h20 ?_ ?_
      (show compareEdges (setELeft true d 0) e = -1 from h23)
    · show getEdgeAt _ e.in_edge_parent = setELeft true d 0
      rw [h22]; exact hget1pd
    · show ¬ d.position < 0
      rw [h8]; exact hd3
  have hRER : removeEdgeRec cfg st (f + 1 + 1) e =
      (.ok (), eraseEdgeAt cfg (setEdgeAt (setEdgeAt st (setELeft true d 0)
        (setELeft true d 0).position)
        (setELeft false (setELeft true d 0) 0)
        (setELeft false (setELeft true d 0) 0).position) pe) := by
    unfold removeEdgeRec
    rw [hA]
    dsimp only
    rw [hB]
    dsimp only
    rw [h16]
  -- names for the intermediate states
  set st2 : St := setEdgeAt (setEdgeAt st (setELeft true d 0)
    (setELeft true d 0).position)
    (setELeft false (setELeft true d 0) 0)
    (setELeft false (setELeft true d 0) 0).position with hst2
  set stE : St := eraseEdgeAt cfg st2 pe with hstE
  obtain ⟨gE1, gE2, gE3, gE4, gE5⟩ := eraseEdgeAt_gs cfg st2 pe
  -- the edge-removal loop: second occurrence of the self-loop is skipped
  have hGet1 : getEdgeAt st.gs e.position = e := by rw [h16]; exact hgetpe
  have hGet2 : getEdgeAt stE.gs e.position = zeroEdge := by
    unfold getEdgeAt
    rw [show stE.gs.file = (fun p => if p = pe then .edgeS zeroEdge
      else st2.gs.file p) from gE1]
    rw [h16]
    simp
  have hLoop : removeNodeEdges cfg (f + 1 + 1) ([e] ++ [e]) st =
      (.ok (), stE) := by
    rw [List.singleton_append]
    simp only [removeNodeEdges, hGet1, h15, hRER, hGet2, zeroEdge,
      not_true, Bool.false_eq_true, not_false_iff, if_true, if_false]
  -- the node-BST deletion
  have hparE : getNodeAt stE.gs nx.parent = pr := by
    unfold getNodeAt
    rw [show stE.gs.file = (fun p => if p = pe then .edgeS zeroEdge
      else st2.gs.file p) from gE1]
    dsimp only
    rw [if_neg hd5, hst2]
    unfold setEdgeAt
    dsimp only
    rw [if_neg (show ¬ nx.parent = (setELeft false (setELeft true d 0) 0).position
        from by rw [show (setELeft false (setELeft true d 0) 0).position = pd from h8]; exact hd4),
      if_neg (show ¬ nx.parent = (setELeft true d 0).position
        from by rw [show (setELeft true d 0).position = pd from h8]; exact hd4),
      h24]
  have hNT : removeNodeFromTree stE (f + 1 + 1) nx =
      (.ok (), setNodeAt stE { pr with left := 0 } pr.position) :=
    removeNodeFromTree_case1 stE _ nx pr hparE (h25.trans h3.symm) h4 h5
  -- assemble the whole call
  refine ⟨eraseNode cfg (setNodeAt stE { pr with left := 0 } pr.position) nx,
    ?_, ?_, ?_, ?_, ?_, ?_, ?_, ?_, ?_⟩
  · unfold removeNode
    rw [h1]
    dsimp only
    rw [hes, hout, hin]
    dsimp only
    rw [hLoop]
    dsimp only
    rw [hNT]
  · obtain ⟨gN1, gN2, gN3, gN4, gN5⟩ := eraseNode_gs cfg
      (setNodeAt stE { pr with left := 0 } pr.position) nx
    rw [gN3, setNodeAt_header, hstE, gE3, hst2, setEdgeAt_header,
      setEdgeAt_header]
    omega
  · obtain ⟨gN1, gN2, gN3, gN4, gN5⟩ := eraseNode_gs cfg
      (setNodeAt stE { pr with left := 0 } pr.position) nx
    rw [gN2, setNodeAt_header, hstE, gE2, hst2, setEdgeAt_header,
      setEdgeAt_header]
  · obtain ⟨gN1, gN2, gN3, gN4, gN5⟩ := eraseNode_gs cfg
      (setNodeAt stE { pr with left := 0 } pr.position) nx
    rw [gN5, setNodeAt_edge_tomb, hstE, gE5, hst2, setEdgeAt_edge_tomb,
      setEdgeAt_edge_tomb, h2]
    simp
  · obtain ⟨gN1, gN2, gN3, gN4, gN5⟩ := eraseNode_gs cfg
      (setNodeAt stE { pr with left := 0 } pr.position) nx
    rw [gN4, setNodeAt_node_tomb, hstE, gE4, hst2, setEdgeAt_node_tomb,
      setEdgeAt_node_tomb, h3]
  · obtain ⟨gN1, gN2, gN3, gN4, gN5⟩ := eraseNode_gs cfg
      (setNodeAt stE { pr with left := 0 } pr.position) nx
    rw [gN5, setNodeAt_edge_tomb, hstE, gE5, hst2, setEdgeAt_edge_tomb,
      setEdgeAt_edge_tomb, h2]
    simp [List.count_append, List.count_cons, List.count_nil, Ne.symm hd2]
  · unfold getEdgeAt
    obtain ⟨gN1, gN2, gN3, gN4, gN5⟩ := eraseNode_gs cfg
      (setNodeAt stE { pr with left := 0 } pr.position) nx
    rw [gN1]
    dsimp only
    rw [if_neg (show ¬ pe = nx.edge_start from by rw [h2]; exact hd2),
      if_neg (show ¬ pe = nx.position from by rw [h3]; exact hd6)]
    dsimp only [setNodeAt]
    rw [if_neg hd7, hstE]
    rw [gE1]
    dsimp only
    rw [if_pos rfl]
  · rw [hes]; exact hout
  · rw [hes]; exact hin

/-- Witness for C10 on the concrete one-node graph with the self-loop
`add_edge("x", "x")`: node `x` at slot 1, its dummy at slot 2, the
self-loop edge at slot 3. -/
theorem c10_remove_node_self_loop_witness :
    ∃ stF, removeNode cfg0 ⟨stateX.gs, []⟩ (18 + 1 + 1) "x" = (.ok (), stF) ∧
      stF.gs.header.n_edges = stateX.gs.header.n_edges - 2 ∧
      stF.gs.header.n_nodes = stateX.gs.header.n_nodes - 1 ∧
      stF.gs.edge_tombstone = stateX.gs.edge_tombstone ++ [3, 2] ∧
      stF.gs.node_tombstone = stateX.gs.node_tombstone ++ [1] ∧
      stF.gs.edge_tombstone.count 3 = stateX.gs.edge_tombstone.count 3 + 1 ∧
      getEdgeAt stF.gs 3 = zeroEdge ∧
      edgeOutDfs stateX.gs (18 + 1 + 1)
          (getEdgeAt stateX.gs
            ({ is_node := true, nexists := true, hash := 10, left := 0,
               right := 0, index := 1, position := 1, parent := 0,
               edge_start := 2, key := "x" } : NodeRec).edge_start) =
        some [{ is_node := false, nexists := true, is_edge_start := false,
                position := 3, source_position := 1, target_position := 1,
                hash := 5, out_edge_left := 0, out_edge_right := 0,
                out_edge_parent := 2, in_edge_left := 0, in_edge_right := 0,
                in_edge_parent := 2, type := 0 }] ∧
      edgeInDfs stateX.gs (18 + 1 + 1)
          (getEdgeAt stateX.gs
            ({ is_node := true, nexists := true, hash := 10, left := 0,
               right := 0, index := 1, position := 1, parent := 0,
               edge_start := 2, key := "x" } : NodeRec).edge_start) =
        some [{ is_node := false, nexists := true, is_edge_start := false,
                position := 3, source_position := 1, target_position := 1,
                hash := 5, out_edge_left := 0, out_edge_right := 0,
                out_edge_parent := 2, in_edge_left := 0, in_edge_right := 0,
                in_edge_parent := 2, type := 0 }] :=
  c10_remove_node_self_loop cfg0 ⟨stateX.gs, []⟩ 18 "x"
    { is_node := true, nexists := true, hash := 10, left := 0, right := 0,
      index := 1, position := 1, parent := 0, edge_start := 2, key := "x" }
    { is_node := true, nexists := true, hash := 2147483648, left := 1,
      right := 0, index := 0, position := 0, parent := 0, edge_start := 0,
      key := "" }
    { is_node := false, nexists := true, is_edge_start := true, position := 2,
      source_position := 1, target_position := 0, hash := 10,
      out_edge_left := 3, out_edge_right := 0, out_edge_parent := 0,
      in_edge_left := 3, in_edge_right := 0, in_edge_parent := 0, type := 0 }
    { is_node := false, nexists := true, is_edge_start := false, position := 3,
      source_position := 1, target_position := 1, hash := 5,
      out_edge_left := 0, out_edge_right := 0, out_edge_parent := 2,
      in_edge_left := 0, in_edge_right := 0, in_edge_parent := 2, type := 0 }
    1 2 3
    (by decide) (by decide) (by decide) (by decide) (by decide) (by decide)
    (by decide) (by decide) (by decide) (by decide) (by decide) (by decide)
    (by decide) (by decide) (by decide) (by decide) (by decide) (by decide)
    (by decide) (by decide) (by decide) (by decide) (by decide) (by decide)
    (by decide) (by decide) (by decide) (by decide) (by decide) (by decide)
    (by decide) (by decide)

/-- Helper: reading the file after `_set_node_at`. -/
theorem setNodeAt_file (st : St) (n : NodeRec) (pos q : Int) :
    (setNodeAt st n pos).gs.file q =
      if q = pos then .nodeS n else st.gs.file q := rfl

/-- Helper: reading the file after `_set_edge_at`. -/
theorem setEdgeAt_file (st : St) (e : EdgeRec) (pos q : Int) :
    (setEdgeAt st e pos).gs.file q =
      if q = pos then .edgeS e else st.gs.file q := rfl

/-- Helper: descendant paths transfer between states with equal files. -/
theorem edesc_of_file_eq {gs gs' : GraphState} (out : Bool)
    (hf : gs'.file = gs.file) :
    ∀ a b, EDesc gs' out a b → EDesc gs out a b := by
  intro a b h
  induction h with
  | refl a => exact .refl a
  | stepL a e c h1 h2 h3 _ ih =>
    exact .stepL a e c (by rw [← hf]; exact h1) h2 h3 ih
  | stepR a e c h1 h2 h3 _ ih =>
    exact .stepR a e c (by rw [← hf]; exact h1) h2 h3 ih

/-- Helper: the invariant depends only on the file, the free lists, and
(monotonically) the bump pointer: any state with the same file and free
lists and a bump pointer at least as large inherits it. -/
theorem wf_parts {gs gs' : GraphState}
    (hf : gs'.file = gs.file)
    (hnt : gs'.node_tombstone = gs.node_tombstone)
    (het : gs'.edge_tombstone = gs.edge_tombstone)
    (hb : gs.header.next_table_position ≤ gs'.header.next_table_position)
    (h : Wf gs) : Wf gs' := by
  have hd : ∀ out a b, EDesc gs' out a b → EDesc gs out a b :=
    fun out => edesc_of_file_eq out hf
  refine ⟨?_, ?_, ?_, ?_, ?_, ?_, ?_, ?_, ?_, ?_, ?_, ?_, ?_, ?_, ?_, ?_,
    ?_, ?_, ?_, ?_, ?_, ?_, ?_, ?_⟩
  · rw [hf]; exact h.root
  · rw [hf]; exact h.nposOK
  · rw [hf]; exact h.nup
  · rw [hf]; exact h.ndownL
  · rw [hf]; exact h.ndownR
  · rw [hf]; exact h.nsides
  · rw [hf]; exact h.nrank
  · rw [hf]; exact h.eposOK
  · rw [hf]; exact h.eup
  · rw [hf]; exact h.edownL
  · rw [hf]; exact h.edownR
  · rw [hf]; exact h.esides
  · rw [hf]; exact h.erank
  · intro out a e h1 h2 h3 w f h4 h5 h6
    rw [hf] at h1 h5
    exact h.ancL out a e h1 h2 h3 w f (hd out _ _ h4) h5 h6
  · intro out a e h1 h2 h3 w f h4 h5 h6
    rw [hf] at h1 h5
    exact h.ancR out a e h1 h2 h3 w f (hd out _ _ h4) h5 h6
  · rw [hf]; exact h.esrc
  · rw [hf]; exact h.etgt
  · rw [hf]; exact h.nodeDummy
  · intro q n h1 h2
    rw [hf] at h1
    have := h.liveNB q n h1 h2
    omega
  · intro q e h1 h2
    rw [hf] at h1
    have := h.liveEB q e h1 h2
    omega
  · intro p hp
    rw [hnt] at hp
    obtain ⟨he, hb1, hb2⟩ := h.tombN p hp
    rw [hf]
    exact ⟨he, hb1, by omega⟩
  · intro p hp
    rw [het] at hp
    obtain ⟨he, hb1, hb2⟩ := h.tombE p hp
    rw [hf]
    exact ⟨he, hb1, by omega⟩
  · rw [hnt]; exact h.tombNnd
  · rw [het]; exact h.tombEnd

/-- Helper: `_expand` leaves the bump pointer unchanged. -/
theorem expand_bump (cfg : Cfg) (st : St) :
    (expand cfg st).gs.header.next_table_position =
      st.gs.header.next_table_position := by
  unfold expand; split_ifs <;> rfl

/-- Helper: `_expand` preserves the invariant. -/
theorem expand_wf (cfg : Cfg) (st : St) (h : Wf st.gs) :
    Wf (expand cfg st).gs :=
  wf_parts (expand_file cfg st) (expand_node_tomb cfg st)
    (expand_edge_tomb cfg st) (le_of_eq (expand_bump cfg st).symm) h

/-- Helper: the state parts after `_increment_node`. -/
theorem incrementNode_parts (cfg : Cfg) (st : St) (r : Bool) :
    (incrementNode cfg st r).gs.file = st.gs.file ∧
    (incrementNode cfg st r).gs.node_tombstone = st.gs.node_tombstone ∧
    (incrementNode cfg st r).gs.edge_tombstone = st.gs.edge_tombstone ∧
    (incrementNode cfg st r).gs.header.next_table_position =
      (if r then st.gs.header.next_table_position
       else st.gs.header.next_table_position + cfg.R) := by
  unfold incrementNode
  refine ⟨expand_file cfg _, expand_node_tomb cfg _, expand_edge_tomb cfg _, ?_⟩
  rw [expand_bump]

/-- Helper: the state parts after `_increment_edge`. -/
theorem incrementEdge_parts (cfg : Cfg) (st : St) (r : Bool) :
    (incrementEdge cfg st r).gs.file = st.gs.file ∧
    (incrementEdge cfg st r).gs.node_tombstone = st.gs.node_tombstone ∧
    (incrementEdge cfg st r).gs.edge_tombstone = st.gs.edge_tombstone ∧
    (incrementEdge cfg st r).gs.header.next_table_position =
      (if r then st.gs.header.next_table_position
       else st.gs.header.next_table_position + 1) := by
  unfold incrementEdge
  refine ⟨expand_file cfg _, expand_node_tomb cfg _, expand_edge_tomb cfg _, ?_⟩
  rw [expand_bump]

/-- Helper: `_decrement_edge` and `_decrement_node` keep the bump
pointer. -/
theorem decrementEdge_bump (cfg : Cfg) (st : St) :
    (decrementEdge cfg st).gs.header.next_table_position =
      st.gs.header.next_table_position := by
  unfold decrementEdge; rw [expand_bump]

theorem decrementNode_bump (cfg : Cfg) (st : St) :
    (decrementNode cfg st).gs.header.next_table_position =
      st.gs.header.next_table_position := by
  unfold decrementNode; rw [expand_bump]

/-- Helper: a rank function increasing along child links is monotone
along edge-descendant paths. -/
theorem edesc_rank_le {gs : GraphState} {out : Bool} {rk : Int → Nat}
    (hrk : ∀ q e, gs.file q = .edgeS e → e.nexists = true →
      (eLeft out e ≠ 0 → rk q < rk (eLeft out e)) ∧
      (eRight out e ≠ 0 → rk q < rk (eRight out e))) :
    ∀ a b, EDesc gs out a b → a = b ∨ rk a < rk b := by
  intro a b h
  induction h with
  | refl a => exact Or.inl rfl
  | stepL a e c h1 h2 h3 _ ih =>
    have h4 := (hrk a e h1 h2).1 h3
    rcases ih with h5 | h5
    · exact Or.inr (h5 ▸ h4)
    · exact Or.inr (lt_trans h4 h5)
  | stepR a e c h1 h2 h3 _ ih =>
    have h4 := (hrk a e h1 h2).2 h3
    rcases ih with h5 | h5
    · exact Or.inr (h5 ▸ h4)
    · exact Or.inr (lt_trans h4 h5)

/-- Helper: the node-tree analogue of `edesc_rank_le`. -/
theorem ndesc_rank_le {gs : GraphState} {rk : Int → Nat}
    (hrk : ∀ q n, gs.file q = .nodeS n → n.nexists = true →
      (n.left ≠ 0 → rk q < rk n.left) ∧
      (n.right ≠ 0 → rk q < rk n.right)) :
    ∀ a b, NDesc gs a b → a = b ∨ rk a < rk b := by
  intro a b h
  induction h with
  | refl a => exact Or.inl rfl
  | stepL a n c h1 h2 h3 _ ih =>
    have h4 := (hrk a n h1 h2).1 h3
    rcases ih with h5 | h5
    · exact Or.inr (h5 ▸ h4)
    · exact Or.inr (lt_trans h4 h5)
  | stepR a n c h1 h2 h3 _ ih =>
    have h4 := (hrk a n h1 h2).2 h3
    rcases ih with h5 | h5
    · exact Or.inr (h5 ▸ h4)
    · exact Or.inr (lt_trans h4 h5)

/-- Helper: a freshly created graph satisfies the invariant (given the
positive slot ratio of the real formats). -/
theorem freshState_wf (cfg : Cfg) (hR : 1 ≤ cfg.R) : Wf (freshState cfg) := by
  have hfile : ∀ q, (freshState cfg).file q =
      if q = 0 then .nodeS rootNode else .edgeS zeroEdge := fun q => rfl
  have hnode : ∀ q n, (freshState cfg).file q = .nodeS n → n.nexists = true →
      q = 0 ∧ n = rootNode := by
    intro q n h1 _
    rw [hfile] at h1
    by_cases hq : q = 0
    · rw [if_pos hq] at h1
      exact ⟨hq, (Slot.nodeS.inj h1).symm⟩
    · rw [if_neg hq] at h1
      cases h1
  have hedge : ∀ q e, (freshState cfg).file q = .edgeS e → e.nexists = true →
      False := by
    intro q e h1 h2
    rw [hfile] at h1
    by_cases hq : q = 0
    · rw [if_pos hq] at h1; cases h1
    · rw [if_neg hq] at h1
      rw [← Slot.edgeS.inj h1] at h2
      simp [zeroEdge] at h2
  refine ⟨⟨rootNode, ?_, rfl, rfl, rfl, rfl⟩, ?_, ?_, ?_, ?_, ?_, ?_, ?_,
    ?_, ?_, ?_, ?_, ?_, ?_, ?_, ?_, ?_, ?_, ?_, ?_, ?_, ?_, ?_, ?_⟩
  · rw [hfile]; rw [if_pos rfl]
  · intro q n h1 h2
    obtain ⟨hq, hn⟩ := hnode q n h1 h2
    rw [hn, hq]; rfl
  · intro q n h1 h2 h3
    exact absurd (hnode q n h1 h2).1 h3
  · intro q n h1 h2 h3
    obtain ⟨_, hn⟩ := hnode q n h1 h2
    rw [hn] at h3
    simp [rootNode] at h3
  · intro q n h1 h2 h3
    obtain ⟨_, hn⟩ := hnode q n h1 h2
    rw [hn] at h3
    simp [rootNode] at h3
  · intro q n h1 h2 h3
    obtain ⟨_, hn⟩ := hnode q n h1 h2
    rw [hn] at h3
    simp [rootNode] at h3
  · refine ⟨fun _ => 0, ?_⟩
    intro q n h1 h2
    obtain ⟨_, hn⟩ := hnode q n h1 h2
    rw [hn]
    refine ⟨fun h3 => ?_, fun h3 => ?_⟩ <;> simp [rootNode] at h3
  · intro q e h1 h2
    exact absurd h2 (fun h2 => hedge q e h1 h2)
  · intro _ q e h1 h2 _
    exact absurd h2 (fun h2 => hedge q e h1 h2)
  · intro _ q e h1 h2 _
    exact absurd h2 (fun h2 => hedge q e h1 h2)
  · intro _ q e h1 h2 _
    exact absurd h2 (fun h2 => hedge q e h1 h2)
  · intro _ q e h1 h2 _
    exact absurd h2 (fun h2 => hedge q e h1 h2)
  · intro out
    refine ⟨fun _ => 0, ?_⟩
    intro q e h1 h2
    exact absurd h2 (fun h2 => hedge q e h1 h2)
  · intro _ a e h1 h2 _ _ _ _ _ _
    exact absurd h2 (fun h2 => hedge a e h1 h2)
  · intro _ a e h1 h2 _ _ _ _ _ _
    exact absurd h2 (fun h2 => hedge a e h1 h2)
  · intro q e h1 h2 _
    exact absurd h2 (fun h2 => hedge q e h1 h2)
  · intro q e h1 h2 _
    exact absurd h2 (fun h2 => hedge q e h1 h2)
  · intro q n h1 h2 h3
    exact absurd (hnode q n h1 h2).1 h3
  · intro q n h1 h2
    obtain ⟨hq, _⟩ := hnode q n h1 h2
    rw [hq]
    refine ⟨le_refl 0, ?_⟩
    show (0 : Int) < (initHeader cfg).next_table_position
    unfold initHeader
    dsimp only
    omega
  · intro q e h1 h2
    exact absurd h2 (fun h2 => hedge q e h1 h2)
  · intro p hp
    simp [freshState] at hp
  · intro p hp
    simp [freshState] at hp
  · exact List.nodup_nil
  · exact List.nodup_nil

/-- Helper: the claim's node-BST consistency property follows from the
invariant. -/
theorem wf_nodeParentConsistent {gs : GraphState} (h : Wf gs) :
    nodeParentConsistent gs := by
  intro q n h1 h2 h3
  have hq : q ≠ 0 := by
    intro hq
    subst hq
    obtain ⟨r, hr1, _, _, hr4, _⟩ := h.root
    rw [h1] at hr1
    rw [Slot.nodeS.inj hr1] at h3
    exact h3 hr4
  obtain ⟨m, hm1, hm2, hm3⟩ := h.nup q n h1 h2 hq
  exact ⟨m, hm1, hm2, by rw [h.nposOK q n h1 h2]; exact hm3⟩

/-- Helper: `compare_nodes` returns one of `-1`, `1`, `0`. -/
theorem compareNodes_range (aH : Int) (aK : String) (bH : Int) (bK : String) :
    compareNodes aH aK bH bK = -1 ∨ compareNodes aH aK bH bK = 1 ∨
    compareNodes aH aK bH bK = 0 := by
  unfold compareNodes
  split_ifs <;> simp

/-- Helper: `compare_edges` returns one of `-1`, `1`, `0`. -/
theorem compareEdges_range (A B : EdgeRec) :
    compareEdges A B = -1 ∨ compareEdges A B = 1 ∨ compareEdges A B = 0 := by
  unfold compareEdges
  split_ifs <;> simp

/-- Helper: the field selectors at each Boolean value. -/
theorem eLeft_true (e : EdgeRec) : eLeft true e = e.out_edge_left := rfl

theorem eLeft_false (e : EdgeRec) : eLeft false e = e.in_edge_left := rfl

theorem eRight_true (e : EdgeRec) : eRight true e = e.out_edge_right := rfl

theorem eRight_false (e : EdgeRec) : eRight false e = e.in_edge_right := rfl

theorem eParent_true (e : EdgeRec) : eParent true e = e.out_edge_parent := rfl

theorem eParent_false (e : EdgeRec) : eParent false e = e.in_edge_parent := rfl

/-- Helper: the node-BST walk of `_find_node_pos`, started at a live
node slot, ends at a live node record, with the stopping side's child
link empty. -/
theorem findNodePos_live {gs : GraphState} (h : Wf gs) :
    ∀ (fuel : Nat) (pos : Int) (probe prev : NodeRec) (s : Int),
      (∃ n0, gs.file pos = .nodeS n0 ∧ n0.nexists = true) →
      findNodePos gs fuel pos probe = some (prev, s) →
      gs.file prev.position = .nodeS prev ∧ prev.nexists = true ∧
      ((s = -1 ∧ prev.left = 0) ∨ (s = 1 ∧ prev.right = 0) ∨
        (s = 0 ∧ compareNodes prev.hash prev.key probe.hash probe.key = 0 ∧
          prev.hash = probe.hash)) := by
  intro fuel
  induction fuel with
  | zero => intro pos probe prev s _ hw; cases hw
  | succ f ih =>
    intro pos probe prev s hlive hw
    obtain ⟨n0, hn0, hn0x⟩ := hlive
    rw [findNodePos] at hw
    have hget : getNodeAt gs pos = n0 := by unfold getNodeAt; rw [hn0]
    have hinfo : getNodeTreeInfoAt gs pos = (n0.hash, n0.left, n0.right) := by
      unfold getNodeTreeInfoAt; rw [hget]
    rw [hinfo, hget] at hw
    dsimp only at hw
    by_cases hlt : probe.hash < n0.hash
    · rw [if_pos hlt] at hw
      rw [if_pos rfl] at hw
      by_cases hL : n0.left ≠ 0
      · rw [if_pos hL] at hw
        obtain ⟨c, hc1, hc2, _⟩ := h.ndownL pos n0 hn0 hn0x hL
        exact ih n0.left probe prev s ⟨c, hc1, hc2⟩ hw
      · rw [if_neg hL] at hw
        injection hw with hw1
        injection hw1 with hw2 hw3
        subst hw2; subst hw3
        rw [h.nposOK pos n0 hn0 hn0x]
        exact ⟨hn0, hn0x, Or.inl ⟨rfl, not_not.mp hL⟩⟩
    · rw [if_neg hlt] at hw
      by_cases hgt : probe.hash > n0.hash
      · rw [if_pos hgt] at hw
        rw [if_neg (by omega), if_pos rfl] at hw
        by_cases hR : n0.right ≠ 0
        · rw [if_pos hR] at hw
          obtain ⟨c, hc1, hc2, _⟩ := h.ndownR pos n0 hn0 hn0x hR
          exact ih n0.right probe prev s ⟨c, hc1, hc2⟩ hw
        · rw [if_neg hR] at hw
          injection hw with hw1
          injection hw1 with hw2 hw3
          subst hw2; subst hw3
          rw [h.nposOK pos n0 hn0 hn0x]
          exact ⟨hn0, hn0x, Or.inr (Or.inl ⟨rfl, not_not.mp hR⟩)⟩
      · rw [if_neg hgt] at hw
        have hhq : probe.hash = n0.hash := by omega
        rcases compareNodes_range n0.hash n0.key probe.hash probe.key with
          hc | hc | hc
        · rw [hc, if_pos rfl] at hw
          by_cases hL : n0.left ≠ 0
          · rw [if_pos hL] at hw
            obtain ⟨c, hc1, hc2, _⟩ := h.ndownL pos n0 hn0 hn0x hL
            exact ih n0.left probe prev s ⟨c, hc1, hc2⟩ hw
          · rw [if_neg hL] at hw
            injection hw with hw1
            injection hw1 with hw2 hw3
            subst hw2; subst hw3
            rw [h.nposOK pos n0 hn0 hn0x]
            exact ⟨hn0, hn0x, Or.inl ⟨rfl, not_not.mp hL⟩⟩
        · rw [hc, if_neg (by omega), if_pos rfl] at hw
          by_cases hR : n0.right ≠ 0
          · rw [if_pos hR] at hw
            obtain ⟨c, hc1, hc2, _⟩ := h.ndownR pos n0 hn0 hn0x hR
            exact ih n0.right probe prev s ⟨c, hc1, hc2⟩ hw
          · rw [if_neg hR] at hw
            injection hw with hw1
            injection hw1 with hw2 hw3
            subst hw2; subst hw3
            rw [h.nposOK pos n0 hn0 hn0x]
            exact ⟨hn0, hn0x, Or.inr (Or.inl ⟨rfl, not_not.mp hR⟩)⟩
        · rw [hc, if_neg (by omega), if_neg (by omega)] at hw
          injection hw with hw1
          injection hw1 with hw2 hw3
          subst hw2; subst hw3
          rw [h.nposOK pos n0 hn0 hn0x]
          exact ⟨hn0, hn0x, Or.inr (Or.inr ⟨rfl, hc, hhq.symm⟩)⟩

/-- Helper: a strict edge-descendant factors through the descendant's
parent link. -/
theorem edesc_strict_parent {gs : GraphState} (h : Wf gs) (out : Bool) :
    ∀ a b, EDesc gs out a b → a ≠ b →
    ∀ f, gs.file b = .edgeS f → f.nexists = true →
      f.is_edge_start = false ∧ EDesc gs out a (eParent out f) := by
  intro a b hd
  induction hd with
  | refl a => intro hne; exact absurd rfl hne
  | stepL a e c h1 h2 h3 hsub ih =>
    intro _ f hf1 hf2
    by_cases hc : eLeft out e = c
    · obtain ⟨cr, hcr1, _, hcr3, hcr4⟩ := h.edownL out a e h1 h2 h3
      rw [hc] at hcr1
      rw [hf1] at hcr1
      have hfc := Slot.edgeS.inj hcr1
      subst hfc
      exact ⟨hcr3, by rw [hcr4]; exact EDesc.refl a⟩
    · obtain ⟨hnd, hdp⟩ := ih hc f hf1 hf2
      exact ⟨hnd, EDesc.stepL a e _ h1 h2 h3 hdp⟩
  | stepR a e c h1 h2 h3 hsub ih =>
    intro _ f hf1 hf2
    by_cases hc : eRight out e = c
    · obtain ⟨cr, hcr1, _, hcr3, hcr4⟩ := h.edownR out a e h1 h2 h3
      rw [hc] at hcr1
      rw [hf1] at hcr1
      have hfc := Slot.edgeS.inj hcr1
      subst hfc
      exact ⟨hcr3, by rw [hcr4]; exact EDesc.refl a⟩
    · obtain ⟨hnd, hdp⟩ := ih hc f hf1 hf2
      exact ⟨hnd, EDesc.stepR a e _ h1 h2 h3 hdp⟩

/-- Helper: no live record's subtree reaches an edge-start dummy except
trivially (dummies are roots: they are never linked as children). -/
theorem edesc_to_dummy {gs : GraphState} (h : Wf gs) (out : Bool) :
    ∀ a b, EDesc gs out a b →
    ∀ d, gs.file b = .edgeS d → d.nexists = true → d.is_edge_start = true →
      a = b := by
  intro a b hd
  intro d hd1 hd2 hd3
  by_cases hab : a = b
  · exact hab
  · obtain ⟨hnd, _⟩ := edesc_strict_parent h out a b hd hab d hd1 hd2
    rw [hd3] at hnd
    cases hnd

/-- Helper: the strict-descendant factorisation for the node tree. -/
theorem ndesc_strict_parent {gs : GraphState} (h : Wf gs) :
    ∀ a b, NDesc gs a b → a ≠ b →
    ∀ f, gs.file b = .nodeS f → f.nexists = true →
      NDesc gs a f.parent := by
  intro a b hd
  induction hd with
  | refl a => intro hne; exact absurd rfl hne
  | stepL a n c h1 h2 h3 hsub ih =>
    intro _ f hf1 hf2
    by_cases hc : n.left = c
    · obtain ⟨cr, hcr1, _, hcr3⟩ := h.ndownL a n h1 h2 h3
      rw [hc] at hcr1
      rw [hf1] at hcr1
      have hfc := Slot.nodeS.inj hcr1
      subst hfc
      exact (by rw [hcr3]; exact NDesc.refl a : NDesc gs a f.parent)
    · exact NDesc.stepL a n _ h1 h2 h3 (ih hc f hf1 hf2)
  | stepR a n c h1 h2 h3 hsub ih =>
    intro _ f hf1 hf2
    by_cases hc : n.right = c
    · obtain ⟨cr, hcr1, _, hcr3⟩ := h.ndownR a n h1 h2 h3
      rw [hc] at hcr1
      rw [hf1] at hcr1
      have hfc := Slot.nodeS.inj hcr1
      subst hfc
      exact (by rw [hcr3]; exact NDesc.refl a : NDesc gs a f.parent)
    · exact NDesc.stepR a n _ h1 h2 h3 (ih hc f hf1 hf2)

/-- Helper: `compare_edges` reads only the four comparison fields. -/
theorem compareEdges_congr {A A' : EdgeRec} (B : EdgeRec)
    (h1 : A'.hash = A.hash) (h2 : A'.source_position = A.source_position)
    (h3 : A'.target_position = A.target_position) (h4 : A'.type = A.type) :
    compareEdges A' B = compareEdges A B ∧
    compareEdges B A' = compareEdges B A := by
  unfold compareEdges
  rw [h1, h2, h3, h4]
  exact ⟨rfl, rfl⟩

/-- Helper: the walk accumulator holds vacuously at an edge-start dummy
(no live record's subtree contains it). -/
theorem anc_acc_dummy {gs : GraphState} (h : Wf gs) (out : Bool)
    (probe : EdgeRec) (dpos : Int) (d : EdgeRec)
    (hd1 : gs.file dpos = .edgeS d) (hd2 : d.nexists = true)
    (hd3 : d.is_edge_start = true) :
    AncAcc gs out probe dpos := by
  intro a g hg1 hg2
  constructor
  · intro hne hdesc
    have heq := edesc_to_dummy h out _ _ hdesc d hd1 hd2 hd3
    obtain ⟨c, hc1, _, hc3, _⟩ := h.edownL out a g hg1 hg2 hne
    rw [heq, hd1] at hc1
    rw [Slot.edgeS.inj hc1] at hd3
    rw [hc3] at hd3
    cases hd3
  · intro hne hdesc
    have heq := edesc_to_dummy h out _ _ hdesc d hd1 hd2 hd3
    obtain ⟨c, hc1, _, hc3, _⟩ := h.edownR out a g hg1 hg2 hne
    rw [heq, hd1] at hc1
    rw [Slot.edgeS.inj hc1] at hd3
    rw [hc3] at hd3
    cases hd3

/-- Helper: descending one comparison-directed step preserves the walk
accumulator. -/
theorem anc_acc_step {gs : GraphState} (h : Wf gs) (out : Bool)
    (probe : EdgeRec) (pos c : Int) (e0 : EdgeRec)
    (h1 : gs.file pos = .edgeS e0) (h2 : e0.nexists = true)
    (hside : (eLeft out e0 = c ∧ compareEdges e0 probe = -1) ∨
             (eRight out e0 = c ∧ compareEdges e0 probe = 1))
    (hcne : c ≠ 0)
    (hacc : AncAcc gs out probe pos) :
    AncAcc gs out probe c := by
  have hcrec : ∃ f, gs.file c = .edgeS f ∧ f.nexists = true ∧
      f.is_edge_start = false ∧ eParent out f = pos := by
    rcases hside with ⟨hs1, _⟩ | ⟨hs1, _⟩
    · obtain ⟨f, hf1, hf2, hf3, hf4⟩ :=
        h.edownL out pos e0 h1 h2 (by rw [hs1]; exact hcne)
      rw [hs1] at hf1
      exact ⟨f, hf1, hf2, hf3, hf4⟩
    · obtain ⟨f, hf1, hf2, hf3, hf4⟩ :=
        h.edownR out pos e0 h1 h2 (by rw [hs1]; exact hcne)
      rw [hs1] at hf1
      exact ⟨f, hf1, hf2, hf3, hf4⟩
  obtain ⟨f, hf1, hf2, hf3, hf4⟩ := hcrec
  intro a g hg1 hg2
  constructor
  · intro hne hdesc
    by_cases heq : eLeft out g = c
    · -- `g` links `c` directly on its left: then `a = pos` and the walk
      -- went left, so the comparison at `pos` is the answer.
      obtain ⟨f', hf'1, _, _, hf'4⟩ := h.edownL out a g hg1 hg2 hne
      rw [heq] at hf'1
      rw [hf1] at hf'1
      rw [← Slot.edgeS.inj hf'1] at hf'4
      have hapos : a = pos := by rw [← hf'4, hf4]
      subst hapos
      rw [h1] at hg1
      have hge : e0 = g := Slot.edgeS.inj hg1
      subst hge
      rcases hside with ⟨_, hs2⟩ | ⟨hs1, _⟩
      · exact hs2
      · exact absurd (heq.trans hs1.symm)
          (h.esides out a e0 h1 h2 hne)
    · obtain ⟨_, hdp⟩ := edesc_strict_parent h out _ _ hdesc heq f hf1 hf2
      rw [hf4] at hdp
      exact (hacc a g hg1 hg2).1 hne hdp
  · intro hne hdesc
    by_cases heq : eRight out g = c
    · obtain ⟨f', hf'1, _, _, hf'4⟩ := h.edownR out a g hg1 hg2 hne
      rw [heq] at hf'1
      rw [hf1] at hf'1
      rw [← Slot.edgeS.inj hf'1] at hf'4
      have hapos : a = pos := by rw [← hf'4, hf4]
      subst hapos
      rw [h1] at hg1
      have hge : e0 = g := Slot.edgeS.inj hg1
      subst hge
      rcases hside with ⟨hs1, _⟩ | ⟨_, hs2⟩
      · exact absurd (hs1.trans heq.symm)
          (h.esides out a e0 h1 h2 (by rw [hs1]; exact hcne))
      · exact hs2
    · obtain ⟨_, hdp⟩ := edesc_strict_parent h out _ _ hdesc heq f hf1 hf2
      rw [hf4] at hdp
      exact (hacc a g hg1 hg2).2 hne hdp

/-- Helper: the out-tree walk of `_find_edge_out_pos`, started at a live
edge slot carrying the walk accumulator, ends at a live record whose
stopping side is empty, with the final state equal to the comparison
there, re-establishing the accumulator at the stopping slot. -/
theorem findEdgeOutPos_spec {gs : GraphState} (h : Wf gs) (probe : EdgeRec) :
    ∀ (fuel : Nat) (pos : Int) (prev : EdgeRec) (s : Int),
      (∃ e0, gs.file pos = .edgeS e0 ∧ e0.nexists = true) →
      AncAcc gs true probe pos →
      findEdgeOutPos gs fuel pos probe = some (prev, s) →
      gs.file prev.position = .edgeS prev ∧ prev.nexists = true ∧
      AncAcc gs true probe prev.position ∧
      compareEdges prev probe = s ∧
      ((s = -1 ∧ prev.out_edge_left = 0) ∨
        (s = 1 ∧ prev.out_edge_right = 0) ∨ s = 0) := by
  intro fuel
  induction fuel with
  | zero => intro pos prev s _ _ hw; cases hw
  | succ f ih =>
    intro pos prev s hlive hacc hw
    obtain ⟨e0, he0, he0x⟩ := hlive
    rw [findEdgeOutPos] at hw
    have hget : getEdgeAt gs pos = e0 := by unfold getEdgeAt; rw [he0]
    rw [hget] at hw
    have hposOK := h.eposOK pos e0 he0 he0x
    rcases compareEdges_range e0 probe with hc | hc | hc
    · rw [hc, if_pos rfl] at hw
      by_cases hL : e0.out_edge_left ≠ 0
      · rw [if_pos hL] at hw
        obtain ⟨c, hc1, hc2, _⟩ := h.edownL true pos e0 he0 he0x hL
        exact ih e0.out_edge_left prev s ⟨c, hc1, hc2⟩
          (anc_acc_step h true probe pos e0.out_edge_left e0 he0 he0x
            (Or.inl ⟨rfl, hc⟩) hL hacc) hw
      · rw [if_neg hL] at hw
        injection hw with hw1
        injection hw1 with hw2 hw3
        subst hw2; subst hw3
        rw [hposOK]
        exact ⟨he0, he0x, hacc, hc, Or.inl ⟨rfl, not_not.mp hL⟩⟩
    · rw [hc, if_neg (by decide), if_pos rfl] at hw
      by_cases hR : e0.out_edge_right ≠ 0
      · rw [if_pos hR] at hw
        obtain ⟨c, hc1, hc2, _⟩ := h.edownR true pos e0 he0 he0x hR
        exact ih e0.out_edge_right prev s ⟨c, hc1, hc2⟩
          (anc_acc_step h true probe pos e0.out_edge_right e0 he0 he0x
            (Or.inr ⟨rfl, hc⟩) hR hacc) hw
      · rw [if_neg hR] at hw
        injection hw with hw1
        injection hw1 with hw2 hw3
        subst hw2; subst hw3
        rw [hposOK]
        exact ⟨he0, he0x, hacc, hc, Or.inr (Or.inl ⟨rfl, not_not.mp hR⟩)⟩
    · rw [hc, if_neg (by decide), if_neg (by decide)] at hw
      injection hw with hw1
      injection hw1 with hw2 hw3
      subst hw2; subst hw3
      rw [hposOK]
      exact ⟨he0, he0x, hacc, hc, Or.inr (Or.inr rfl)⟩

/-- Helper: the in-tree analogue of `findEdgeOutPos_spec`. -/
theorem findEdgeInPos_spec {gs : GraphState} (h : Wf gs) (probe : EdgeRec) :
    ∀ (fuel : Nat) (pos : Int) (prev : EdgeRec) (s : Int),
      (∃ e0, gs.file pos = .edgeS e0 ∧ e0.nexists = true) →
      AncAcc gs false probe pos →
      findEdgeInPos gs fuel pos probe = some (prev, s) →
      gs.file prev.position = .edgeS prev ∧ prev.nexists = true ∧
      AncAcc gs false probe prev.position ∧
      compareEdges prev probe = s ∧
      ((s = -1 ∧ prev.in_edge_left = 0) ∨
        (s = 1 ∧ prev.in_edge_right = 0) ∨ s = 0) := by
  intro fuel
  induction fuel with
  | zero => intro pos prev s _ _ hw; cases hw
  | succ f ih =>
    intro pos prev s hlive hacc hw
    obtain ⟨e0, he0, he0x⟩ := hlive
    rw [findEdgeInPos] at hw
    have hget : getEdgeAt gs pos = e0 := by unfold getEdgeAt; rw [he0]
    rw [hget] at hw
    have hposOK := h.eposOK pos e0 he0 he0x
    rcases compareEdges_range e0 probe with hc | hc | hc
    · rw [hc, if_pos rfl] at hw
      by_cases hL : e0.in_edge_left ≠ 0
      · rw [if_pos hL] at hw
        obtain ⟨c, hc1, hc2, _⟩ := h.edownL false pos e0 he0 he0x hL
        exact ih e0.in_edge_left prev s ⟨c, hc1, hc2⟩
          (anc_acc_step h false probe pos e0.in_edge_left e0 he0 he0x
            (Or.inl ⟨rfl, hc⟩) hL hacc) hw
      · rw [if_neg hL] at hw
        injection hw with hw1
        injection hw1 with hw2 hw3
        subst hw2; subst hw3
        rw [hposOK]
        exact ⟨he0, he0x, hacc, hc, Or.inl ⟨rfl, not_not.mp hL⟩⟩
    · rw [hc, if_neg (by decide), if_pos rfl] at hw
      by_cases hR : e0.in_edge_right ≠ 0
      · rw [if_pos hR] at hw
        obtain ⟨c, hc1, hc2, _⟩ := h.edownR false pos e0 he0 he0x hR
        exact ih e0.in_edge_right prev s ⟨c, hc1, hc2⟩
          (anc_acc_step h false probe pos e0.in_edge_right e0 he0 he0x
            (Or.inr ⟨rfl, hc⟩) hR hacc) hw
      · rw [if_neg hR] at hw
        injection hw with hw1
        injection hw1 with hw2 hw3
        subst hw2; subst hw3
        rw [hposOK]
        exact ⟨he0, he0x, hacc, hc, Or.inr (Or.inl ⟨rfl, not_not.mp hR⟩)⟩
    · rw [hc, if_neg (by decide), if_neg (by decide)] at hw
      injection hw with hw1
      injection hw1 with hw2 hw3
      subst hw2; subst hw3
      rw [hposOK]
      exact ⟨he0, he0x, hacc, hc, Or.inr (Or.inr rfl)⟩

/-- Helper: no live node record lists its own slot as an actual child
(from the rank function). -/
theorem wf_no_self_child_node {gs : GraphState} (h : Wf gs) :
    ∀ q n, gs.file q = .nodeS n → n.nexists = true →
      (n.left ≠ 0 → n.left ≠ q) ∧ (n.right ≠ 0 → n.right ≠ q) := by
  intro q n h1 h2
  obtain ⟨rk, hrk⟩ := h.nrank
  constructor
  · intro h0 he
    have := (hrk q n h1 h2).1 h0
    rw [he] at this
    omega
  · intro h0 he
    have := (hrk q n h1 h2).2 h0
    rw [he] at this
    omega

/-- Helper: no live edge record lists its own slot as an actual child. -/
theorem wf_no_self_child_edge {gs : GraphState} (h : Wf gs) (out : Bool) :
    ∀ q e, gs.file q = .edgeS e → e.nexists = true →
      (eLeft out e ≠ 0 → eLeft out e ≠ q) ∧
      (eRight out e ≠ 0 → eRight out e ≠ q) := by
  intro q e h1 h2
  obtain ⟨rk, hrk⟩ := h.erank out
  constructor
  · intro h0 he
    have := (hrk q e h1 h2).1 h0
    rw [he] at this
    omega
  · intro h0 he
    have := (hrk q e h1 h2).2 h0
    rw [he] at this
    omega

/-- Helper: nothing live sits at or beyond the bump pointer. -/
theorem bump_dead {gs : GraphState} (h : Wf gs) (p : Int)
    (hp : gs.header.next_table_position ≤ p) :
    (∀ n, gs.file p = .nodeS n → n.nexists = false) ∧
    (∀ e, gs.file p = .edgeS e → e.nexists = false) := by
  constructor
  · intro n h1
    by_cases h2 : n.nexists = true
    · have := h.liveNB p n h1 h2
      omega
    · exact Bool.not_eq_true n.nexists ▸ h2
  · intro e h1
    by_cases h2 : e.nexists = true
    · have := h.liveEB p e h1 h2
      omega
    · exact Bool.not_eq_true e.nexists ▸ h2

/-- Helper: the three record writes of `add_node`'s fresh-key insertion
(the new node at a dead slot, its dummy at a dead slot, the parent with
one empty child link set) preserve the invariant. -/
theorem insert_node_wf (gs0 gs1 : GraphState) (hW : Wf gs0)
    (prevPos npos epos : Int) (prev prev2 newNode : NodeRec) (dummy : EdgeRec)
    (hprev : gs0.file prevPos = .nodeS prev) (hprevx : prev.nexists = true)
    (hprevPosOK : prev.position = prevPos)
    (hnnPos : newNode.position = npos) (hnnPar : newNode.parent = prevPos)
    (hnnL : newNode.left = 0) (hnnR : newNode.right = 0)
    (hnnX : newNode.nexists = true) (hnnE : newNode.edge_start = epos)
    (hdmX : dummy.nexists = true) (hdmS : dummy.is_edge_start = true)
    (hdmPos : dummy.position = epos) (hdmSrc : dummy.source_position = npos)
    (hdmL : ∀ out, eLeft out dummy = 0) (hdmR : ∀ out, eRight out dummy = 0)
    (hp2Pos : prev2.position = prev.position) (hp2Par : prev2.parent = prev.parent)
    (hp2X : prev2.nexists = true) (hp2E : prev2.edge_start = prev.edge_start)
    (hp2H : prev2.hash = prev.hash)
    (hp2side : (prev2.left = npos ∧ prev2.right = prev.right ∧ prev.left = 0) ∨
               (prev2.right = npos ∧ prev2.left = prev.left ∧ prev.right = 0))
    (hnposDead : (∀ n, gs0.file npos = .nodeS n → n.nexists = false) ∧
                 (∀ e, gs0.file npos = .edgeS e → e.nexists = false))
    (heposDead : (∀ n, gs0.file epos = .nodeS n → n.nexists = false) ∧
                 (∀ e, gs0.file epos = .edgeS e → e.nexists = false))
    (hne : npos ≠ epos)
    (hfile : ∀ q, gs1.file q =
      if q = prevPos then .nodeS prev2
      else if q = epos then .edgeS dummy
      else if q = npos then .nodeS newNode
      else gs0.file q)
    (hbump : gs0.header.next_table_position ≤ gs1.header.next_table_position)
    (hnposB : 0 ≤ npos ∧ npos < gs1.header.next_table_position)
    (heposB : 0 ≤ epos ∧ epos < gs1.header.next_table_position)
    (htN : ∀ p ∈ gs1.node_tombstone,
      p ∈ gs0.node_tombstone ∧ p ≠ npos ∧ p ≠ epos)
    (htE : ∀ p ∈ gs1.edge_tombstone,
      p ∈ gs0.edge_tombstone ∧ p ≠ npos ∧ p ≠ epos)
    (htNnd : gs1.node_tombstone.Nodup) (htEnd : gs1.edge_tombstone.Nodup) :
    Wf gs1 := by
  -- distinctness of the written slots
  have hP0 : prevPos ≠ npos := by
    intro hEq
    rw [hEq] at hprev
    have := hnposDead.1 prev hprev
    rw [hprevx] at this
    cases this
  have hP1 : prevPos ≠ epos := by
    intro hEq
    rw [hEq] at hprev
    have := heposDead.1 prev hprev
    rw [hprevx] at this
    cases this
  have hnpos0 : npos ≠ 0 := by
    intro hEq
    obtain ⟨r, hr1, hr2, _⟩ := hW.root
    rw [← hEq] at hr1
    have := hnposDead.1 r hr1
    rw [hr2] at this
    cases this
  have hepos0 : epos ≠ 0 := by
    intro hEq
    obtain ⟨r, hr1, hr2, _⟩ := hW.root
    rw [← hEq] at hr1
    have := heposDead.1 r hr1
    rw [hr2] at this
    cases this
  -- reads of the new file
  have hr1 : gs1.file prevPos = .nodeS prev2 := by
    rw [hfile, if_pos rfl]
  have hr2 : gs1.file epos = .edgeS dummy := by
    rw [hfile, if_neg (Ne.symm hP1), if_pos rfl]
  have hr3 : gs1.file npos = .nodeS newNode := by
    rw [hfile, if_neg (Ne.symm hP0), if_neg hne, if_pos rfl]
  have hr4 : ∀ q, q ≠ prevPos → q ≠ epos → q ≠ npos → gs1.file q = gs0.file q := by
    intro q e1 e2 e3
    rw [hfile, if_neg e1, if_neg e2, if_neg e3]
  -- characterisation of live records in the new state
  have hLN : ∀ q n, gs1.file q = .nodeS n → n.nexists = true →
      (q = prevPos ∧ n = prev2) ∨ (q = npos ∧ n = newNode) ∨
      (q ≠ prevPos ∧ q ≠ epos ∧ q ≠ npos ∧ gs0.file q = .nodeS n) := by
    intro q n h1 _
    by_cases e1 : q = prevPos
    · subst e1
      rw [hr1] at h1
      exact Or.inl ⟨rfl, (Slot.nodeS.inj h1).symm⟩
    · by_cases e2 : q = epos
      · subst e2
        rw [hr2] at h1
        cases h1
      · by_cases e3 : q = npos
        · subst e3
          rw [hr3] at h1
          exact Or.inr (Or.inl ⟨rfl, (Slot.nodeS.inj h1).symm⟩)
        · rw [hr4 q e1 e2 e3] at h1
          exact Or.inr (Or.inr ⟨e1, e2, e3, h1⟩)
  have hLE : ∀ q e, gs1.file q = .edgeS e → e.nexists = true →
      (q = epos ∧ e = dummy) ∨
      (q ≠ prevPos ∧ q ≠ epos ∧ q ≠ npos ∧ gs0.file q = .edgeS e) := by
    intro q e h1 _
    by_cases e1 : q = prevPos
    · subst e1
      rw [hr1] at h1
      cases h1
    · by_cases e2 : q = epos
      · subst e2
        rw [hr2] at h1
        exact Or.inl ⟨rfl, (Slot.edgeS.inj h1).symm⟩
      · by_cases e3 : q = npos
        · subst e3
          rw [hr3] at h1
          cases h1
        · rw [hr4 q e1 e2 e3] at h1
          exact Or.inr ⟨e1, e2, e3, h1⟩
  -- old live records avoid the two allocated slots
  have hOldN : ∀ q n, gs0.file q = .nodeS n → n.nexists = true →
      q ≠ npos ∧ q ≠ epos := by
    intro q n h1 h2
    constructor
    · intro hEq
      rw [hEq] at h1
      have := hnposDead.1 n h1
      rw [h2] at this
      cases this
    · intro hEq
      rw [hEq] at h1
      have := heposDead.1 n h1
      rw [h2] at this
      cases this
  have hOldE : ∀ q e, gs0.file q = .edgeS e → e.nexists = true →
      q ≠ npos ∧ q ≠ epos := by
    intro q e h1 h2
    constructor
    · intro hEq
      rw [hEq] at h1
      have := hnposDead.2 e h1
      rw [h2] at this
      cases this
    · intro hEq
      rw [hEq] at h1
      have := heposDead.2 e h1
      rw [h2] at this
      cases this
  -- old live edge slots also differ from the parent's node slot
  have hOldEP : ∀ q e, gs0.file q = .edgeS e → q ≠ prevPos := by
    intro q e h1 hEq
    rw [hEq, hprev] at h1
    cases h1
  -- old reads survive at old live-edge slots
  have hKeepE : ∀ q e, gs0.file q = .edgeS e → e.nexists = true →
      gs1.file q = .edgeS e := by
    intro q e h1 h2
    obtain ⟨e3, e2⟩ := hOldE q e h1 h2
    rw [hr4 q (hOldEP q e h1) e2 e3]
    exact h1
  -- descendant paths in the new state that do not start at the dummy
  -- are old paths avoiding the dummy slot
  have hT1 : ∀ out a b, EDesc gs1 out a b → a ≠ epos →
      EDesc gs0 out a b ∧ b ≠ epos := by
    intro out a b hd
    induction hd with
    | refl a => intro ha; exact ⟨.refl a, ha⟩
    | stepL a e c h1 h2 h3 hsub ih =>
      intro _
      rcases hLE a e h1 h2 with ⟨he1, he2⟩ | ⟨_, _, _, hold⟩
      · rw [he2] at h3
        rw [hdmL out] at h3
        exact absurd rfl h3
      · obtain ⟨c', hc'1, hc'2, _, _⟩ := hW.edownL out a e hold h2 h3
        have hcne : eLeft out e ≠ epos := by
          intro hEq
          rw [hEq] at hc'1
          have := heposDead.2 c' hc'1
          rw [hc'2] at this
          cases this
        obtain ⟨hsub', hb⟩ := ih hcne
        exact ⟨.stepL a e c hold h2 h3 hsub', hb⟩
    | stepR a e c h1 h2 h3 hsub ih =>
      intro _
      rcases hLE a e h1 h2 with ⟨he1, he2⟩ | ⟨_, _, _, hold⟩
      · rw [he2] at h3
        rw [hdmR out] at h3
        exact absurd rfl h3
      · obtain ⟨c', hc'1, hc'2, _, _⟩ := hW.edownR out a e hold h2 h3
        have hcne : eRight out e ≠ epos := by
          intro hEq
          rw [hEq] at hc'1
          have := heposDead.2 c' hc'1
          rw [hc'2] at this
          cases this
        obtain ⟨hsub', hb⟩ := ih hcne
        exact ⟨.stepR a e c hold h2 h3 hsub', hb⟩
  have hp2PosEq : prev2.position = prevPos := hp2Pos.trans hprevPosOK
  have hnoSelf := wf_no_self_child_node hW prevPos prev hprev hprevx
  refine ⟨?_, ?_, ?_, ?_, ?_, ?_, ?_, ?_, ?_, ?_, ?_, ?_, ?_, ?_, ?_, ?_,
    ?_, ?_, ?_, ?_, ?_, ?_, ?_, ?_⟩
  -- root
  · by_cases hz : prevPos = 0
    · subst hz
      obtain ⟨r, hra, hrb, hrc, hrd, hre⟩ := hW.root
      rw [hprev] at hra
      have hpr := Slot.nodeS.inj hra
      refine ⟨prev2, hr1, hp2X, ?_, ?_, ?_⟩
      · rw [hp2PosEq]
      · rw [hp2Par, hpr]; exact hrd
      · rw [hp2H, hpr]; exact hre
    · obtain ⟨r, hra, hrb, hrc, hrd, hre⟩ := hW.root
      refine ⟨r, ?_, hrb, hrc, hrd, hre⟩
      rw [hr4 0 (fun hEq => hz hEq.symm) (fun hEq => hepos0 hEq.symm)
        (fun hEq => hnpos0 hEq.symm)]
      exact hra
  -- nposOK
  · intro q n h1 h2
    rcases hLN q n h1 h2 with ⟨hq, hn⟩ | ⟨hq, hn⟩ | ⟨_, _, _, hold⟩
    · rw [hn, hq, hp2PosEq]
    · rw [hn, hq, hnnPos]
    · exact hW.nposOK q n hold h2
  -- nup
  · intro q n h1 h2 hq0
    rcases hLN q n h1 h2 with ⟨hq, hn⟩ | ⟨hq, hn⟩ | ⟨e1, e2, e3, hold⟩
    · subst hq
      rw [hn, hp2Par]
      obtain ⟨m, hm1, hm2, hm3⟩ := hW.nup q prev hprev hprevx hq0
      by_cases hpp : prev.parent = q
      · rw [hpp] at hm1
        rw [hprev] at hm1
        have hmp := Slot.nodeS.inj hm1
        rw [← hmp] at hm3
        rcases hm3 with hs | hs
        · exact absurd hs (hnoSelf.1 (by rw [hs]; exact hq0))
        · exact absurd hs (hnoSelf.2 (by rw [hs]; exact hq0))
      · have hup1 : prev.parent ≠ npos := (hOldN _ m hm1 hm2).1
        have hup2 : prev.parent ≠ epos := (hOldN _ m hm1 hm2).2
        rw [hr4 _ hpp hup2 hup1]
        exact ⟨m, hm1, hm2, hm3⟩
    · subst hq
      rw [hn, hnnPar]
      rcases hp2side with ⟨hs1, _, _⟩ | ⟨hs1, _, _⟩
      · exact ⟨prev2, hr1, hp2X, Or.inl hs1⟩
      · exact ⟨prev2, hr1, hp2X, Or.inr hs1⟩
    · obtain ⟨m, hm1, hm2, hm3⟩ := hW.nup q n hold h2 hq0
      by_cases hpp : n.parent = prevPos
      · rw [hpp] at hm1
        rw [hprev] at hm1
        have hmp := Slot.nodeS.inj hm1
        rw [← hmp] at hm3
        refine ⟨prev2, by rw [hpp]; exact hr1, hp2X, ?_⟩
        rcases hp2side with ⟨_, hsR, hsZ⟩ | ⟨_, hsL, hsZ⟩
        · rcases hm3 with hs | hs
          · rw [hs] at hsZ
            exact absurd hsZ hq0
          · exact Or.inr (by rw [hsR]; exact hs)
        · rcases hm3 with hs | hs
          · exact Or.inl (by rw [hsL]; exact hs)
          · rw [hs] at hsZ
            exact absurd hsZ hq0
      · have hup1 : n.parent ≠ npos := (hOldN _ m hm1 hm2).1
        have hup2 : n.parent ≠ epos := (hOldN _ m hm1 hm2).2
        rw [hr4 _ hpp hup2 hup1]
        exact ⟨m, hm1, hm2, hm3⟩
  -- ndownL
  · intro q n h1 h2 h3
    rcases hLN q n h1 h2 with ⟨hq, hn⟩ | ⟨hq, hn⟩ | ⟨e1, e2, e3, hold⟩
    · subst hq
      rw [hn] at h3 ⊢
      rcases hp2side with ⟨hs1, _, _⟩ | ⟨_, hs2, _⟩
      · rw [hs1]
        exact ⟨newNode, hr3, hnnX, by rw [hnnPar]⟩
      · rw [hs2] at h3 ⊢
        obtain ⟨c, hc1, hc2, hc3⟩ := hW.ndownL q prev hprev hprevx h3
        by_cases hcc : prev.left = q
        · exact absurd hcc (hnoSelf.1 h3)
        · rw [hr4 _ hcc (hOldN _ c hc1 hc2).2 (hOldN _ c hc1 hc2).1]
          exact ⟨c, hc1, hc2, hc3⟩
    · subst hq
      rw [hn] at h3
      rw [hnnL] at h3
      exact absurd rfl h3
    · obtain ⟨c, hc1, hc2, hc3⟩ := hW.ndownL q n hold h2 h3
      by_cases hcc : n.left = prevPos
      · rw [hcc] at hc1
        rw [hprev] at hc1
        have := Slot.nodeS.inj hc1
        refine ⟨prev2, by rw [hcc]; exact hr1, hp2X, ?_⟩
        rw [hp2Par, this]
        exact hc3
      · rw [hr4 _ hcc (hOldN _ c hc1 hc2).2 (hOldN _ c hc1 hc2).1]
        exact ⟨c, hc1, hc2, hc3⟩
  -- ndownR
  · intro q n h1 h2 h3
    rcases hLN q n h1 h2 with ⟨hq, hn⟩ | ⟨hq, hn⟩ | ⟨e1, e2, e3, hold⟩
    · subst hq
      rw [hn] at h3 ⊢
      rcases hp2side with ⟨_, hs2, _⟩ | ⟨hs1, _, _⟩
      · rw [hs2] at h3 ⊢
        obtain ⟨c, hc1, hc2, hc3⟩ := hW.ndownR q prev hprev hprevx h3
        by_cases hcc : prev.right = q
        · exact absurd hcc (hnoSelf.2 h3)
        · rw [hr4 _ hcc (hOldN _ c hc1 hc2).2 (hOldN _ c hc1 hc2).1]
          exact ⟨c, hc1, hc2, hc3⟩
      · rw [hs1]
        exact ⟨newNode, hr3, hnnX, by rw [hnnPar]⟩
    · subst hq
      rw [hn] at h3
      rw [hnnR] at h3
      exact absurd rfl h3
    · obtain ⟨c, hc1, hc2, hc3⟩ := hW.ndownR q n hold h2 h3
      by_cases hcc : n.right = prevPos
      · rw [hcc] at hc1
        rw [hprev] at hc1
        have := Slot.nodeS.inj hc1
        refine ⟨prev2, by rw [hcc]; exact hr1, hp2X, ?_⟩
        rw [hp2Par, this]
        exact hc3
      · rw [hr4 _ hcc (hOldN _ c hc1 hc2).2 (hOldN _ c hc1 hc2).1]
        exact ⟨c, hc1, hc2, hc3⟩
  -- nsides
  · intro q n h1 h2 h3
    rcases hLN q n h1 h2 with ⟨hq, hn⟩ | ⟨hq, hn⟩ | ⟨e1, e2, e3, hold⟩
    · subst hq
      rw [hn] at h3 ⊢
      rcases hp2side with ⟨hs1, hs2, _⟩ | ⟨hs1, hs2, hsZ⟩
      · rw [hs1, hs2]
        by_cases hz : prev.right = 0
        · rw [hz]; exact hnpos0
        · obtain ⟨c, hc1, hc2, _⟩ := hW.ndownR q prev hprev hprevx hz
          intro hEq
          rw [← hEq] at hc1
          have := hnposDead.1 c hc1
          rw [hc2] at this
          cases this
      · rw [hs2] at h3 ⊢
        rw [hs1]
        obtain ⟨c, hc1, hc2, _⟩ := hW.ndownL q prev hprev hprevx h3
        intro hEq
        rw [hEq] at hc1
        have := hnposDead.1 c hc1
        rw [hc2] at this
        cases this
    · subst hq
      rw [hn] at h3
      rw [hnnL] at h3
      exact absurd rfl h3
    · exact hW.nsides q n hold h2 h3
  -- nrank
  · obtain ⟨rk, hrk⟩ := hW.nrank
    refine ⟨fun x => if x = npos then rk prevPos + 1 else rk x, ?_⟩
    intro q n h1 h2
    dsimp only
    rcases hLN q n h1 h2 with ⟨hq, hn⟩ | ⟨hq, hn⟩ | ⟨e1, e2, e3, hold⟩
    · subst hq
      rw [hn]
      have hrkp := hrk q prev hprev hprevx
      rcases hp2side with ⟨hs1, hs2, hsZ⟩ | ⟨hs1, hs2, hsZ⟩
      · rw [hs1, hs2]
        constructor
        · intro _
          rw [if_neg hP0, if_pos rfl]
          omega
        · intro hz
          have := hrkp.2 hz
          obtain ⟨c, hc1, hc2, _⟩ := hW.ndownR q prev hprev hprevx hz
          rw [if_neg hP0, if_neg (hOldN _ c hc1 hc2).1]
          exact this
      · rw [hs1, hs2]
        constructor
        · intro hz
          have := hrkp.1 hz
          obtain ⟨c, hc1, hc2, _⟩ := hW.ndownL q prev hprev hprevx hz
          rw [if_neg hP0, if_neg (hOldN _ c hc1 hc2).1]
          exact this
        · intro _
          rw [if_neg hP0, if_pos rfl]
          omega
    · subst hq
      rw [hn, hnnL, hnnR]
      exact ⟨fun hz => absurd rfl hz, fun hz => absurd rfl hz⟩
    · have hrkp := hrk q n hold h2
      constructor
      · intro hz
        have := hrkp.1 hz
        obtain ⟨c, hc1, hc2, _⟩ := hW.ndownL q n hold h2 hz
        rw [if_neg e3, if_neg (hOldN _ c hc1 hc2).1]
        exact this
      · intro hz
        have := hrkp.2 hz
        obtain ⟨c, hc1, hc2, _⟩ := hW.ndownR q n hold h2 hz
        rw [if_neg e3, if_neg (hOldN _ c hc1 hc2).1]
        exact this
  -- eposOK
  · intro q e h1 h2
    rcases hLE q e h1 h2 with ⟨hq, he⟩ | ⟨_, _, _, hold⟩
    · rw [he, hq, hdmPos]
    · exact hW.eposOK q e hold h2
  -- eup
  · intro out q e h1 h2 h3
    rcases hLE q e h1 h2 with ⟨hq, he⟩ | ⟨_, _, _, hold⟩
    · rw [he] at h3
      rw [hdmS] at h3
      cases h3
    · obtain ⟨p, hpa, hpb, hpc⟩ := hW.eup out q e hold h2 h3
      rw [hKeepE _ p hpa hpb]
      exact ⟨p, rfl, hpb, hpc⟩
  -- edownL
  · intro out q e h1 h2 h3
    rcases hLE q e h1 h2 with ⟨hq, he⟩ | ⟨_, _, _, hold⟩
    · rw [he] at h3
      rw [hdmL out] at h3
      exact absurd rfl h3
    · obtain ⟨c, hc1, hc2, hc3, hc4⟩ := hW.edownL out q e hold h2 h3
      rw [hKeepE _ c hc1 hc2]
      exact ⟨c, rfl, hc2, hc3, hc4⟩
  -- edownR
  · intro out q e h1 h2 h3
    rcases hLE q e h1 h2 with ⟨hq, he⟩ | ⟨_, _, _, hold⟩
    · rw [he] at h3
      rw [hdmR out] at h3
      exact absurd rfl h3
    · obtain ⟨c, hc1, hc2, hc3, hc4⟩ := hW.edownR out q e hold h2 h3
      rw [hKeepE _ c hc1 hc2]
      exact ⟨c, rfl, hc2, hc3, hc4⟩
  -- esides
  · intro out q e h1 h2 h3
    rcases hLE q e h1 h2 with ⟨hq, he⟩ | ⟨_, _, _, hold⟩
    · rw [he] at h3
      rw [hdmL out] at h3
      exact absurd rfl h3
    · exact hW.esides out q e hold h2 h3
  -- erank
  · intro out
    obtain ⟨rk, hrk⟩ := hW.erank out
    refine ⟨rk, ?_⟩
    intro q e h1 h2
    rcases hLE q e h1 h2 with ⟨hq, he⟩ | ⟨_, _, _, hold⟩
    · rw [he, hdmL out, hdmR out]
      exact ⟨fun hz => absurd rfl hz, fun hz => absurd rfl hz⟩
    · exact hrk q e hold h2
  -- ancL
  · intro out a e h1 h2 h3 w f h4 h5 h6
    rcases hLE a e h1 h2 with ⟨hq, he⟩ | ⟨_, _, _, hold⟩
    · rw [he] at h3
      rw [hdmL out] at h3
      exact absurd rfl h3
    · obtain ⟨c', hc'1, hc'2, _, _⟩ := hW.edownL out a e hold h2 h3
      have hcne : eLeft out e ≠ epos := by
        intro hEq
        rw [hEq] at hc'1
        have := heposDead.2 c' hc'1
        rw [hc'2] at this
        cases this
      obtain ⟨h4', hw⟩ := hT1 out _ w h4 hcne
      rcases hLE w f h5 h6 with ⟨hq', _⟩ | ⟨_, _, _, hold'⟩
      · exact absurd hq' hw
      · exact hW.ancL out a e hold h2 h3 w f h4' hold' h6
  -- ancR
  · intro out a e h1 h2 h3 w f h4 h5 h6
    rcases hLE a e h1 h2 with ⟨hq, he⟩ | ⟨_, _, _, hold⟩
    · rw [he] at h3
      rw [hdmR out] at h3
      exact absurd rfl h3
    · obtain ⟨c', hc'1, hc'2, _, _⟩ := hW.edownR out a e hold h2 h3
      have hcne : eRight out e ≠ epos := by
        intro hEq
        rw [hEq] at hc'1
        have := heposDead.2 c' hc'1
        rw [hc'2] at this
        cases this
      obtain ⟨h4', hw⟩ := hT1 out _ w h4 hcne
      rcases hLE w f h5 h6 with ⟨hq', _⟩ | ⟨_, _, _, hold'⟩
      · exact absurd hq' hw
      · exact hW.ancR out a e hold h2 h3 w f h4' hold' h6
  -- esrc
  · intro q e h1 h2 h3
    rcases hLE q e h1 h2 with ⟨hq, he⟩ | ⟨_, _, _, hold⟩
    · rw [he] at h3
      rw [hdmS] at h3
      cases h3
    · obtain ⟨p, hpa, hpb⟩ := hW.esrc q e hold h2 h3
      obtain ⟨pp, hppa, hppb, hppc⟩ := hW.eup true q e hold h2 h3
      rw [eParent_true] at hppa
      rw [hpa] at hppa
      have hpeq := Slot.edgeS.inj hppa
      rw [hKeepE _ p hpa (by rw [hpeq]; exact hppb)]
      exact ⟨p, rfl, hpb⟩
  -- etgt
  · intro q e h1 h2 h3
    rcases hLE q e h1 h2 with ⟨hq, he⟩ | ⟨_, _, _, hold⟩
    · rw [he] at h3
      rw [hdmS] at h3
      cases h3
    · obtain ⟨p, hpa, hpb⟩ := hW.etgt q e hold h2 h3
      obtain ⟨pp, hppa, hppb, hppc⟩ := hW.eup false q e hold h2 h3
      rw [eParent_false] at hppa
      rw [hpa] at hppa
      have hpeq := Slot.edgeS.inj hppa
      rw [hKeepE _ p hpa (by rw [hpeq]; exact hppb)]
      exact ⟨p, rfl, hpb⟩
  -- nodeDummy
  · intro q n h1 h2 hq0
    rcases hLN q n h1 h2 with ⟨hq, hn⟩ | ⟨hq, hn⟩ | ⟨e1, e2, e3, hold⟩
    · subst hq
      rw [hn, hp2E]
      obtain ⟨d, hd1, hd2, hd3, hd4⟩ := hW.nodeDummy q prev hprev hprevx hq0
      rw [hKeepE _ d hd1 hd2]
      exact ⟨d, rfl, hd2, hd3, hd4⟩
    · subst hq
      rw [hn, hnnE]
      exact ⟨dummy, hr2, hdmX, hdmS, by rw [hdmSrc]⟩
    · obtain ⟨d, hd1, hd2, hd3, hd4⟩ := hW.nodeDummy q n hold h2 hq0
      rw [hKeepE _ d hd1 hd2]
      exact ⟨d, rfl, hd2, hd3, hd4⟩
  -- liveNB
  · intro q n h1 h2
    rcases hLN q n h1 h2 with ⟨hq, _⟩ | ⟨hq, _⟩ | ⟨_, _, _, hold⟩
    · subst hq
      have := hW.liveNB q prev hprev hprevx
      omega
    · subst hq
      exact hnposB
    · have := hW.liveNB q n hold h2
      omega
  -- liveEB
  · intro q e h1 h2
    rcases hLE q e h1 h2 with ⟨hq, _⟩ | ⟨_, _, _, hold⟩
    · subst hq
      exact heposB
    · have := hW.liveEB q e hold h2
      omega
  -- tombN
  · intro p hp
    obtain ⟨hold, hpn, hpe⟩ := htN p hp
    obtain ⟨⟨n, hn1, hn2⟩, hb1, hb2⟩ := hW.tombN p hold
    have hpp : p ≠ prevPos := by
      intro hEq
      rw [hEq, hprev] at hn1
      rw [Slot.nodeS.inj hn1] at hprevx
      rw [hprevx] at hn2
      cases hn2
    rw [hr4 p hpp hpe hpn]
    exact ⟨⟨n, hn1, hn2⟩, hb1, by omega⟩
  -- tombE
  · intro p hp
    obtain ⟨hold, hpn, hpe⟩ := htE p hp
    obtain ⟨⟨e, he1, he2⟩, hb1, hb2⟩ := hW.tombE p hold
    have hpp : p ≠ prevPos := by
      intro hEq
      rw [hEq, hprev] at he1
      cases he1
    rw [hr4 p hpp hpe hpn]
    exact ⟨⟨e, he1, he2⟩, hb1, by omega⟩
  -- Nodup
  · exact htNnd
  · exact htEnd

/-- Helper: overwriting a live node record in place with a record that
agrees on every structural field (as `add_node`'s equality ending does)
preserves the invariant. -/
theorem overwrite_node_wf (gs0 gs1 : GraphState) (hW : Wf gs0) (p : Int)
    (old new : NodeRec)
    (hold : gs0.file p = .nodeS old) (holdx : old.nexists = true)
    (hx : new.nexists = true) (hpos : new.position = old.position)
    (hpar : new.parent = old.parent) (hl : new.left = old.left)
    (hr : new.right = old.right) (he : new.edge_start = old.edge_start)
    (hh : new.hash = old.hash)
    (hfile : ∀ q, gs1.file q = if q = p then .nodeS new else gs0.file q)
    (hhdr : gs1.header.next_table_position = gs0.header.next_table_position)
    (hnt : gs1.node_tombstone = gs0.node_tombstone)
    (het : gs1.edge_tombstone = gs0.edge_tombstone) :
    Wf gs1 := by
  have hrp : gs1.file p = .nodeS new := by rw [hfile, if_pos rfl]
  have hr4 : ∀ q, q ≠ p → gs1.file q = gs0.file q := by
    intro q hq
    rw [hfile, if_neg hq]
  have hLN : ∀ q n, gs1.file q = .nodeS n → n.nexists = true →
      (q = p ∧ n = new) ∨ (q ≠ p ∧ gs0.file q = .nodeS n) := by
    intro q n h1 _
    by_cases hq : q = p
    · subst hq
      rw [hrp] at h1
      exact Or.inl ⟨rfl, (Slot.nodeS.inj h1).symm⟩
    · rw [hr4 q hq] at h1
      exact Or.inr ⟨hq, h1⟩
  -- any live node slot of the old state still carries a record with the
  -- same structural fields
  have hKeepN : ∀ q n, gs0.file q = .nodeS n → n.nexists = true →
      ∃ n', gs1.file q = .nodeS n' ∧ n'.nexists = true ∧
        n'.position = n.position ∧ n'.parent = n.parent ∧
        n'.left = n.left ∧ n'.right = n.right ∧
        n'.edge_start = n.edge_start ∧ n'.hash = n.hash := by
    intro q n h1 h2
    by_cases hq : q = p
    · subst hq
      rw [hold] at h1
      rw [← Slot.nodeS.inj h1]
      exact ⟨new, hrp, hx, hpos, hpar, hl, hr, he, hh⟩
    · exact ⟨n, by rw [hr4 q hq]; exact h1, h2, rfl, rfl, rfl, rfl, rfl, rfl⟩
  have hEdge : ∀ q e, gs1.file q = .edgeS e ↔ gs0.file q = .edgeS e := by
    intro q e
    by_cases hq : q = p
    · subst hq
      rw [hrp, hold]
      constructor
      · intro hc; cases hc
      · intro hc; cases hc
    · rw [hr4 q hq]
  have hDesc1 : ∀ out a b, EDesc gs1 out a b → EDesc gs0 out a b := by
    intro out a b hd
    induction hd with
    | refl a => exact .refl a
    | stepL a e c h1 h2 h3 _ ih =>
      exact .stepL a e c ((hEdge a e).mp h1) h2 h3 ih
    | stepR a e c h1 h2 h3 _ ih =>
      exact .stepR a e c ((hEdge a e).mp h1) h2 h3 ih
  refine ⟨?_, ?_, ?_, ?_, ?_, ?_, ?_, ?_, ?_, ?_, ?_, ?_, ?_, ?_, ?_, ?_,
    ?_, ?_, ?_, ?_, ?_, ?_, ?_, ?_⟩
  · obtain ⟨r, hra, hrb, hrc, hrd, hre⟩ := hW.root
    obtain ⟨r', ha, hb, hc, hd, _, _, _, hhh⟩ := hKeepN 0 r hra hrb
    exact ⟨r', ha, hb, by rw [hc]; exact hrc, by rw [hd]; exact hrd,
      by rw [hhh]; exact hre⟩
  · intro q n h1 h2
    rcases hLN q n h1 h2 with ⟨hq, hn⟩ | ⟨_, holdq⟩
    · subst hq
      rw [hn, hpos]
      exact hW.nposOK q old hold holdx
    · exact hW.nposOK q n holdq h2
  · intro q n h1 h2 hq0
    rcases hLN q n h1 h2 with ⟨hq, hn⟩ | ⟨_, holdq⟩
    · subst hq
      rw [hn, hpar]
      obtain ⟨m, hm1, hm2, hm3⟩ := hW.nup q old hold holdx hq0
      obtain ⟨m', ha, hb, _, _, hle, hri, _, _⟩ := hKeepN _ m hm1 hm2
      refine ⟨m', ha, hb, ?_⟩
      rcases hm3 with hs | hs
      · exact Or.inl (by rw [hle]; exact hs)
      · exact Or.inr (by rw [hri]; exact hs)
    · obtain ⟨m, hm1, hm2, hm3⟩ := hW.nup q n holdq h2 hq0
      obtain ⟨m', ha, hb, _, _, hle, hri, _, _⟩ := hKeepN _ m hm1 hm2
      refine ⟨m', ha, hb, ?_⟩
      rcases hm3 with hs | hs
      · exact Or.inl (by rw [hle]; exact hs)
      · exact Or.inr (by rw [hri]; exact hs)
  · intro q n h1 h2 h3
    rcases hLN q n h1 h2 with ⟨hq, hn⟩ | ⟨_, holdq⟩
    · subst hq
      rw [hn] at h3 ⊢
      rw [hl] at h3 ⊢
      obtain ⟨c, hc1, hc2, hc3⟩ := hW.ndownL q old hold holdx h3
      obtain ⟨c', ha, hb, _, hcp, _, _, _, _⟩ := hKeepN _ c hc1 hc2
      exact ⟨c', ha, hb, by rw [hcp]; exact hc3⟩
    · obtain ⟨c, hc1, hc2, hc3⟩ := hW.ndownL q n holdq h2 h3
      obtain ⟨c', ha, hb, _, hcp, _, _, _, _⟩ := hKeepN _ c hc1 hc2
      exact ⟨c', ha, hb, by rw [hcp]; exact hc3⟩
  · intro q n h1 h2 h3
    rcases hLN q n h1 h2 with ⟨hq, hn⟩ | ⟨_, holdq⟩
    · subst hq
      rw [hn] at h3 ⊢
      rw [hr] at h3 ⊢
      obtain ⟨c, hc1, hc2, hc3⟩ := hW.ndownR q old hold holdx h3
      obtain ⟨c', ha, hb, _, hcp, _, _, _, _⟩ := hKeepN _ c hc1 hc2
      exact ⟨c', ha, hb, by rw [hcp]; exact hc3⟩
    · obtain ⟨c, hc1, hc2, hc3⟩ := hW.ndownR q n holdq h2 h3
      obtain ⟨c', ha, hb, _, hcp, _, _, _, _⟩ := hKeepN _ c hc1 hc2
      exact ⟨c', ha, hb, by rw [hcp]; exact hc3⟩
  · intro q n h1 h2 h3
    rcases hLN q n h1 h2 with ⟨hq, hn⟩ | ⟨_, holdq⟩
    · subst hq
      rw [hn] at h3 ⊢
      rw [hl] at h3
      rw [hl, hr]
      exact hW.nsides q old hold holdx h3
    · exact hW.nsides q n holdq h2 h3
  · obtain ⟨rk, hrk⟩ := hW.nrank
    refine ⟨rk, ?_⟩
    intro q n h1 h2
    rcases hLN q n h1 h2 with ⟨hq, hn⟩ | ⟨_, holdq⟩
    · subst hq
      rw [hn, hl, hr]
      exact hrk q old hold holdx
    · exact hrk q n holdq h2
  · intro q e h1 h2
    exact hW.eposOK q e ((hEdge q e).mp h1) h2
  · intro out q e h1 h2 h3
    obtain ⟨pp, ha, hb, hc⟩ := hW.eup out q e ((hEdge q e).mp h1) h2 h3
    exact ⟨pp, (hEdge _ pp).mpr ha, hb, hc⟩
  · intro out q e h1 h2 h3
    obtain ⟨c, ha, hb, hc, hd⟩ := hW.edownL out q e ((hEdge q e).mp h1) h2 h3
    exact ⟨c, (hEdge _ c).mpr ha, hb, hc, hd⟩
  · intro out q e h1 h2 h3
    obtain ⟨c, ha, hb, hc, hd⟩ := hW.edownR out q e ((hEdge q e).mp h1) h2 h3
    exact ⟨c, (hEdge _ c).mpr ha, hb, hc, hd⟩
  · intro out q e h1 h2 h3
    exact hW.esides out q e ((hEdge q e).mp h1) h2 h3
  · intro out
    obtain ⟨rk, hrk⟩ := hW.erank out
    refine ⟨rk, ?_⟩
    intro q e h1 h2
    exact hrk q e ((hEdge q e).mp h1) h2
  · intro out a e h1 h2 h3 w f h4 h5 h6
    exact hW.ancL out a e ((hEdge a e).mp h1) h2 h3 w f (hDesc1 out _ _ h4)
      ((hEdge w f).mp h5) h6
  · intro out a e h1 h2 h3 w f h4 h5 h6
    exact hW.ancR out a e ((hEdge a e).mp h1) h2 h3 w f (hDesc1 out _ _ h4)
      ((hEdge w f).mp h5) h6
  · intro q e h1 h2 h3
    obtain ⟨pp, ha, hb⟩ := hW.esrc q e ((hEdge q e).mp h1) h2 h3
    exact ⟨pp, (hEdge _ pp).mpr ha, hb⟩
  · intro q e h1 h2 h3
    obtain ⟨pp, ha, hb⟩ := hW.etgt q e ((hEdge q e).mp h1) h2 h3
    exact ⟨pp, (hEdge _ pp).mpr ha, hb⟩
  · intro q n h1 h2 hq0
    rcases hLN q n h1 h2 with ⟨hq, hn⟩ | ⟨_, holdq⟩
    · subst hq
      rw [hn, he]
      obtain ⟨d, ha, hb, hc, hd⟩ := hW.nodeDummy q old hold holdx hq0
      exact ⟨d, (hEdge _ d).mpr ha, hb, hc, hd⟩
    · obtain ⟨d, ha, hb, hc, hd⟩ := hW.nodeDummy q n holdq h2 hq0
      exact ⟨d, (hEdge _ d).mpr ha, hb, hc, hd⟩
  · intro q n h1 h2
    rw [hhdr]
    rcases hLN q n h1 h2 with ⟨hq, hn⟩ | ⟨_, holdq⟩
    · subst hq
      exact hW.liveNB q old hold holdx
    · exact hW.liveNB q n holdq h2
  · intro q e h1 h2
    rw [hhdr]
    exact hW.liveEB q e ((hEdge q e).mp h1) h2
  · intro pt hp
    rw [hnt] at hp
    obtain ⟨⟨n, hn1, hn2⟩, hb1, hb2⟩ := hW.tombN pt hp
    have hne : pt ≠ p := by
      intro hEq
      rw [hEq, hold] at hn1
      rw [Slot.nodeS.inj hn1] at holdx
      rw [holdx] at hn2
      cases hn2
    rw [hhdr, hr4 pt hne]
    exact ⟨⟨n, hn1, hn2⟩, hb1, hb2⟩
  · intro pt hp
    rw [het] at hp
    obtain ⟨⟨e, he1, he2⟩, hb1, hb2⟩ := hW.tombE pt hp
    have hne : pt ≠ p := by
      intro hEq
      rw [hEq, hold] at he1
      cases he1
    rw [hhdr, hr4 pt hne]
    exact ⟨⟨e, he1, he2⟩, hb1, hb2⟩
  · rw [hnt]; exact hW.tombNnd
  · rw [het]; exact hW.tombEnd

/-- Helper: like `wf_parts`, but the free lists may also shrink (as when
an allocation pops a slot). -/
theorem wf_shrink {gs gs' : GraphState}
    (hf : gs'.file = gs.file)
    (hnt : ∀ p ∈ gs'.node_tombstone, p ∈ gs.node_tombstone)
    (hntnd : gs'.node_tombstone.Nodup)
    (het : ∀ p ∈ gs'.edge_tombstone, p ∈ gs.edge_tombstone)
    (hetnd : gs'.edge_tombstone.Nodup)
    (hb : gs.header.next_table_position ≤ gs'.header.next_table_position)
    (h : Wf gs) : Wf gs' := by
  have hd : ∀ out a b, EDesc gs' out a b → EDesc gs out a b :=
    fun out => edesc_of_file_eq out hf
  refine ⟨?_, ?_, ?_, ?_, ?_, ?_, ?_, ?_, ?_, ?_, ?_, ?_, ?_, ?_, ?_, ?_,
    ?_, ?_, ?_, ?_, ?_, ?_, ?_, ?_⟩
  · rw [hf]; exact h.root
  · rw [hf]; exact h.nposOK
  · rw [hf]; exact h.nup
  · rw [hf]; exact h.ndownL
  · rw [hf]; exact h.ndownR
  · rw [hf]; exact h.nsides
  · rw [hf]; exact h.nrank
  · rw [hf]; exact h.eposOK
  · rw [hf]; exact h.eup
  · rw [hf]; exact h.edownL
  · rw [hf]; exact h.edownR
  · rw [hf]; exact h.esides
  · rw [hf]; exact h.erank
  · intro out a e h1 h2 h3 w f h4 h5 h6
    rw [hf] at h1 h5
    exact h.ancL out a e h1 h2 h3 w f (hd out _ _ h4) h5 h6
  · intro out a e h1 h2 h3 w f h4 h5 h6
    rw [hf] at h1 h5
    exact h.ancR out a e h1 h2 h3 w f (hd out _ _ h4) h5 h6
  · rw [hf]; exact h.esrc
  · rw [hf]; exact h.etgt
  · rw [hf]; exact h.nodeDummy
  · intro q n h1 h2
    rw [hf] at h1
    have := h.liveNB q n h1 h2
    omega
  · intro q e h1 h2
    rw [hf] at h1
    have := h.liveEB q e h1 h2
    omega
  · intro p hp
    obtain ⟨he, hb1, hb2⟩ := h.tombN p (hnt p hp)
    rw [hf]
    exact ⟨he, hb1, by omega⟩
  · intro p hp
    obtain ⟨he, hb1, hb2⟩ := h.tombE p (het p hp)
    rw [hf]
    exact ⟨he, hb1, by omega⟩
  · exact hntnd
  · exact hetnd

/-- Helper: facts about `_get_next_node_position` under the invariant:
the returned slot carries no live record, the remaining list is a
sublist avoiding the slot, and the slot sits at the bump pointer
(fresh) or below it at a dead node slot (recycled). -/
theorem allocNode_facts (gs : GraphState) (hW : Wf gs) :
    ((∀ n, gs.file (getNextNodePosition gs).1 = .nodeS n →
        n.nexists = false) ∧
     (∀ e, gs.file (getNextNodePosition gs).1 = .edgeS e →
        e.nexists = false)) ∧
    0 ≤ (getNextNodePosition gs).1 ∧
    (∀ p ∈ (getNextNodePosition gs).2.2,
      p ∈ gs.node_tombstone ∧ p ≠ (getNextNodePosition gs).1) ∧
    (getNextNodePosition gs).2.2.Nodup ∧
    ((getNextNodePosition gs).2.1 = true →
      (getNextNodePosition gs).1 ∈ gs.node_tombstone ∧
      (getNextNodePosition gs).1 < gs.header.next_table_position ∧
      ∃ n, gs.file (getNextNodePosition gs).1 = .nodeS n ∧
        n.nexists = false) ∧
    ((getNextNodePosition gs).2.1 = false →
      (getNextNodePosition gs).1 = gs.header.next_table_position ∧
      (getNextNodePosition gs).2.2 = gs.node_tombstone) := by
  rcases hnl : gs.node_tombstone with _ | ⟨t, rest⟩
  · have hA : getNextNodePosition gs =
        (gs.header.next_table_position, false, []) := by
      unfold getNextNodePosition; rw [hnl]
    rw [hA]
    obtain ⟨r, hr1, hr2, _⟩ := hW.root
    have hb0 := hW.liveNB 0 r hr1 hr2
    refine ⟨⟨?_, ?_⟩, by omega, ?_, List.nodup_nil, ?_, ?_⟩
    · intro n h1
      exact (bump_dead hW _ (le_refl _)).1 n h1
    · intro e h1
      exact (bump_dead hW _ (le_refl _)).2 e h1
    · intro p hp
      cases hp
    · intro hc; cases hc
    · intro _; exact ⟨rfl, rfl⟩
  · have hA : getNextNodePosition gs = (t, true, rest) := by
      unfold getNextNodePosition; rw [hnl]
    rw [hA]
    have htm : t ∈ gs.node_tombstone := by rw [hnl]; exact List.mem_cons_self t rest
    obtain ⟨⟨n0, hn0, hn0d⟩, hb1, hb2⟩ := hW.tombN t htm
    have hnd := hW.tombNnd
    rw [hnl] at hnd
    refine ⟨⟨?_, ?_⟩, hb1, ?_, (List.nodup_cons.mp hnd).2, ?_, ?_⟩
    · intro n h1
      rw [hn0] at h1
      rw [← Slot.nodeS.inj h1]
      exact hn0d
    · intro e h1
      rw [hn0] at h1
      cases h1
    · intro p hp
      refine ⟨List.mem_cons_of_mem t hp, ?_⟩
      intro hEq
      rw [hEq] at hp
      exact (List.nodup_cons.mp hnd).1 hp
    · intro _
      exact ⟨List.mem_cons_self t rest, hb2, n0, hn0, hn0d⟩
    · intro hc; cases hc

/-- Helper: the edge analogue of `allocNode_facts`. -/
theorem allocEdge_facts (gs : GraphState) (hW : Wf gs) :
    ((∀ n, gs.file (getNextEdgePosition gs).1 = .nodeS n →
        n.nexists = false) ∧
     (∀ e, gs.file (getNextEdgePosition gs).1 = .edgeS e →
        e.nexists = false)) ∧
    0 ≤ (getNextEdgePosition gs).1 ∧
    (∀ p ∈ (getNextEdgePosition gs).2.2,
      p ∈ gs.edge_tombstone ∧ p ≠ (getNextEdgePosition gs).1) ∧
    (getNextEdgePosition gs).2.2.Nodup ∧
    ((getNextEdgePosition gs).2.1 = true →
      (getNextEdgePosition gs).1 ∈ gs.edge_tombstone ∧
      (getNextEdgePosition gs).1 < gs.header.next_table_position ∧
      ∃ e, gs.file (getNextEdgePosition gs).1 = .edgeS e ∧
        e.nexists = false) ∧
    ((getNextEdgePosition gs).2.1 = false →
      (getNextEdgePosition gs).1 = gs.header.next_table_position ∧
      (getNextEdgePosition gs).2.2 = gs.edge_tombstone) := by
  rcases hnl : gs.edge_tombstone with _ | ⟨t, rest⟩
  · have hA : getNextEdgePosition gs =
        (gs.header.next_table_position, false, []) := by
      unfold getNextEdgePosition; rw [hnl]
    rw [hA]
    obtain ⟨r, hr1, hr2, _⟩ := hW.root
    have hb0 := hW.liveNB 0 r hr1 hr2
    refine ⟨⟨?_, ?_⟩, by omega, ?_, List.nodup_nil, ?_, ?_⟩
    · intro n h1
      exact (bump_dead hW _ (le_refl _)).1 n h1
    · intro e h1
      exact (bump_dead hW _ (le_refl _)).2 e h1
    · intro p hp
      cases hp
    · intro hc; cases hc
    · intro _; exact ⟨rfl, rfl⟩
  · have hA : getNextEdgePosition gs = (t, true, rest) := by
      unfold getNextEdgePosition; rw [hnl]
    rw [hA]
    have htm : t ∈ gs.edge_tombstone := by rw [hnl]; exact List.mem_cons_self t rest
    obtain ⟨⟨e0, he0, he0d⟩, hb1, hb2⟩ := hW.tombE t htm
    have hnd := hW.tombEnd
    rw [hnl] at hnd
    refine ⟨⟨?_, ?_⟩, hb1, ?_, (List.nodup_cons.mp hnd).2, ?_, ?_⟩
    · intro n h1
      rw [he0] at h1
      cases h1
    · intro e h1
      rw [he0] at h1
      rw [← Slot.edgeS.inj h1]
      exact he0d
    · intro p hp
      refine ⟨List.mem_cons_of_mem t hp, ?_⟩
      intro hEq
      rw [hEq] at hp
      exact (List.nodup_cons.mp hnd).1 hp
    · intro _
      exact ⟨List.mem_cons_self t rest, hb2, e0, he0, he0d⟩
    · intro hc; cases hc

/-- Helper: a successful `node()` lookup returns the live record at its
slot, with the key's hash. -/
theorem nodeLookup_spec {cfg : Cfg} {gs : GraphState} (hW : Wf gs)
    {fuel : Nat} {key : String} {n : NodeRec}
    (h : nodeLookup cfg gs fuel key = .ok n) :
    gs.file n.position = .nodeS n ∧ n.nexists = true ∧
    n.hash = cfg.hashFn key := by
  unfold nodeLookup at h
  by_cases hk : key.length > cfg.maxKeyLen
  · rw [if_pos hk] at h
    cases h
  · rw [if_neg hk] at h
    rcases hw : findNodePos gs fuel 0 (mkProbeNode (cfg.hashFn key) key)
      with _ | ⟨prev, s⟩
    · rw [hw] at h
      cases h
    · rw [hw] at h
      dsimp only at h
      obtain ⟨r, hr1, hr2, _⟩ := hW.root
      obtain ⟨ha, hb, hc⟩ := findNodePos_live hW fuel 0 _ prev s ⟨r, hr1, hr2⟩ hw
      by_cases hs : s = 0
      · rw [if_pos hs] at h
        have hpn : prev = n := Except.ok.inj h
        subst hpn
        rcases hc with ⟨hcc, _⟩ | ⟨hcc, _⟩ | ⟨_, _, hch⟩
        · rw [hcc] at hs; cases hs
        · rw [hcc] at hs; cases hs
        · exact ⟨ha, hb, hch⟩
      · rw [if_neg hs] at h
        cases h

/-- Helper: `add_node` preserves the invariant on every path (its error
exits precede any write), and a successful result is the live record at
its slot carrying the key's hash. -/
theorem addNode_wf (cfg : Cfg) (st : St) (fuel : Nat) (k : String)
    (hW : Wf st.gs) (hR : 1 ≤ cfg.R) :
    Wf ((addNode cfg st fuel k).2).gs ∧
    (∀ n, (addNode cfg st fuel k).1 = .ok n →
      ((addNode cfg st fuel k).2).gs.file n.position = .nodeS n ∧
      n.nexists = true ∧ n.hash = cfg.hashFn k) := by
  unfold addNode
  by_cases hk : k.length > cfg.maxKeyLen
  · rw [if_pos hk]
    exact ⟨hW, fun n hn => by cases hn⟩
  · rw [if_neg hk]
    dsimp only
    rcases hw : findNodePos st.gs fuel 0 (addNodeProbe cfg st.gs k)
      with _ | ⟨prev, s⟩
    · exact ⟨hW, fun n hn => by cases hn⟩
    · dsimp only
      obtain ⟨r0, hr01, hr02, _⟩ := hW.root
      obtain ⟨hpa, hpb, hpc⟩ :=
        findNodePos_live hW fuel 0 _ prev s ⟨r0, hr01, hr02⟩ hw
      by_cases hs : s = 0
      · rw [if_pos hs]
        have hh : prev.hash = (addNodeProbe cfg st.gs k).hash := by
          rcases hpc with ⟨h0, _⟩ | ⟨h0, _⟩ | ⟨_, _, hhh⟩
          · rw [h0] at hs; cases hs
          · rw [h0] at hs; cases hs
          · exact hhh
        by_cases heqp : nodeEqPy (addNodeProbe cfg st.gs k) prev = true
        · rw [if_pos heqp]
          refine ⟨hW, ?_⟩
          intro n hn
          have hpn : prev = n := Except.ok.inj hn
          subst hpn
          exact ⟨hpa, hpb, hh⟩
        · rw [if_neg heqp]
          dsimp only
          constructor
          · exact overwrite_node_wf st.gs _ hW prev.position prev
              { addNodeProbe cfg st.gs k with
                left := prev.left
                right := prev.right
                index := prev.index
                position := prev.position
                parent := prev.parent
                edge_start := prev.edge_start }
              hpa hpb rfl rfl rfl rfl rfl rfl hh.symm
              (fun q => rfl) rfl rfl rfl
          · intro n hn
            have hpn := Except.ok.inj hn
            rw [← hpn]
            refine ⟨?_, rfl, rfl⟩
            rw [setNodeAt_file]
            rw [if_pos rfl]
      · rw [if_neg hs]
        dsimp only
        -- the fresh-key insertion
        obtain ⟨hANdead, hANnn, hANmem, hANnd, hANrec, hANfresh⟩ :=
          allocNode_facts st.gs hW
        revert hANdead hANnn hANmem hANnd hANrec hANfresh
        generalize hA : getNextNodePosition st.gs = A
        intro hANdead hANnn hANmem hANnd hANrec hANfresh
        obtain ⟨npos, reN, restN⟩ := A
        dsimp only at hANdead hANnn hANmem hANnd hANrec hANfresh ⊢
        have hWA : Wf (({ gs := { file := st.gs.file, header := st.gs.header, node_tombstone := restN, edge_tombstone := st.gs.edge_tombstone }, tr := st.tr } : St)).gs := by
          refine @wf_shrink st.gs _ rfl ?_ hANnd (fun p hp => hp) hW.tombEnd
            (le_refl _) hW
          intro p hp
          exact (hANmem p hp).1
        have hParts := incrementNode_parts cfg ({ gs := { file := st.gs.file, header := st.gs.header, node_tombstone := restN, edge_tombstone := st.gs.edge_tombstone }, tr := st.tr } : St) reN
        have hWB : Wf ((incrementNode cfg ({ gs := { file := st.gs.file, header := st.gs.header, node_tombstone := restN, edge_tombstone := st.gs.edge_tombstone }, tr := st.tr } : St) reN)).gs := by
          refine wf_parts hParts.1 hParts.2.1 hParts.2.2.1 ?_ hWA
          rw [hParts.2.2.2]
          split_ifs <;> omega
        revert hParts hWB
        generalize hSB : incrementNode cfg ({ gs := { file := st.gs.file, header := st.gs.header, node_tombstone := restN, edge_tombstone := st.gs.edge_tombstone }, tr := st.tr } : St) reN = stB
        intro hParts hWB
        dsimp only at hParts
        obtain ⟨hBfile, hBnt, hBet, hBbump⟩ := hParts
        obtain ⟨hAEdead, hAEnn, hAEmem, hAEnd, hAErec, hAEfresh⟩ :=
          allocEdge_facts stB.gs hWB
        revert hAEdead hAEnn hAEmem hAEnd hAErec hAEfresh
        generalize hB : getNextEdgePosition stB.gs = B
        intro hAEdead hAEnn hAEmem hAEnd hAErec hAEfresh
        obtain ⟨epos, reE, restE⟩ := B
        dsimp only at hAEdead hAEnn hAEmem hAEnd hAErec hAEfresh ⊢
        have hPartsE := incrementEdge_parts cfg ({ gs := { file := stB.gs.file, header := stB.gs.header, node_tombstone := stB.gs.node_tombstone, edge_tombstone := restE }, tr := stB.tr } : St) reE
        revert hPartsE
        generalize hSD : incrementEdge cfg ({ gs := { file := stB.gs.file, header := stB.gs.header, node_tombstone := stB.gs.node_tombstone, edge_tombstone := restE }, tr := stB.tr } : St) reE = stD
        intro hPartsE
        dsimp only at hPartsE
        obtain ⟨hDfile, hDnt, hDet, hDbump⟩ := hPartsE
        have hfD : stD.gs.file = st.gs.file := hDfile.trans hBfile
        have hntD : stD.gs.node_tombstone = restN := hDnt.trans hBnt
        have hetD : stD.gs.edge_tombstone = restE := hDet
        -- bump-pointer bookkeeping
        have hBbT : reN = true → stB.gs.header.next_table_position =
            st.gs.header.next_table_position := by
          intro h; rw [hBbump, h]; simp
        have hBbF : reN = false → stB.gs.header.next_table_position =
            st.gs.header.next_table_position + cfg.R := by
          intro h; rw [hBbump, h]; simp
        have hDbT : reE = true → stD.gs.header.next_table_position =
            stB.gs.header.next_table_position := by
          intro h; rw [hDbump, h]; simp
        have hDbF : reE = false → stD.gs.header.next_table_position =
            stB.gs.header.next_table_position + 1 := by
          intro h; rw [hDbump, h]; simp
        have hBge : st.gs.header.next_table_position ≤
            stB.gs.header.next_table_position := by
          cases hc : reN with
          | false => have := hBbF hc; omega
          | true => have := hBbT hc; omega
        have hDge : stB.gs.header.next_table_position ≤
            stD.gs.header.next_table_position := by
          cases hc : reE with
          | false => have := hDbF hc; omega
          | true => have := hDbT hc; omega
        -- where the two fresh slots sit
        have hnposSep : ((∃ n, st.gs.file npos = .nodeS n) ∧
              npos < st.gs.header.next_table_position) ∨
            (npos = st.gs.header.next_table_position ∧ reN = false) := by
          cases hc : reN with
          | false => exact Or.inr ⟨(hANfresh hc).1, rfl⟩
          | true =>
            obtain ⟨_, hlt, n, hn, _⟩ := hANrec hc
            exact Or.inl ⟨⟨n, hn⟩, hlt⟩
        have heposSep : ((∃ e, st.gs.file epos = .edgeS e) ∧
              epos < st.gs.header.next_table_position) ∨
            (epos = stB.gs.header.next_table_position ∧ reE = false) := by
          cases hc : reE with
          | false => exact Or.inr ⟨(hAEfresh hc).1, rfl⟩
          | true =>
            have hmem := (hAErec hc).1
            rw [hBet] at hmem
            obtain ⟨⟨e, he, _⟩, _, hlt⟩ := hW.tombE epos hmem
            exact Or.inl ⟨⟨e, he⟩, hlt⟩
        have heposDead : (∀ n, st.gs.file epos = .nodeS n →
              n.nexists = false) ∧
            (∀ e, st.gs.file epos = .edgeS e → e.nexists = false) := by
          rw [← hBfile]
          exact hAEdead
        have hne : npos ≠ epos := by
          intro h
          rcases hnposSep with ⟨⟨n, hn⟩, hltN⟩ | ⟨hfrN, hreN⟩
          · rcases heposSep with ⟨⟨e, he⟩, _⟩ | ⟨hfrE, _⟩
            · rw [h, he] at hn; cases hn
            · rw [h, hfrE] at hltN; omega
          · rcases heposSep with ⟨_, hltE⟩ | ⟨hfrE, hreE⟩
            · omega
            · have hRR := hBbF hreN
              omega
        have hnb : npos < stD.gs.header.next_table_position := by
          rcases hnposSep with ⟨_, hlt⟩ | ⟨hfr, hreN⟩
          · omega
          · have := hBbF hreN
            omega
        have heb : epos < stD.gs.header.next_table_position := by
          rcases heposSep with ⟨_, hlt⟩ | ⟨hfr, hreE⟩
          · omega
          · have := hDbF hreE
            omega
        have hsepN : ∀ p ∈ restN, p ∈ st.gs.node_tombstone ∧
            p ≠ npos ∧ p ≠ epos := by
          intro p hp
          obtain ⟨hp1, hp2⟩ := hANmem p hp
          refine ⟨hp1, hp2, ?_⟩
          obtain ⟨⟨n, hn, _⟩, _, hplt⟩ := hW.tombN p hp1
          intro h
          rcases heposSep with ⟨⟨e, he⟩, _⟩ | ⟨hfrE, _⟩
          · rw [h, he] at hn; cases hn
          · rw [h, hfrE] at hplt; omega
        have hsepE : ∀ p ∈ restE, p ∈ st.gs.edge_tombstone ∧
            p ≠ npos ∧ p ≠ epos := by
          intro p hp
          obtain ⟨hp1, hp2⟩ := hAEmem p hp
          rw [hBet] at hp1
          refine ⟨hp1, ?_, hp2⟩
          obtain ⟨⟨e, he, _⟩, _, hplt⟩ := hW.tombE p hp1
          intro h
          rcases hnposSep with ⟨⟨n, hn⟩, _⟩ | ⟨hfrN, _⟩
          · rw [h, hn] at he; cases he
          · rw [h, hfrN] at hplt; omega
        have hPne : ¬(npos = prev.position) := by
          intro h
          rw [← h] at hpa
          have := hANdead.1 prev hpa
          rw [hpb] at this
          cases this
        refine ⟨?_, ?_⟩
        · refine insert_node_wf st.gs _ hW prev.position npos epos prev
            (if s = -1 then
              { is_node := prev.is_node, nexists := prev.nexists,
                hash := prev.hash, left := npos, right := prev.right,
                index := prev.index, position := prev.position,
                parent := prev.parent, edge_start := prev.edge_start,
                key := prev.key }
            else
              { is_node := prev.is_node, nexists := prev.nexists,
                hash := prev.hash, left := prev.left, right := npos,
                index := prev.index, position := prev.position,
                parent := prev.parent, edge_start := prev.edge_start,
                key := prev.key })
            { is_node := (addNodeProbe cfg st.gs k).is_node,
              nexists := (addNodeProbe cfg st.gs k).nexists,
              hash := (addNodeProbe cfg st.gs k).hash,
              left := (addNodeProbe cfg st.gs k).left,
              right := (addNodeProbe cfg st.gs k).right,
              index := (addNodeProbe cfg st.gs k).index,
              position := npos, parent := prev.position,
              edge_start := epos,
              key := (addNodeProbe cfg st.gs k).key }
            { is_node := zeroEdge.is_node, nexists := true,
              is_edge_start := true, position := epos,
              source_position := npos,
              target_position := zeroEdge.target_position,
              hash := (addNodeProbe cfg st.gs k).hash,
              out_edge_left := zeroEdge.out_edge_left,
              out_edge_right := zeroEdge.out_edge_right,
              out_edge_parent := zeroEdge.out_edge_parent,
              in_edge_left := zeroEdge.in_edge_left,
              in_edge_right := zeroEdge.in_edge_right,
              in_edge_parent := zeroEdge.in_edge_parent,
              type := zeroEdge.type }
            hpa hpb rfl rfl rfl rfl rfl rfl rfl rfl rfl rfl rfl
            (fun out => by cases out <;> rfl)
            (fun out => by cases out <;> rfl)
            (by split_ifs <;> rfl)
            (by split_ifs <;> rfl)
            (by split_ifs <;> exact hpb)
            (by split_ifs <;> rfl)
            (by split_ifs <;> rfl)
            ?_ hANdead heposDead hne ?_ ?_ ⟨hANnn, ?_⟩ ⟨hAEnn, ?_⟩
            ?_ ?_ ?_ ?_
          · rcases hpc with ⟨hside, hL0⟩ | ⟨hside, hR0⟩ | ⟨h0, _, _⟩
            · exact Or.inl ⟨by rw [if_pos hside], by rw [if_pos hside], hL0⟩
            · have hne1 : ¬(s = -1) := by rw [hside]; decide
              exact Or.inr ⟨by rw [if_neg hne1], by rw [if_neg hne1], hR0⟩
            · exact absurd h0 hs
          · intro q
            rw [setNodeAt_file, setEdgeAt_file, setNodeAt_file, hfD]
          · rw [setNodeAt_header, setEdgeAt_header, setNodeAt_header]
            omega
          · rw [setNodeAt_header, setEdgeAt_header, setNodeAt_header]
            exact hnb
          · rw [setNodeAt_header, setEdgeAt_header, setNodeAt_header]
            exact heb
          · intro p hp
            rw [setNodeAt_node_tomb, setEdgeAt_node_tomb, setNodeAt_node_tomb,
              hntD] at hp
            exact hsepN p hp
          · intro p hp
            rw [setNodeAt_edge_tomb, setEdgeAt_edge_tomb, setNodeAt_edge_tomb,
              hetD] at hp
            exact hsepE p hp
          · rw [setNodeAt_node_tomb, setEdgeAt_node_tomb, setNodeAt_node_tomb,
              hntD]
            exact hANnd
          · rw [setNodeAt_edge_tomb, setEdgeAt_edge_tomb, setNodeAt_edge_tomb,
              hetD]
            exact hAEnd
        · intro n hn
          have hnn := Except.ok.inj hn
          rw [← hnn]
          refine ⟨?_, rfl, rfl⟩
          dsimp only
          rw [setNodeAt_file, setEdgeAt_file, setNodeAt_file]
          rw [if_neg hPne, if_neg hne, if_pos rfl]

end Kinbaku
